import Mathlib

/-!
# The server dispatch handlers and the client engine of the ixp 9P2000 library

A shallow embedding of `srv/fcall.go`, the per-message preflight and postflight
handlers of the server engine, and of the request engine of `clnt/clnt.go`
(submission, receive loop, teardown, request allocation, version negotiation). The
`Respond*` methods of `srv/respond.go` appear as the calls the handlers make to them.

* Machine integers are natural numbers; `uint32` and `uint64` arithmetic that can
  wrap is reduced modulo `2^32` and `2^64` explicitly.
* A handler returns the records it may have written together with the list of the
  calls it made, in order: `Respond*` methods of the request, `ReqOps` methods and
  `AuthOps` methods of the backing implementation.
* The backing implementation (`ReqOps`, `AuthOps`), the user pool and the codec are
  parameters.
-/

set_option autoImplicit false

namespace Ixp

/-! ## Constants -/

/-- Modelled from the spec: `ixp.IOHDRSZ`, a constant of the root package (not among
the sources); the spec gives 24 bytes. -/
def IOHDRSZ : Nat := 24

/-- Modelled from the spec: `ixp.NOTAG`, the tag sentinel `0xFFFF`. -/
def NOTAG : Nat := 0xFFFF

/-- Modelled from the spec: `ixp.NOFID`, the fid sentinel `0xFFFFFFFF`. -/
def NOFID : Nat := 0xFFFFFFFF

/-- Modelled from the spec: `ixp.NOUID`, the uid sentinel `0xFFFFFFFF`. -/
def NOUID : Nat := 0xFFFFFFFF

/-- Modelled from the spec: `ixp.QTDIR`, the directory bit of a qid type; the value is
the one of the 9P2000 protocol, which the spec follows verbatim. -/
def QTDIR : Nat := 0x80

/-- Modelled from the spec: `ixp.QTAUTH`, the auth-channel bit of a qid type (9P2000). -/
def QTAUTH : Nat := 0x08

/-- Modelled from the spec: `ixp.OREAD`, the read-only open mode (9P2000). -/
def OREAD : Nat := 0

/-- Modelled from the spec: `ixp.EINVAL`, the errno of an invalid argument. -/
def EINVAL : Nat := 22

/-- Modelled from the spec: message kind `Tversion` (9P2000 numbering). -/
def Tversion : Nat := 100

/-- Modelled from the spec: message kind `Rversion` (9P2000 numbering). -/
def Rversion : Nat := 101

/-- Modelled from the spec: message kind `Rauth`. -/
def Rauth : Nat := 103

/-- Modelled from the spec: message kind `Rattach`. -/
def Rattach : Nat := 105

/-- Modelled from the spec: message kind `Rerror`. -/
def Rerror : Nat := 107

/-- Modelled from the spec: message kind `Rwalk`. -/
def Rwalk : Nat := 111

/-- Modelled from the spec: message kind `Ropen`. -/
def Ropen : Nat := 113

/-- Modelled from the spec: message kind `Rcreate`. -/
def Rcreate : Nat := 115

/-- Modelled from the spec: message kind `Tread`. -/
def Tread : Nat := 116

/-- Modelled from the spec: message kind `Rread`. -/
def Rread : Nat := 117

/-- Modelled from the spec: message kind `Rclunk`. -/
def Rclunk : Nat := 121

/-- Modelled from the spec: status bit `reqFlush` of a server request (the constants of
the status bitset are declared in a file that is not among the sources). -/
def reqFlush : Nat := 1

/-- Modelled from the spec: status bit `reqWork`. -/
def reqWork : Nat := 2

/-- Modelled from the spec: status bit `reqResponded`. -/
def reqResponded : Nat := 4

/-- Modelled from the spec: status bit `reqSaved`. -/
def reqSaved : Nat := 8

/-- Value of a sum or conversion in `uint32`. -/
def u32 (n : Nat) : Nat := n % 2 ^ 32

/-- Value of a sum or conversion in `uint64`. -/
def u64 (n : Nat) : Nat := n % 2 ^ 64

/-! ## Data model -/

/-- Server-assigned identity of a file (`ixp.Qid`); the field `Type` is `Typ` here. -/
structure Qid where
  Typ : Nat := 0
  Version : Nat := 0
  Path : Nat := 0
deriving DecidableEq, Repr, Inhabited

/-- One decoded message (`ixp.Fcall`), with the fields the handlers read or test; the
field `Type` is `Typ` here. -/
structure Fcall where
  Typ : Nat := 0
  Tag : Nat := 0
  Fid : Nat := 0
  Afid : Nat := 0
  Newfid : Nat := 0
  Oldtag : Nat := 0
  Msize : Nat := 0
  Version : String := ""
  Uname : String := ""
  Aname : String := ""
  Unamenum : Nat := 0
  Wname : List String := []
  Wqid : List Qid := []
  Qid : Qid := {}
  Mode : Nat := 0
  Perm : Nat := 0
  Offset : Nat := 0
  Count : Nat := 0
  Data : List Nat := []
  Error : String := ""
  Errornum : Nat := 0
deriving DecidableEq, Repr, Inhabited

/-- Errors a handler can respond with: the error variables of package `srv` (distinct
objects, compared by identity), and any other error value `mk msg errnum`, such as
`&ixp.Error{"msize too small", ixp.EINVAL}` or one returned by the backing
implementation. -/
inductive Error where
  | Eunknownfid
  | Enoauth
  | Einuse
  | Ebaduse
  | Eopen
  | Enotdir
  | Eperm
  | Etoolarge
  | Ebadoffset
  | Enouser
  | Enotimpl
  | mk (msg : String) (Errornum : Nat)
deriving DecidableEq, Repr, Inhabited

/-- Server-side fid record (`srv.Fid`); the field `Type` is `Typ` here, and `User` is
the identity of the authenticated user, if set. -/
structure Fid where
  fid : Nat := 0
  refcount : Nat := 0
  opened : Bool := false
  Omode : Nat := 0
  Typ : Nat := 0
  Diroffset : Nat := 0
  User : Option Nat := none
deriving DecidableEq, Repr, Inhabited

/-- Methods of the required capability `ReqOps`. -/
inductive ReqOp where
  | Attach | Walk | Open | Create | Read | Write | Clunk | Remove | Stat | Wstat
deriving DecidableEq, Repr

/-- Methods of the optional capability `AuthOps`. -/
inductive AuthOp where
  | AuthInit | AuthCheck | AuthRead | AuthWrite | AuthDestroy
deriving DecidableEq, Repr

/-- A call made by a handler: a `Respond*` method of the request with its arguments
(`Respond n` is the plain `req.Respond()` of the auth read path, on the `Rread` whose
count was set to `n`), a `ReqOps` method, or an `AuthOps` method. -/
inductive Call where
  | RespondError (e : Error)
  | RespondRversion (msize : Nat) (version : String)
  | RespondRauth (aqid : Qid)
  | RespondRwrite (count : Nat)
  | RespondRclunk
  | Respond (count : Nat)
  | reqOps (m : ReqOp)
  | authOps (m : AuthOp)
deriving DecidableEq, Repr

/-- The call is one of the `Respond*` methods. -/
def Call.isRespond : Call → Bool
  | .reqOps _ => false
  | .authOps _ => false
  | _ => true

/-- The call is a `ReqOps` method. -/
def Call.isReqOps : Call → Bool
  | .reqOps _ => true
  | _ => false

/-- The optional capability `AuthOps` of the backing implementation, as the results its
methods return: `AuthCheck fid afid aname` is `none` for a nil error; `AuthRead fid
offset count` and `AuthWrite fid offset data` return the Go `int` count or an error. -/
structure AuthOps where
  AuthInit : Fid → String → Except Error Qid
  AuthCheck : Fid → Option Fid → String → Option Error
  AuthRead : Fid → Nat → Nat → Except Error Int
  AuthWrite : Fid → Nat → List Nat → Except Error Int

/-- The server (`srv.Srv`): its `Dotu` flag, the two lookups of its user pool `Upool`
(`none` is the nil user), and `authOps`, the result of the type assertion
`(srv.ops).(AuthOps)`. -/
structure Srv where
  Dotu : Bool
  Uid2User : Nat → Option Nat
  Uname2User : String → Option Nat
  authOps : Option AuthOps

/-- The outcomes of the codec that the handlers branch on: `InitRread count` is the
error `ixp.InitRread` returns for that count, `none` when it returns nil. -/
structure Codec where
  InitRread : Nat → Option Error

/-- A 32-bit conversion `uint32(n)` of a Go `int`. -/
def toU32 (n : Int) : Nat := (n % 2 ^ 32).toNat

/-! ## Handlers that touch only `req.Fid`

`Msize` and `Dotu` are `req.Conn.Msize` and `req.Conn.Dotu`, `tc` is `req.Tc`, and
`fid` is the record `req.Fid` points to (the dispatcher calls these handlers with a
non-nil `req.Fid`). The result is that record after the handler and the calls made. -/

/-- Preflight of Tread (`Srv.read`, fcall.go 299-343). -/
def Srv.read (srv : Srv) (codec : Codec) (Msize : Nat) (tc : Fcall) (fid : Fid) :
    Fid × List Call :=
  if u32 (tc.Count + IOHDRSZ) > Msize then
    (fid, [.RespondError .Etoolarge])
  else if fid.Typ &&& QTAUTH ≠ 0 then
    match codec.InitRread tc.Count with
    | some err => (fid, [.RespondError err])
    | none =>
      match srv.authOps with
      | some op =>
        match op.AuthRead fid tc.Offset tc.Count with
        | .error err => (fid, [.authOps .AuthRead, .RespondError err])
        | .ok n => (fid, [.authOps .AuthRead, .Respond (toU32 n)])
      | none => (fid, [.RespondError .Enotimpl])
  else if fid.Typ &&& QTDIR ≠ 0 then
    if tc.Offset = 0 then
      ({ fid with Diroffset := 0 }, [.reqOps .Read])
    else if tc.Offset ≠ fid.Diroffset then
      (fid, [.RespondError .Ebadoffset])
    else
      (fid, [.reqOps .Read])
  else
    (fid, [.reqOps .Read])

/-- Postflight of Tread (`Srv.readPost`, fcall.go 345-349); `rc` is `req.Rc`, `none`
when nil. -/
def Srv.readPost (rc : Option Fcall) (fid : Fid) : Fid :=
  match rc with
  | some r =>
    if r.Typ = Rread ∧ fid.Typ &&& QTDIR ≠ 0 then
      { fid with Diroffset := u64 (fid.Diroffset + r.Count) }
    else fid
  | none => fid

/-- Preflight of Twrite (`Srv.write`, fcall.go 351-381). -/
def Srv.write (srv : Srv) (Msize : Nat) (tc : Fcall) (fid : Fid) : Fid × List Call :=
  if fid.Typ &&& QTAUTH ≠ 0 then
    match srv.authOps with
    | some op =>
      match op.AuthWrite fid tc.Offset tc.Data with
      | .error err => (fid, [.authOps .AuthWrite, .RespondError err])
      | .ok n => (fid, [.authOps .AuthWrite, .RespondRwrite (toU32 n)])
    | none => (fid, [.RespondError .Enotimpl])
  else if !fid.opened ∨ fid.Typ &&& QTDIR ≠ 0 ∨ fid.Omode &&& 3 = OREAD then
    (fid, [.RespondError .Ebaduse])
  else if u32 (tc.Count + IOHDRSZ) > Msize then
    (fid, [.RespondError .Etoolarge])
  else
    (fid, [.reqOps .Write])

/-- Preflight of Topen (`Srv.open`, fcall.go 240-255). -/
def Srv.open (tc : Fcall) (fid : Fid) : Fid × List Call :=
  if fid.opened then
    (fid, [.RespondError .Eopen])
  else if fid.Typ &&& QTDIR ≠ 0 ∧ tc.Mode ≠ OREAD then
    (fid, [.RespondError .Eperm])
  else
    ({ fid with Omode := tc.Mode }, [.reqOps .Open])

/-- Postflight of Topen (`Srv.openPost`, fcall.go 257-261); `rc` is `req.Rc` and `fid`
the record `req.Fid` points to, each `none` when nil. -/
def Srv.openPost (rc : Option Fcall) (fid : Option Fid) : Option Fid :=
  match fid with
  | some f =>
    some { f with opened := match rc with
                            | some r => decide (r.Typ = Ropen)
                            | none => false }
  | none => none

/-- Modelled from the spec: permission bit `ixp.DMDIR` (9P2000). -/
def DMDIR : Nat := 0x80000000

/-- Modelled from the spec: permission bit `ixp.DMSYMLINK` (9P2000.u). -/
def DMSYMLINK : Nat := 0x02000000

/-- Modelled from the spec: permission bit `ixp.DMLINK` (9P2000.u). -/
def DMLINK : Nat := 0x01000000

/-- Modelled from the spec: permission bit `ixp.DMDEVICE` (9P2000.u). -/
def DMDEVICE : Nat := 0x00800000

/-- Modelled from the spec: permission bit `ixp.DMNAMEDPIPE` (9P2000.u). -/
def DMNAMEDPIPE : Nat := 0x00200000

/-- Modelled from the spec: permission bit `ixp.DMSOCKET` (9P2000.u). -/
def DMSOCKET : Nat := 0x00100000

/-- Preflight of Tcreate (`Srv.create`, fcall.go 263-290). -/
def Srv.create (Dotu : Bool) (tc : Fcall) (fid : Fid) : Fid × List Call :=
  if fid.opened then
    (fid, [.RespondError .Eopen])
  else if fid.Typ &&& QTDIR = 0 then
    (fid, [.RespondError .Enotdir])
  else if tc.Perm &&& DMDIR ≠ 0 ∧ tc.Mode ≠ OREAD then
    (fid, [.RespondError .Eperm])
  else if tc.Perm &&& (DMNAMEDPIPE ||| DMSYMLINK ||| DMLINK ||| DMDEVICE ||| DMSOCKET) ≠ 0
      ∧ !Dotu then
    (fid, [.RespondError .Eperm])
  else
    ({ fid with Omode := tc.Mode }, [.reqOps .Create])

/-- Preflight of Tclunk (`Srv.clunk`, fcall.go 383-397). -/
def Srv.clunk (srv : Srv) (fid : Fid) : Fid × List Call :=
  if fid.Typ &&& QTAUTH ≠ 0 then
    match srv.authOps with
    | some _ => (fid, [.authOps .AuthDestroy, .RespondRclunk])
    | none => (fid, [.RespondError .Enotimpl])
  else
    (fid, [.reqOps .Clunk])

/-- Postflight of Tcreate (`Srv.createPost`, fcall.go 292-297); `rc` is `req.Rc` and
`fid` the record `req.Fid` points to, each `none` when nil. -/
def Srv.createPost (rc : Option Fcall) (fid : Option Fid) : Option Fid :=
  match rc, fid with
  | some r, some f =>
    if r.Typ = Rcreate then some { f with Typ := r.Qid.Typ, opened := true } else some f
  | _, f => f

/-! ## Handlers that use the fid table

Fid records live in a store addressed by pointers, so that `req.Fid`, `req.Afid`
and `req.Newfid` can be nil, distinct, or the same record. -/

/-- Address of a fid record. -/
abbrev Ptr := Nat

/-- A server request (`srv.Req`): the T-message, the reply buffer with the reply
packed so far (`none` when nil), the three fid pointers (`none` when nil), the
status bitset, and `flushreq`, the head of the chain of flush requests that target
this request (an address in the store of requests, `none` when nil). -/
structure Req where
  Tc : Fcall := {}
  Rc : Option Fcall := none
  Fid : Option Ptr := none
  Afid : Option Ptr := none
  Newfid : Option Ptr := none
  status : Nat := 0
  flushreq : Option Ptr := none
deriving DecidableEq, Repr, Inhabited

/-- A server connection (`srv.Conn`): negotiated `Msize` and `Dotu`, the fid table
`fidpool` (fid number to record), and the map `reqs` of outstanding requests, each
entry a tag with the chain of requests linked through `next` from the map value. -/
structure Conn where
  Msize : Nat
  Dotu : Bool
  fidpool : Nat → Option Ptr
  reqs : List (Nat × List Req)

/-- A connection together with the store of fid records: `mem p` is the record at
address `p`, and `brk` the address the next `new(Fid)` returns. -/
structure World where
  conn : Conn
  mem : Ptr → Fid
  brk : Ptr

/-- Write a fid record back to the store. -/
def World.put (w : World) (p : Ptr) (f : Fid) : World :=
  { w with mem := Function.update w.mem p f }

/-- Modelled from the spec: `Conn.FidNew`, declared in a file that is not among the
sources: insert a new record for the fid number if it is absent from the table, with
refcount 1, and return it; return nil if the number is in use. -/
def Conn.FidNew (w : World) (fidno : Nat) : World × Option Ptr :=
  match w.conn.fidpool fidno with
  | some _ => (w, none)
  | none =>
    ({ conn := { w.conn with fidpool := Function.update w.conn.fidpool fidno (some w.brk) }
       mem := Function.update w.mem w.brk { fid := fidno, refcount := 1 }
       brk := w.brk + 1 },
     some w.brk)

/-- Modelled from the spec: `Conn.FidGet`, declared in a file that is not among the
sources: return the record of the fid number if present, else nil. -/
def Conn.FidGet (w : World) (fidno : Nat) : Option Ptr :=
  w.conn.fidpool fidno

/-- Modelled from the spec: `Fid.IncRef`, declared in a file that is not among the
sources: increment the reference count of the record. -/
def Fid.IncRef (w : World) (p : Ptr) : World :=
  w.put p { w.mem p with refcount := (w.mem p).refcount + 1 }

/-- Preflight of Tauth (`Srv.auth`, fcall.go 48-88). -/
def Srv.auth (srv : Srv) (w : World) (req : Req) : World × Req × List Call :=
  let tc := req.Tc
  if tc.Afid = NOFID then
    (w, req, [.RespondError .Eunknownfid])
  else
    match Conn.FidNew w tc.Afid with
    | (w1, none) => (w1, { req with Afid := none }, [.RespondError .Einuse])
    | (w1, some ap) =>
      let req1 := { req with Afid := some ap }
      let user : Option Nat :=
        if tc.Unamenum ≠ NOUID ∨ w1.conn.Dotu then srv.Uid2User tc.Unamenum
        else if tc.Uname ≠ "" then srv.Uname2User tc.Uname
        else none
      match user with
      | none => (w1, req1, [.RespondError .Enouser])
      | some u =>
        let w2 := w1.put ap { w1.mem ap with User := some u, Typ := QTAUTH }
        match srv.authOps with
        | some aop =>
          match aop.AuthInit (w2.mem ap) tc.Aname with
          | .error err => (w2, req1, [.authOps .AuthInit, .RespondError err])
          | .ok aqid =>
            (w2, req1, [.authOps .AuthInit,
              .RespondRauth { aqid with Typ := aqid.Typ ||| QTAUTH }])
        | none => (w2, req1, [.RespondError .Enoauth])

/-- Preflight of Tattach (`Srv.attach`, fcall.go 96-139). The calls are accumulated in
program order: the `RespondError(Eunknownfid)` of the missing-afid branch is followed
by the rest of the function, as in the source. -/
def Srv.attach (srv : Srv) (w : World) (req : Req) : World × Req × List Call :=
  let tc := req.Tc
  if tc.Fid = NOFID then
    (w, req, [.RespondError .Eunknownfid])
  else
    match Conn.FidNew w tc.Fid with
    | (w1, none) => (w1, { req with Fid := none }, [.RespondError .Einuse])
    | (w1, some fp) =>
      let req1 := { req with Fid := some fp }
      let (req2, calls1) : Req × List Call :=
        if tc.Afid ≠ NOFID then
          let req' := { req1 with Afid := Conn.FidGet w1 tc.Afid }
          if req'.Afid = none then (req', [.RespondError .Eunknownfid]) else (req', [])
        else (req1, [])
      let user : Option Nat :=
        if tc.Unamenum ≠ NOUID ∨ w1.conn.Dotu then srv.Uid2User tc.Unamenum
        else if tc.Uname ≠ "" then srv.Uname2User tc.Uname
        else none
      match user with
      | none => (w1, req2, calls1 ++ [.RespondError .Enouser])
      | some u =>
        let w2 := w1.put fp { w1.mem fp with User := some u }
        match srv.authOps with
        | some aop =>
          match aop.AuthCheck (w2.mem fp) (req2.Afid.map w2.mem) tc.Aname with
          | some err => (w2, req2, calls1 ++ [.authOps .AuthCheck, .RespondError err])
          | none => (w2, req2, calls1 ++ [.authOps .AuthCheck, .reqOps .Attach])
        | none => (w2, req2, calls1 ++ [.reqOps .Attach])

/-- Preflight of Twalk (`Srv.walk`, fcall.go 183-215); `none` is the nil dereference of
a request without `Fid`. -/
def Srv.walk (w : World) (req : Req) : Option (World × Req × List Call) :=
  match req.Fid with
  | none => none
  | some fp =>
    let tc := req.Tc
    if tc.Wname.length > 0 ∧ (w.mem fp).Typ &&& QTDIR = 0 then
      some (w, req, [.RespondError .Enotdir])
    else if (w.mem fp).opened then
      some (w, req, [.RespondError .Ebaduse])
    else if tc.Fid ≠ tc.Newfid then
      match Conn.FidNew w tc.Newfid with
      | (w1, none) => some (w1, { req with Newfid := none }, [.RespondError .Einuse])
      | (w1, some np) =>
        let w2 := w1.put np { w1.mem np with User := (w1.mem fp).User }
        let w3 := w2.put np { w2.mem np with Typ := (w2.mem fp).Typ }
        some (w3, { req with Newfid := some np }, [.reqOps .Walk])
    else
      some (Fid.IncRef w fp, { req with Newfid := req.Fid }, [.reqOps .Walk])

/-- Postflight of Twalk (`Srv.walkPost`, fcall.go 217-238); `none` is the nil
dereference of a request without `Fid`. -/
def Srv.walkPost (w : World) (req : Req) : Option World :=
  match req.Rc, req.Newfid with
  | none, _ => some w
  | some _, none => some w
  | some rc, some np =>
    if rc.Typ ≠ Rwalk then some w
    else
      let n := rc.Wqid.length
      let typed : Option World :=
        if n > 0 then
          some (w.put np { w.mem np with Typ := (rc.Wqid.getD (n - 1) default).Typ })
        else
          req.Fid.map fun fp => w.put np { w.mem np with Typ := (w.mem fp).Typ }
      match typed with
      | none => none
      | some w1 =>
        if n ≠ req.Tc.Wname.length then some w1
        else
          match req.Fid with
          | none => none
          | some fp =>
            if (w1.mem np).fid ≠ (w1.mem fp).fid then some (Fid.IncRef w1 np)
            else some w1

/-- Handler of Tversion (`Srv.version`, fcall.go 11-46). Every entry of `conn.reqs`
whose tag is not `NOTAG` has `reqFlush` or-ed into the status of each request of its
chain. -/
def Srv.version (srv : Srv) (conn : Conn) (tc : Fcall) : Conn × List Call :=
  if tc.Msize < IOHDRSZ then
    (conn, [.RespondError (.mk "msize too small" EINVAL)])
  else
    let msize := if tc.Msize < conn.Msize then tc.Msize else conn.Msize
    let dotu := tc.Version == "9P2000.u" && srv.Dotu
    let ver := if dotu then "9P2000.u" else "9P2000"
    let reqs := conn.reqs.map fun (e : Nat × List Req) =>
      if e.1 = NOTAG then e
      else (e.1, e.2.map fun rr => { rr with status := rr.status ||| reqFlush })
    ({ conn with Msize := msize, Dotu := dotu, reqs := reqs },
     [.RespondRversion msize ver])

/-! ## Sequences of directory reads

A round is a Tread `tc` together with the reply `rc` that reaches the postflight
(`none` for a nil `req.Rc`): the reply of the backing `Read` when the preflight handed
the request over, the reply packed by the handler otherwise. -/

/-- One round on a fid record: the preflight `read`, then `readPost` on the reply. -/
def readRound (srv : Srv) (codec : Codec) (Msize : Nat) (fid : Fid)
    (r : Fcall × Option Fcall) : Fid :=
  Srv.readPost r.2 (Srv.read srv codec Msize r.1 fid).1

/-- A sequence of rounds on a fid record, in order. -/
def readRounds (srv : Srv) (codec : Codec) (Msize : Nat) : Fid → List (Fcall × Option Fcall) → Fid
  | fid, [] => fid
  | fid, r :: rs => readRounds srv codec Msize (readRound srv codec Msize fid r) rs

/-- Every Tread of the sequence that its preflight handed to `ReqOps.Read` had a
non-zero offset. -/
def acceptedOffsetsNonzero (srv : Srv) (codec : Codec) (Msize : Nat) :
    Fid → List (Fcall × Option Fcall) → Bool
  | _, [] => true
  | fid, r :: rs =>
    (!(decide ((Srv.read srv codec Msize r.1 fid).2 = [.reqOps .Read]) && decide (r.1.Offset = 0)))
      && acceptedOffsetsNonzero srv codec Msize (readRound srv codec Msize fid r) rs

/-- Sum of the `Count` fields of the Rread replies of a sequence of rounds. -/
def rreadBytes : List (Fcall × Option Fcall) → Nat
  | [] => 0
  | (_, some rc) :: rs => (if rc.Typ = Rread then rc.Count else 0) + rreadBytes rs
  | (_, none) :: rs => rreadBytes rs

/-! ## Example configurations -/

/-- A server without `AuthOps`, without dotu and with an empty user pool. -/
def plainSrv : Srv := ⟨false, fun _ => none, fun _ => none, none⟩

/-- A codec whose `InitRread` never fails. -/
def plainCodec : Codec := ⟨fun _ => none⟩

/-- A server without `AuthOps` whose user pool knows the user name `glenda`. -/
def glendaSrv : Srv := ⟨false, fun _ => none, fun n => if n = "glenda" then some 1 else none, none⟩

/-- A connection with `msize = 8216`, an empty fid table and no outstanding request,
over an empty store. -/
def emptyWorld : World := ⟨⟨8216, false, fun _ => none, []⟩, fun _ => {}, 0⟩

/-- The handler made exactly one `Respond*` call and no `ReqOps` call, or exactly one
`ReqOps` call and no `Respond*` call. -/
def oneOutcome (calls : List Call) : Prop :=
  (calls.countP Call.isRespond = 1 ∧ calls.countP Call.isReqOps = 0) ∨
  (calls.countP Call.isReqOps = 1 ∧ calls.countP Call.isRespond = 0)

/-- A store with the record of fid 0, a directory, at address 0 and the record of
fid `newfidno`, allocated by the walk preflight, at address 1, both in the fid table. -/
def walkWorld (newfidno : Nat) : World :=
  ⟨⟨8216, false, fun n => if n = 0 then some 0 else if n = newfidno then some 1 else none, []⟩,
    fun p => if p = 1 then { fid := newfidno, refcount := 1, Typ := QTDIR }
      else { fid := 0, refcount := 1, Typ := QTDIR },
    2⟩

/-- A server with dotu enabled, without `AuthOps` and with an empty user pool. -/
def dotuSrv : Srv := ⟨true, fun _ => none, fun _ => none, none⟩

/-- A connection with two requests outstanding under tag `NOTAG`, a Tversion being
worked on and a Tread, and one Tread being worked on under tag 5. -/
def notagConn : Conn :=
  ⟨8216, false, fun _ => none,
    [(NOTAG, [{ Tc := { Typ := Tversion, Tag := NOTAG, Msize := 8216, Version := "9P2000" },
                status := reqWork },
              { Tc := { Typ := Tread, Tag := NOTAG, Fid := 1, Count := 10 }, status := 0 }]),
     (5, [{ Tc := { Typ := Tread, Tag := 5, Fid := 1, Count := 10 }, status := reqWork }])]⟩

/-- The status of a request after `version` flagged it: the Flush bit is set, every
other bit and every other field of the request is as before. -/
def flaggedFrom (r r' : Req) : Prop :=
  { r' with status := r.status } = r ∧ r'.status &&& reqFlush = reqFlush ∧
    ∀ k, reqFlush.testBit k = false → r'.status.testBit k = r.status.testBit k

/-! ## Postflight handlers that count references -/

/-- Modelled from the spec: message kind `Rremove` (9P2000 numbering). -/
def Rremove : Nat := 123

/-- Modelled from the spec: `Fid.DecRef`, declared in a file that is not among the
sources: decrement the reference count of the record and, when it has dropped to
zero, remove the fid number from the fid table (the `FidDestroyOp` capability that is
then invoked is not recorded). The count is a natural number: a count of 0 stays 0. -/
def Fid.DecRef (w : World) (p : Ptr) : World :=
  let w1 := w.put p { w.mem p with refcount := (w.mem p).refcount - 1 }
  if (w1.mem p).refcount > 0 then w1
  else { w1 with conn := { w1.conn with
          fidpool := Function.update w1.conn.fidpool (w1.mem p).fid none } }

/-- Postflight of Tauth (`Srv.authPost`, fcall.go 90-94); `none` is the nil dereference
of a request without `Afid`. -/
def Srv.authPost (w : World) (req : Req) : Option World :=
  match req.Rc with
  | some rc =>
    if rc.Typ = Rauth then
      match req.Afid with
      | some ap => some (Fid.IncRef w ap)
      | none => none
    else some w
  | none => some w

/-- Postflight of Tattach (`Srv.attachPost`, fcall.go 141-146); `none` is the nil
dereference of a request without `Fid`. -/
def Srv.attachPost (w : World) (req : Req) : Option World :=
  match req.Rc with
  | some rc =>
    if rc.Typ = Rattach then
      match req.Fid with
      | some fp => some (Fid.IncRef (w.put fp { w.mem fp with Typ := rc.Qid.Typ }) fp)
      | none => none
    else some w
  | none => some w

/-- Postflight of Tclunk (`Srv.clunkPost`, fcall.go 399-403). -/
def Srv.clunkPost (w : World) (req : Req) : World :=
  match req.Rc, req.Fid with
  | some rc, some fp => if rc.Typ = Rclunk then Fid.DecRef w fp else w
  | _, _ => w

/-- Postflight of Tremove (`Srv.removePost`, fcall.go 407-411). -/
def Srv.removePost (w : World) (req : Req) : World :=
  match req.Rc, req.Fid with
  | some _, some fp => Fid.DecRef w fp
  | _, _ => w

/-! ## Client: connecting -/

/-- The two fields of the client (`clnt.Clnt`) that `Connect` negotiates. -/
structure Negotiated where
  Msize : Nat
  Dotu : Bool
deriving DecidableEq, Repr

/-- Version negotiation of the client (`Connect`, clnt.go 330-354). `PackTversion msize
ver` is the error the codec returns for the Tversion (`none` for nil) and `Rpc msize
ver` the pair of reply and error that the round trip of that Tversion returns. The
result is the pair that `Connect` returns, `none` being the nil dereference of a nil
reply returned without error. -/
def Connect (msize : Nat) (dotu : Bool) (PackTversion : Nat → String → Option Error)
    (Rpc : Nat → String → Option Fcall × Option Error) :
    Option (Option Negotiated × Option Error) :=
  let clnt : Negotiated := ⟨msize, dotu⟩
  let ver := if clnt.Dotu then "9P2000.u" else "9P2000"
  match PackTversion clnt.Msize ver with
  | some err => some (none, some err)
  | none =>
    match Rpc clnt.Msize ver with
    | (_, some err) => some (none, some err)
    | (none, none) => none
    | (some rc, none) =>
      some (some ⟨if rc.Msize < clnt.Msize then rc.Msize else clnt.Msize,
                  rc.Version == "9P2000.u" && clnt.Dotu⟩, none)

/-- A codec whose `InitRread` always fails with a buffer error. -/
def failingCodec : Codec := ⟨fun _ => some (.mk "buffer too small" EINVAL)⟩

/-! ## Tflush

The flush handler looks a request up by tag and links requests to each other, so the
requests of the connection are records in a store addressed by pointers. -/

/-- Modelled from the spec: message kind `Rflush` (9P2000 numbering). -/
def Rflush : Nat := 109

/-- The requests of a connection: `reqs` is `conn.reqs`, from a tag to the request
registered under it, and `rmem p` the request record at address `p`. -/
structure ReqStore where
  reqs : Nat → Option Ptr
  rmem : Ptr → Req

/-- Write a request record back to the store. -/
def ReqStore.put (s : ReqStore) (p : Ptr) (r : Req) : ReqStore :=
  { s with rmem := Function.update s.rmem p r }

/-- A call made by the flush handler: `Respond r` is `r.Respond()` on the request at
address `r`, `Flush r` is `FlushOp.Flush(r)` of the backing implementation. -/
inductive FlushCall where
  | Respond (r : Ptr)
  | Flush (r : Ptr)
deriving DecidableEq, Repr

/-- Modelled from the spec: the reply buffer after `ixp.PackRflush` (the codec is not
among the sources): it holds an Rflush. -/
def PackRflush (rc : Option Fcall) : Option Fcall :=
  some { (rc.getD {}) with Typ := Rflush }

/-- Handler of Tflush (`Srv.flush`, fcall.go 148-181), for the flush request at address
`req`; `hasFlushOp` is the result of the type assertion `(srv.ops).(FlushOp)`. -/
def Srv.flush (hasFlushOp : Bool) (s : ReqStore) (req : Ptr) : ReqStore × List FlushCall :=
  let tag := (s.rmem req).Tc.Oldtag
  let s0 := s.put req { s.rmem req with Rc := PackRflush (s.rmem req).Rc }
  match s0.reqs tag with
  | none => (s0, [.Respond req])
  | some r =>
    let s1 := s0.put req { s0.rmem req with flushreq := (s0.rmem r).flushreq }
    let s2 := s1.put r { s1.rmem r with flushreq := some req }
    let status := (s2.rmem r).status
    let s3 :=
      if status &&& (reqWork ||| reqSaved) = 0 then
        s2.put r { s2.rmem r with status := (s2.rmem r).status ||| reqFlush }
      else s2
    if status &&& (reqWork ||| reqSaved) = 0 then (s3, [.Respond r])
    else if hasFlushOp then (s3, [.Flush r])
    else (s3, [])

/-- A store in which the Tread registered under tag 5, at address 1, has status
`status`, and the Tflush for tag 5, registered under tag 6 at address 2, is being
worked on. -/
def flushStore (status : Nat) : ReqStore :=
  ⟨fun t => if t = 5 then some 1 else if t = 6 then some 2 else none,
   fun p => if p = 1 then { Tc := { Typ := Tread, Tag := 5 }, status := status }
     else { Tc := { Tag := 6, Oldtag := 5 }, status := reqWork }⟩

/-! ## Client engine

The requests of a client are records in a store addressed by pointers; the
outstanding list links them through `prev` and `next`. A function of the client that
can dereference nil, or that follows `next` pointers, returns a `Run`. -/

/-- Modelled from the spec: `ixp.EIO`, the errno of an input/output error. -/
def EIO : Nat := 5

/-- Value of a sum or difference in `uint8`. -/
def u8 (n : Nat) : Nat := n % 2 ^ 8

/-- Value of a conversion to `uint16`. -/
def u16 (n : Nat) : Nat := n % 2 ^ 16

/-- Result of running a piece of the client: a value, a panic (nil dereference), or
a traversal of `next` pointers that did not end within the given number of steps. -/
inductive Run (α : Type) where
  | ok (a : α)
  | panic
  | outOfFuel
deriving DecidableEq, Repr

/-- A client request (`clnt.Req`): T-message and reply (`none` when nil), error slot,
whether the `Done` channel is non-nil, the tag drawn from the tag pool, and the links
of the outstanding list. -/
structure CReq where
  Tc : Option Fcall := none
  Rc : Option Fcall := none
  Err : Option Error := none
  Done : Bool := false
  tag : Nat := 0
  prev : Option Ptr := none
  next : Option Ptr := none
deriving DecidableEq, Repr, Inhabited

/-- The client (`clnt.Clnt`): negotiated `Msize` and `Dotu`, the engine error, the ends
of the outstanding list, the recycle channel `reqchan` of freed requests (oldest
first, capacity 16), and the store of request records with the address the next
`new(Req)` returns. `issued` stands for the tag pool: the ids it has issued and that
have not been returned to it. -/
structure Clnt where
  Msize : Nat := 8216
  Dotu : Bool := false
  err : Option Error := none
  reqfirst : Option Ptr := none
  reqlast : Option Ptr := none
  reqchan : List Ptr := []
  issued : List Nat := []
  mem : Ptr → CReq := fun _ => {}
  brk : Ptr := 0

/-- Write a request record back to the store. -/
def Clnt.put (c : Clnt) (p : Ptr) (r : CReq) : Clnt :=
  { c with mem := Function.update c.mem p r }

/-- Submission of a request (`Clnt.Rpcnb`, clnt.go 100-128): the result is the client
and the error returned; the send on `reqout` is not recorded. `SetTag` is taken to
set the tag of the T-message. -/
def Clnt.Rpcnb (c : Clnt) (r : Ptr) : Run (Clnt × Option Error) :=
  match (c.mem r).Tc with
  | none => .panic
  | some tc =>
    let tag := if tc.Typ = Tversion then NOTAG else (c.mem r).tag
    let c1 := c.put r { c.mem r with Tc := some { tc with Tag := tag } }
    if c1.err ≠ none then .ok (c1, c1.err)
    else
      let c2 :=
        match c1.reqlast with
        | some l => c1.put l { c1.mem l with next := some r }
        | none => { c1 with reqfirst := some r }
      let c3 := c2.put r { c2.mem r with prev := c2.reqlast }
      .ok ({ c3 with reqlast := some r }, none)

/-- The search of the receive loop for the request with the tag of the reply
(clnt.go 203-208), from the request `cur`, in at most `fuel` steps. -/
def Clnt.find (mem : Ptr → CReq) (tag : Nat) : Nat → Option Ptr → Run (Option Ptr)
  | _, none => .ok none
  | 0, some _ => .outOfFuel
  | fuel + 1, some r =>
    match (mem r).Tc with
    | none => .panic
    | some tc => if tc.Tag = tag then .ok (some r) else Clnt.find mem tag fuel (mem r).next

/-- The error slot of a matched request after the receive loop compared the kinds of
request and reply (clnt.go 231-241); `r.Rc.Type-1` is a `uint8` difference. -/
def replyErr (tc rc : Fcall) (err : Option Error) : Option Error :=
  if tc.Typ ≠ u8 (rc.Typ + 255) then
    if rc.Typ ≠ Rerror then some (.mk "invalid response" EINVAL)
    else if err = none then some (.mk rc.Error rc.Errornum)
    else err
  else err

/-- How the receive loop goes on after a frame: `running c r` when the reply was
matched to the request `r`, which is then signalled on its `Done` channel if it has
one; `closed c err` when the loop jumps to the label `closed` with its local variable
`err`. -/
inductive RecvOut where
  | running (c : Clnt) (r : Ptr)
  | closed (c : Clnt) (err : Option Error)

/-- The receive loop taking a matched request out of the outstanding list
(clnt.go 218-228). -/
def Clnt.unlink (c : Clnt) (r : Ptr) : Clnt :=
  let c2 :=
    match (c.mem r).prev with
    | some pv => c.put pv { c.mem pv with next := (c.mem r).next }
    | none => { c with reqfirst := (c.mem r).next }
  match (c2.mem r).next with
  | some nx => c2.put nx { c2.mem nx with prev := (c2.mem r).prev }
  | none => { c2 with reqlast := (c2.mem r).prev }

/-- The receive loop on one frame (clnt.go 183-245); `unpack` is what `ixp.Unpack`
returned for the frame. -/
def Clnt.recvFrame (c : Clnt) (unpack : Except Error Fcall) (fuel : Nat) : Run RecvOut :=
  match unpack with
  | .error err => .ok (.closed { c with err := some err } none)
  | .ok fc =>
    match Clnt.find c.mem fc.Tag fuel c.reqfirst with
    | .panic => .panic
    | .outOfFuel => .outOfFuel
    | .ok none =>
      .ok (.closed { c with err := some (.mk "unexpected response" EINVAL) } none)
    | .ok (some r) =>
      let c1 := (c.put r { c.mem r with Rc := some fc }).unlink r
      match (c1.mem r).Tc, (c1.mem r).Rc with
      | some tc, some rc =>
        .ok (.running (c1.put r { c1.mem r with Err := replyErr tc rc (c1.mem r).Err }) r)
      | _, _ => .panic

/-- What the receive loop does with the result of a transport read (clnt.go 160-169):
`n` bytes and the error `oerr`, `none` when nil and else its message. -/
inductive ReadOut where
  | advance (pos : Nat)
  | closed (c : Clnt) (err : Option Error)

/-- The receive loop after `clnt.conn.Read` returned `n` and `oerr` (clnt.go 160-169):
on an error or on zero bytes it builds the engine error from `oerr.Error()`. -/
def Clnt.recvRead (c : Clnt) (pos n : Nat) (oerr : Option String) : Run ReadOut :=
  if oerr ≠ none ∨ n = 0 then
    match oerr with
    | none => .panic
    | some msg => .ok (.closed { c with err := some (.mk msg EIO) } (some (.mk msg EIO)))
  else .ok (.advance (pos + n))

/-- The fan-out of the teardown (clnt.go 264-269): the error is stored in every request
from `cur` on, along `next`, in at most `fuel` steps. -/
def Clnt.fanout (err : Option Error) : Nat → Clnt → Option Ptr → Run Clnt
  | _, c, none => .ok c
  | 0, _, some _ => .outOfFuel
  | fuel + 1, c, some r =>
    Clnt.fanout err fuel (c.put r { c.mem r with Err := err }) (c.mem r).next

/-- The teardown of the receive loop (label `closed`, clnt.go 252-269), entered with the
local variable `err`. -/
def Clnt.closed (c : Clnt) (err : Option Error) (fuel : Nat) : Run Clnt :=
  let r := c.reqfirst
  let c1 := { c with reqfirst := none, reqlast := none }
  let err1 := if err = none then c1.err else err
  Clnt.fanout err1 fuel c1 r

/-- Modelled from the spec: `getId` of the tag pool, which is declared in a file that is
not among the sources: the pool hands out the id `id`, of its choice, which is from
then on among the ids issued and not returned. -/
abbrev Pool.getId (issued : List Nat) (id : Nat) : List Nat := id :: issued

/-- Modelled from the spec: `putId` of the tag pool, which is declared in a file that is
not among the sources: the id is returned to the pool and is no longer among the ids
issued and not returned. -/
abbrev Pool.putId (issued : List Nat) (id : Nat) : List Nat := issued.erase id

/-- Allocation of a request (`Clnt.ReqAlloc`, clnt.go 384-395): a request of the recycle
channel if there is one, else a new record whose tag is `uint16(getId)`, where `getId`
is the id the tag pool returns. -/
def Clnt.ReqAlloc (c : Clnt) (getId : Nat) : Clnt × Ptr :=
  match c.reqchan with
  | r :: rest => ({ c with reqchan := rest }, r)
  | [] =>
    ({ c with mem := Function.update c.mem c.brk { tag := u16 getId }
              brk := c.brk + 1
              issued := Pool.getId c.issued getId },
     c.brk)

/-- The record of a request after `ReqFree` set its T-message, reply, error, `Done`
channel and links to nil (clnt.go 399-404); the tag is kept. -/
def CReq.cleared (r : CReq) : CReq :=
  { r with Tc := none, Rc := none, Err := none, Done := false, next := none, prev := none }

/-- Release of a request (`Clnt.ReqFree`, clnt.go 397-412): the record is cleared
except for its tag, and is parked in the recycle channel if that has room; otherwise
its tag goes back to the tag pool. The recycling of the T-message buffer by
`FreeFcall` is not recorded. -/
def Clnt.ReqFree (c : Clnt) (r : Ptr) : Clnt :=
  let c1 := c.put r (c.mem r).cleared
  if c1.reqchan.length < 16 then { c1 with reqchan := c1.reqchan ++ [r] }
  else { c1 with issued := Pool.putId c1.issued (c1.mem r).tag }

/-- What `Rpc` returns for a completed request (clnt.go 140-141): its reply and its
error. -/
def rpcResult (r : CReq) : Option Fcall × Option Error := (r.Rc, r.Err)

/-- The outstanding list as a segment of a doubly-linked list: the requests of `L`, in
order, are linked from `first` (whose `prev` is `prev`) to `last` (whose `next` is
`next`). -/
def dlseg (mem : Ptr → CReq) : Option Ptr → Option Ptr → Option Ptr → Option Ptr → List Ptr → Prop
  | first, prev, last, next, [] => first = next ∧ last = prev
  | first, prev, last, next, p :: ps =>
    first = some p ∧ (mem p).prev = prev ∧ dlseg mem (mem p).next (some p) last next ps

/-- The outstanding list of the client is well formed and holds exactly the requests of
`L`, in order. -/
def Clnt.holds (c : Clnt) (L : List Ptr) : Prop :=
  dlseg c.mem c.reqfirst none c.reqlast none L ∧ L.Nodup

/-- The record of the request that the receive loop matched, if it matched one. -/
def matchedRecord : Run RecvOut → Option CReq
  | .ok (.running c r) => some (c.mem r)
  | _ => none

/-- A client with one outstanding request, a Tread with tag 1 at address 0. -/
def oneReqClnt : Clnt :=
  { reqfirst := some 0, reqlast := some 0, issued := [1], brk := 1,
    mem := fun _ => { Tc := some { Typ := Tread, Tag := 1, Fid := 1, Count := 10 }, tag := 1 } }

/-- A client without outstanding request whose store holds, at every address, a
request with a Tread as T-message. -/
def idleClnt : Clnt :=
  { mem := fun p => { Tc := some { Typ := Tread, Fid := 1, Count := 10 }, tag := p + 1 } }

/-! ## Client: tags of allocated requests

A run of caller operations on a client, together with the list `live` of the requests
that `ReqAlloc` has returned and that have not been passed to `ReqFree` since. -/

/-- An operation of a caller: `ReqAlloc getId`, where `getId` is the id the tag pool
returns if it is asked for one; `ReqFree r`; and `Rpcnb r tc`, the assignment
`r.Tc = tc` followed by `Rpcnb(r)`, as `Rpc` does. -/
inductive ClntOp where
  | ReqAlloc (getId : Nat)
  | ReqFree (r : Ptr)
  | Rpcnb (r : Ptr) (tc : Fcall)

/-- One operation on the client and the list of allocated requests. `Rpcnb` runs on a
request whose T-message has just been assigned, so it returns; the other outcomes of
the `match` are never taken. -/
def tagStep (s : Clnt × List Ptr) : ClntOp → Clnt × List Ptr
  | .ReqAlloc getId => ((s.1.ReqAlloc getId).1, (s.1.ReqAlloc getId).2 :: s.2)
  | .ReqFree r => (s.1.ReqFree r, s.2.erase r)
  | .Rpcnb r tc =>
    match (s.1.put r { s.1.mem r with Tc := some tc }).Rpcnb r with
    | .ok (c', _) => (c', s.2)
    | _ => s

/-- A run of operations, in order. -/
def tagRun : Clnt × List Ptr → List ClntOp → Clnt × List Ptr
  | s, [] => s
  | s, op :: ops => tagRun (tagStep s op) ops

/-- What is assumed of an operation: the tag pool, when `ReqAlloc` asks it for an id,
returns an id of `[0, NOTAG)` that is not among those issued and not returned; callers
free and submit allocated requests only. -/
def tagOpValid (s : Clnt × List Ptr) : ClntOp → Prop
  | .ReqAlloc getId => s.1.reqchan = [] → getId ∉ s.1.issued ∧ getId < NOTAG
  | .ReqFree r => r ∈ s.2
  | .Rpcnb r _ => r ∈ s.2

/-- Every operation of the run meets the assumptions when it is made. -/
def tagRunValid : Clnt × List Ptr → List ClntOp → Prop
  | _, [] => True
  | s, op :: ops => tagOpValid s op ∧ tagRunValid (tagStep s op) ops

/-- The invariant of the allocated and the parked requests: no request is listed twice
or both allocated and parked; their tags are pairwise distinct, issued by the pool
and below `NOTAG`; their addresses are below the next address to allocate; and the
T-message of each, if set, carries `NOTAG` for a Tversion and the tag of the request
otherwise. -/
structure TagInv (c : Clnt) (live : List Ptr) : Prop where
  liveNodup : live.Nodup
  chanNodup : c.reqchan.Nodup
  disjoint : ∀ r ∈ live, r ∉ c.reqchan
  inj : ∀ r1 r2, (r1 ∈ live ∨ r1 ∈ c.reqchan) → (r2 ∈ live ∨ r2 ∈ c.reqchan) →
    (c.mem r1).tag = (c.mem r2).tag → r1 = r2
  reserved : ∀ r, (r ∈ live ∨ r ∈ c.reqchan) → (c.mem r).tag ∈ c.issued ∧ (c.mem r).tag < NOTAG
  below : ∀ r, (r ∈ live ∨ r ∈ c.reqchan) → r < c.brk
  stamped : ∀ r, (r ∈ live ∨ r ∈ c.reqchan) → ∀ tc, (c.mem r).Tc = some tc →
    tc.Tag = if tc.Typ = Tversion then NOTAG else (c.mem r).tag

/-! ## Sequences of Tversion messages -/

/-- The connection after the version handler has handled the Tversion messages of the
list, in order (`Srv.version`, fcall.go 11-46, once for each). -/
def Srv.versions (srv : Srv) : Conn → List Fcall → Conn
  | conn, [] => conn
  | conn, tc :: tcs => Srv.versions srv (srv.version conn tc).1 tcs

/-- A directory at address 0, the record of fid 1, in the fid table. -/
def dirWorld : World :=
  ⟨⟨8216, false, fun n => if n = 1 then some 0 else none, []⟩,
    fun _ => { fid := 1, refcount := 1, Typ := QTDIR }, 1⟩

/-- The request `Twalk(fid=1, newfid=1, wname=[a, b])` with its fid looked up. -/
def sameFidWalk : Req :=
  { Tc := { Fid := 1, Newfid := 1, Wname := ["a", "b"] }, Fid := some 0 }
/-! ## Chains of flush requests -/

/-- The chain of flush requests that starts at `head` and is linked through
`flushreq` consists of exactly the requests of the list, in order, and ends in nil. -/
def flushChain (rmem : Ptr → Req) : Option Ptr → List Ptr → Prop
  | head, [] => head = none
  | head, p :: ps => head = some p ∧ flushChain rmem (rmem p).flushreq ps

/-- A store in which the Tflush at address 2, registered under its tag 6 and being
handled, names its own tag as `oldtag`; no flush request is chained to it. -/
def selfFlushStore : ReqStore :=
  ⟨fun t => if t = 6 then some 2 else none,
   fun _ => { Tc := { Tag := 6, Oldtag := 6 }, status := reqWork }⟩

/-- A store in which the Tread registered under tag 5, at address 1, is being worked on
and has the Tflush at address 3 chained to it; the Tflush for tag 5 at address 2,
registered under tag 6, is being handled. -/
def chainedFlushStore : ReqStore :=
  ⟨fun t => if t = 5 then some 1 else if t = 6 then some 2 else if t = 7 then some 3 else none,
   fun p => if p = 1 then { Tc := { Typ := Tread, Tag := 5 }, status := reqWork,
                            flushreq := some 3 }
     else if p = 2 then { Tc := { Tag := 6, Oldtag := 5 }, status := reqWork }
     else { Tc := { Tag := 7, Oldtag := 5 }, status := reqWork }⟩
/-! ## Client: the receive loop over a byte stream

The buffer of the receive loop is the list of its bytes; `pos` bytes of it, from the
front, have been read from the transport and not been consumed yet. The decoder calls
are recorded in the state of the loop. -/

/-- Modelled from the spec: `ixp.Gint32` of the codec, which is not among the sources:
the little-endian value of the first four bytes of the buffer. -/
def Gint32 (buf : List Nat) : Nat :=
  u8 (buf.getD 0 0) + 2 ^ 8 * u8 (buf.getD 1 0) + 2 ^ 16 * u8 (buf.getD 2 0) +
    2 ^ 24 * u8 (buf.getD 3 0)

/-- A call of the decoder `ixp.Unpack` by the receive loop: the buffer passed to it, the
number of bytes the transport had delivered by then, and the size `fcsize` the decoder
returned, which the loop then consumes. -/
structure DecodeCall where
  buf : List Nat
  arrived : Nat
  fcsize : Nat
deriving DecidableEq, Repr

/-- The state of the receive loop (clnt.go 146-250): the client, the buffer `buf`, the
number `pos` of buffered bytes, and two records of the run: the number of bytes the
transport has delivered so far and the decoder calls made so far, in order. -/
structure RecvState where
  c : Clnt
  buf : List Nat
  pos : Nat
  arrived : Nat := 0
  calls : List DecodeCall := []

/-- How a run of the receive loop ends: `waiting`, in `clnt.conn.Read` when the
transport has nothing more to deliver; `closed`, at the label `closed` with the local
variable `err`; `panic`; or `outOfFuel`, when the run was cut off. -/
inductive LoopEnd where
  | waiting (s : RecvState)
  | closed (s : RecvState) (err : Option Error)
  | panic (s : RecvState)
  | outOfFuel (s : RecvState)

/-- The state in which a run ended. -/
def LoopEnd.state : LoopEnd → RecvState
  | .waiting s => s
  | .closed s _ => s
  | .panic s => s
  | .outOfFuel s => s

/-- Whether the run ended at the label `closed`. -/
def LoopEnd.isClosed : LoopEnd → Bool
  | .closed _ _ => true
  | _ => false

/-- Whether the run ended in a panic. -/
def LoopEnd.isPanic : LoopEnd → Bool
  | .panic _ => true
  | _ => false

/-- The buffer after the loop replaced it (clnt.go 154-157 and 174-177):
`make([]byte, clnt.Msize*8)`, the length being a `uint32` product, with the `pos`
buffered bytes copied to its front. -/
def newBuf (Msize : Nat) (buf : List Nat) (pos : Nat) : List Nat :=
  (buf.take pos ++ List.replicate (u32 (Msize * 8)) 0).take (u32 (Msize * 8))

/-- The state in which the receive loop starts (clnt.go 150-151). -/
def RecvState.init (c : Clnt) : RecvState :=
  { c := c, buf := List.replicate (u32 (c.Msize * 8)) 0, pos := 0 }

/-- The inner loop of the receive loop (`for pos > 4`, clnt.go 170-249), in at most
`fuel` iterations: `.ok` when the loop is left for the next read, `.error` when the
run ends. `Unpack buf dotu` is the result of `ixp.Unpack`: the message or the error,
and `fcsize`. A size `fcsize` beyond `pos` makes `pos` negative, and the loop panics
at its next slice expression, `buf[fcsize:]`, `buf[0:pos]` or `buf[pos:]`, before it
calls the decoder again. -/
def Clnt.recvFrames (Unpack : List Nat → Bool → Except Error Fcall × Nat) (sfuel : Nat) :
    Nat → RecvState → Except LoopEnd RecvState
  | 0, s => .error (.outOfFuel s)
  | fuel + 1, s =>
    if s.pos > 4 then
      if s.pos < Gint32 s.buf then
        .ok (if s.buf.length < Gint32 s.buf then
               { s with buf := newBuf s.c.Msize s.buf s.pos }
             else s)
      else
        let fcsize := (Unpack s.buf s.c.Dotu).2
        let s1 := { s with calls := s.calls ++ [⟨s.buf, s.arrived, fcsize⟩] }
        match s.c.recvFrame (Unpack s.buf s.c.Dotu).1 sfuel with
        | .panic => .error (.panic s1)
        | .outOfFuel => .error (.outOfFuel s1)
        | .ok (.closed c err) => .error (.closed { s1 with c := c } err)
        | .ok (.running c _) =>
          if s.pos < fcsize then .error (.panic { s1 with c := c })
          else
            Clnt.recvFrames Unpack sfuel fuel
              { s1 with c := c, pos := s.pos - fcsize, buf := s.buf.drop fcsize }
    else .ok s

/-- The receive loop (`Clnt.recv`, clnt.go 152-250), in at most `fuel` reads. `reads`
is what the transport has to deliver, chunk by chunk: `clnt.conn.Read(buf[pos:])`
returns as many bytes of the first chunk as fit into `buf[pos:]`, with a nil error,
and what did not fit is left for the next read. `sfuel` bounds the search of the
outstanding list and `ifuel` the iterations of the inner loop after one read. -/
def Clnt.recv (Unpack : List Nat → Bool → Except Error Fcall × Nat) (sfuel ifuel : Nat) :
    Nat → List (List Nat) → RecvState → LoopEnd
  | 0, _, s => .outOfFuel s
  | fuel + 1, reads, s =>
    let buf := if s.buf.length < s.c.Msize then newBuf s.c.Msize s.buf s.pos else s.buf
    match reads with
    | [] => .waiting { s with buf := buf }
    | chunk :: rest =>
      if buf.length < s.pos then .panic s
      else
        let n := min (buf.length - s.pos) chunk.length
        match s.c.recvRead s.pos n none with
        | .panic => .panic { s with buf := buf }
        | .outOfFuel => .outOfFuel { s with buf := buf }
        | .ok (.closed c err) => .closed { s with c := c, buf := buf } err
        | .ok (.advance pos) =>
          match Clnt.recvFrames Unpack sfuel ifuel
              { s with buf := buf.take s.pos ++ chunk.take n ++ buf.drop (s.pos + n),
                       pos := pos, arrived := s.arrived + n } with
          | .error e => e
          | .ok s2 =>
            Clnt.recv Unpack sfuel ifuel fuel
              (if chunk.length ≤ n then rest else chunk.drop n :: rest) s2

/-- The replies `fcs` handed to the frame step of the receive loop one after the
other: the client after the last of them, if each was matched to an outstanding
request. -/
def Clnt.deliver (sfuel : Nat) : Clnt → List Fcall → Option Clnt
  | c, [] => some c
  | c, fc :: fcs =>
    match c.recvFrame (.ok fc) sfuel with
    | .ok (.running c1 _) => Clnt.deliver sfuel c1 fcs
    | _ => none

/-- The decoder calls `calls` are one call for each frame of the list, in order: the
buffer of the call starts with the frame, the size consumed is the length of the
frame, and all bytes of the frame, which ends at offset `off + f.length` of the
stream, had been delivered by then. -/
def framedFrom : Nat → List (List Nat) → List DecodeCall → Prop
  | _, [], [] => True
  | off, f :: fs, call :: calls =>
    f <+: call.buf ∧ call.fcsize = f.length ∧ off + f.length ≤ call.arrived ∧
      framedFrom (off + f.length) fs calls
  | _, _, _ => False

/-- A decoder that takes kind and tag from the fifth to seventh byte of the buffer and
returns the length prefix as size. -/
def headerUnpack (buf : List Nat) (_ : Bool) : Except Error Fcall × Nat :=
  (.ok { Typ := buf.getD 4 0, Tag := buf.getD 5 0 + 2 ^ 8 * buf.getD 6 0 }, Gint32 buf)

/-- A client with `msize` 8 and two outstanding requests: a Tread with tag 1 at
address 0, followed by a Tread with tag 2 at address 1. -/
def twoReqClnt : Clnt :=
  { Msize := 8, reqfirst := some 0, reqlast := some 1, issued := [2, 1], brk := 2,
    mem := fun p =>
      if p = 0 then { Tc := some { Typ := Tread, Tag := 1, Fid := 1, Count := 10 }, tag := 1,
                      next := some 1 }
      else { Tc := some { Typ := Tread, Tag := 2, Fid := 1, Count := 10 }, tag := 2,
             prev := some 0 } }

/-- A run on a fresh client: two allocations, for which the pool issues the ids 3 and
4, the release of the first request, which parks it, a third allocation, which takes
it back from the recycle channel, and the submission of a Tread on each request. -/
def sampleTagOps : List ClntOp :=
  [.ReqAlloc 3, .ReqAlloc 4, .ReqFree 0, .ReqAlloc 9,
   .Rpcnb 0 { Typ := Tread, Fid := 1, Count := 10 },
   .Rpcnb 1 { Typ := Tread, Fid := 2, Count := 10 }]

/-! ## Tread: size check and directory offsets -/

/-- While `count + IOHDRSZ` does not wrap in 32 bits, the size check of `read` is the
comparison of the natural-number sum with `msize`. -/
theorem read_size_check_of_no_wrap (srv : Srv) (codec : Codec) (Msize : Nat) (tc : Fcall)
    (fid : Fid) (hfit : tc.Count + IOHDRSZ < 2 ^ 32) :
    (tc.Count + IOHDRSZ > Msize →
      Srv.read srv codec Msize tc fid = (fid, [.RespondError .Etoolarge])) ∧
    (.reqOps .Read ∈ (Srv.read srv codec Msize tc fid).2 → tc.Count + IOHDRSZ ≤ Msize) := by
  have hu : u32 (tc.Count + IOHDRSZ) = tc.Count + IOHDRSZ := Nat.mod_eq_of_lt hfit
  constructor
  · intro h
    simp [Srv.read, hu, h]
  · intro h
    by_contra hgt
    have hgt1 : tc.Count + IOHDRSZ > Msize := Nat.lt_of_not_le hgt
    simp [Srv.read, hu, hgt1] at h

/-- C2: the size check of `read` adds `IOHDRSZ` to the count in `uint32`. For
`msize = 8216` the count 8193 is rejected and the count 8192 is accepted, but a Tread with count `2^32 - 1` on a plain file fid passes the check (the sum wraps
to 23) and is handed to `ReqOps.Read`, although `count + IOHDRSZ` exceeds `msize`. -/
theorem read_size_check_wraps (srv : Srv) (codec : Codec) :
    Srv.read srv codec 8216 { Count := 8193 } {} = ({}, [.RespondError .Etoolarge]) ∧
    Srv.read srv codec 8216 { Count := 8192 } {} = ({}, [.reqOps .Read]) ∧
    4294967295 + IOHDRSZ > 8216 ∧
    Srv.read srv codec 8216 { Count := 4294967295 } {} = ({}, [.reqOps .Read]) := by
  refine ⟨?_, ?_, by decide, ?_⟩ <;> simp [Srv.read, u32, IOHDRSZ, QTAUTH, QTDIR]

/-- C3: for a Tread that passes the size check, on a fid with QTDIR set and QTAUTH
clear: offset 0 resets `Diroffset` to 0 and invokes `ReqOps.Read`; a non-zero offset
equal to `Diroffset` invokes `ReqOps.Read` and leaves the fid unchanged; any other
offset is answered `Ebadoffset` alone, the fid unchanged. On a fid without QTDIR the
fid is unchanged, a non-auth fid is always handed to `ReqOps.Read`, and `read`
responds `Ebadoffset` only if the codec or `AuthOps.AuthRead` returned that error. -/
theorem read_directory_offset (srv : Srv) (codec : Codec) (Msize : Nat) (tc : Fcall)
    (fid : Fid) (hsize : ¬ u32 (tc.Count + IOHDRSZ) > Msize) :
    (fid.Typ &&& QTDIR ≠ 0 → fid.Typ &&& QTAUTH = 0 →
      (tc.Offset = 0 →
        Srv.read srv codec Msize tc fid = ({ fid with Diroffset := 0 }, [.reqOps .Read])) ∧
      (tc.Offset ≠ 0 → tc.Offset = fid.Diroffset →
        Srv.read srv codec Msize tc fid = (fid, [.reqOps .Read])) ∧
      (tc.Offset ≠ 0 → tc.Offset ≠ fid.Diroffset →
        Srv.read srv codec Msize tc fid = (fid, [.RespondError .Ebadoffset]))) ∧
    (fid.Typ &&& QTDIR = 0 →
      (Srv.read srv codec Msize tc fid).1 = fid ∧
      (fid.Typ &&& QTAUTH = 0 →
        Srv.read srv codec Msize tc fid = (fid, [.reqOps .Read])) ∧
      (.RespondError .Ebadoffset ∈ (Srv.read srv codec Msize tc fid).2 →
        codec.InitRread tc.Count = some .Ebadoffset ∨
        ∃ op, srv.authOps = some op ∧
          op.AuthRead fid tc.Offset tc.Count = .error .Ebadoffset)) := by
  refine ⟨fun hdir hauth => ⟨?_, ?_, ?_⟩, fun hdir => ⟨?_, ?_, ?_⟩⟩
  · intro h0
    simp [Srv.read, hsize, hauth, hdir, h0]
  · intro h0 heq
    simp [Srv.read, hsize, hauth, hdir, h0, heq]
    intro h; exact absurd (heq ▸ h) h0
  · intro h0 hne
    simp [Srv.read, hsize, hauth, hdir, h0, hne]
  · unfold Srv.read
    simp only [hsize, hdir, if_false, ne_eq, not_true_eq_false]
    split_ifs <;> (repeat' split) <;> rfl
  · intro hauth
    simp [Srv.read, hsize, hauth, hdir]
  · unfold Srv.read
    simp only [hsize, hdir, if_false, ne_eq, not_true_eq_false]
    by_cases hauth : fid.Typ &&& QTAUTH = 0
    · simp [hauth]
    · simp only [hauth, not_false_eq_true, if_true]
      cases hc : codec.InitRread tc.Count with
      | some err =>
        intro h
        simp at h
        simp [h]
      | none =>
        cases ha : srv.authOps with
        | none => simp
        | some op =>
          cases hr : op.AuthRead fid tc.Offset tc.Count with
          | error err =>
            intro h
            simp [hr] at h
            simp [hr, h]
          | ok n => simp [hr]

/-- Witness of C3: on a directory fid with `Diroffset = 100` and `msize = 8216`, a
Tread at offset 0 resets the offset, one at offset 100 is accepted, one at offset 3
is answered `Ebadoffset`. -/
theorem read_directory_offset_witness :
    ¬ u32 ((8192 : Nat) + IOHDRSZ) > 8216 ∧
    Srv.read ⟨false, fun _ => none, fun _ => none, none⟩ ⟨fun _ => none⟩ 8216
        { Offset := 0, Count := 8192 } { Typ := QTDIR, Diroffset := 100 }
      = ({ Typ := QTDIR, Diroffset := 0 }, [.reqOps .Read]) ∧
    Srv.read ⟨false, fun _ => none, fun _ => none, none⟩ ⟨fun _ => none⟩ 8216
        { Offset := 100, Count := 8192 } { Typ := QTDIR, Diroffset := 100 }
      = ({ Typ := QTDIR, Diroffset := 100 }, [.reqOps .Read]) ∧
    Srv.read ⟨false, fun _ => none, fun _ => none, none⟩ ⟨fun _ => none⟩ 8216
        { Offset := 3, Count := 8192 } { Typ := QTDIR, Diroffset := 100 }
      = ({ Typ := QTDIR, Diroffset := 100 }, [.RespondError .Ebadoffset]) :=
  ⟨by decide,
   ((read_directory_offset ⟨false, fun _ => none, fun _ => none, none⟩ ⟨fun _ => none⟩ 8216
      { Offset := 0, Count := 8192 } { Typ := QTDIR, Diroffset := 100 } (by decide)).1
      (by decide) (by decide)).1 rfl,
   ((read_directory_offset ⟨false, fun _ => none, fun _ => none, none⟩ ⟨fun _ => none⟩ 8216
      { Offset := 100, Count := 8192 } { Typ := QTDIR, Diroffset := 100 } (by decide)).1
      (by decide) (by decide)).2.1 (by decide) rfl,
   ((read_directory_offset ⟨false, fun _ => none, fun _ => none, none⟩ ⟨fun _ => none⟩ 8216
      { Offset := 3, Count := 8192 } { Typ := QTDIR, Diroffset := 100 } (by decide)).1
      (by decide) (by decide)).2.2 (by decide) (by decide)⟩

/-- The preflight `read` leaves the fid record alone, except that an accepted Tread at
offset 0 resets `Diroffset`. -/
theorem read_fid_cases (srv : Srv) (codec : Codec) (Msize : Nat) (tc : Fcall) (fid : Fid) :
    (Srv.read srv codec Msize tc fid).1 = fid ∨
    ((Srv.read srv codec Msize tc fid).2 = [.reqOps .Read] ∧ tc.Offset = 0 ∧
      (Srv.read srv codec Msize tc fid).1 = { fid with Diroffset := 0 }) := by
  unfold Srv.read
  split_ifs <;> (repeat' split) <;> simp_all

/-- A Tread that `read` hands to `ReqOps.Read` passed the size check, on a fid that is
not an auth fid. -/
theorem read_accepted_imp (srv : Srv) (codec : Codec) (Msize : Nat) (tc : Fcall) (fid : Fid)
    (h : (Srv.read srv codec Msize tc fid).2 = [.reqOps .Read]) :
    ¬ u32 (tc.Count + IOHDRSZ) > Msize ∧ fid.Typ &&& QTAUTH = 0 := by
  unfold Srv.read at h
  split_ifs at h <;> first | (exact ⟨by assumption, by simpa using ‹¬ _ ≠ 0›⟩) | skip
  all_goals (revert h; (repeat' split) <;> simp)

/-- The calls of `read` on a directory fid that is not an auth fid, for a Tread that
passes the size check. -/
theorem read_dir_calls (srv : Srv) (codec : Codec) (Msize : Nat) (tc : Fcall) (fid : Fid)
    (hsize : ¬ u32 (tc.Count + IOHDRSZ) > Msize) (hdir : fid.Typ &&& QTDIR ≠ 0)
    (hauth : fid.Typ &&& QTAUTH = 0) :
    (Srv.read srv codec Msize tc fid).2 =
      if tc.Offset = 0 ∨ tc.Offset = fid.Diroffset then [.reqOps .Read]
      else [.RespondError .Ebadoffset] := by
  unfold Srv.read
  simp only [hsize, hauth, hdir, if_false, ne_eq, not_true_eq_false, not_false_eq_true, if_true]
  split_ifs <;> simp_all

/-- The postflight `readPost` changes nothing but `Diroffset`. -/
theorem readPost_typ (rc : Option Fcall) (fid : Fid) : (Srv.readPost rc fid).Typ = fid.Typ := by
  unfold Srv.readPost
  split
  · split_ifs <;> rfl
  · rfl

/-- On a directory fid `readPost` adds the count of an Rread reply, in `uint64`. -/
theorem readPost_diroffset (rc : Option Fcall) (fid : Fid) (hdir : fid.Typ &&& QTDIR ≠ 0) :
    (Srv.readPost rc fid).Diroffset =
      match rc with
      | some r => if r.Typ = Rread then u64 (fid.Diroffset + r.Count) else fid.Diroffset
      | none => fid.Diroffset := by
  unfold Srv.readPost
  cases rc with
  | none => rfl
  | some r => by_cases h : r.Typ = Rread <;> simp [h, hdir]

/-- A round never changes the qid type of the fid. -/
theorem readRound_typ (srv : Srv) (codec : Codec) (Msize : Nat) (fid : Fid)
    (r : Fcall × Option Fcall) : (readRound srv codec Msize fid r).Typ = fid.Typ := by
  unfold readRound
  rw [readPost_typ]
  rcases read_fid_cases srv codec Msize r.1 fid with h | ⟨_, _, h⟩ <;> rw [h]

/-- A sequence of rounds never changes the qid type of the fid. -/
theorem readRounds_typ (srv : Srv) (codec : Codec) (Msize : Nat)
    (rounds : List (Fcall × Option Fcall)) :
    ∀ fid : Fid, (readRounds srv codec Msize fid rounds).Typ = fid.Typ := by
  induction rounds with
  | nil => intro fid; rfl
  | cons r rs ih =>
    intro fid
    simp only [readRounds]
    rw [ih, readRound_typ]

/-- Reduction of a `uint64` sum whose first summand is already reduced. -/
theorem u64_add_u64 (a b : Nat) : u64 (u64 a + b) = u64 (a + b) := by
  unfold u64
  exact Nat.mod_add_mod a (2 ^ 64) b

/-- On a directory fid, rounds without an accepted offset 0 add the counts of their
Rread replies to `Diroffset`, in `uint64`. -/
theorem readRounds_diroffset (srv : Srv) (codec : Codec) (Msize : Nat)
    (rounds : List (Fcall × Option Fcall)) :
    ∀ (fid : Fid) (acc : Nat), fid.Typ &&& QTDIR ≠ 0 → fid.Diroffset = u64 acc →
      acceptedOffsetsNonzero srv codec Msize fid rounds = true →
      (readRounds srv codec Msize fid rounds).Diroffset = u64 (acc + rreadBytes rounds) := by
  induction rounds with
  | nil =>
    intro fid acc _ hacc _
    simpa [readRounds, rreadBytes] using hacc
  | cons r rs ih =>
    intro fid acc hdir hacc hnz
    obtain ⟨tc, rc⟩ := r
    simp only [acceptedOffsetsNonzero, Bool.and_eq_true, Bool.not_eq_true',
      Bool.and_eq_false_iff, decide_eq_false_iff_not, decide_eq_true_eq] at hnz
    obtain ⟨hstep, hrest⟩ := hnz
    have hread : (Srv.read srv codec Msize tc fid).1 = fid := by
      rcases read_fid_cases srv codec Msize tc fid with h | ⟨hacc1, h0, _⟩
      · exact h
      · rcases hstep with h1 | h1
        · exact absurd hacc1 h1
        · exact absurd h0 h1
    have hdir1 : (readRound srv codec Msize fid (tc, rc)).Typ &&& QTDIR ≠ 0 := by
      rw [readRound_typ]; exact hdir
    have hoff : (readRound srv codec Msize fid (tc, rc)).Diroffset =
        u64 (acc + (rreadBytes [(tc, rc)])) := by
      unfold readRound
      simp only [hread]
      rw [readPost_diroffset rc fid hdir]
      cases rc with
      | none => simpa [rreadBytes] using hacc
      | some rep =>
        by_cases hk : rep.Typ = Rread
        · simp [rreadBytes, hk, hacc, u64_add_u64]
        · simp [rreadBytes, hk, hacc]
    have := ih (readRound srv codec Msize fid (tc, rc)) (acc + rreadBytes [(tc, rc)])
      hdir1 hoff hrest
    simp only [readRounds]
    rw [this]
    congr 1
    cases rc with
    | none => simp [rreadBytes]
    | some rep => simp [rreadBytes, Nat.add_assoc]

/-- C4: on a directory fid, after a Tread at offset 0 that `read` accepts (the reset)
and any further rounds of preflight and `readPost` whose accepted offsets are all
non-zero, `Diroffset` is the sum modulo `2^64` of the counts of the Rread replies that
`readPost` processed since the reset, other replies adding nothing. Hence the next
Tread that passes the size check is handed to `ReqOps.Read` exactly when its offset
is 0 or that sum, and is answered `Ebadoffset` exactly otherwise. -/
theorem diroffset_is_sum_of_rread_counts (srv : Srv) (codec : Codec) (Msize : Nat)
    (fid : Fid) (first : Fcall × Option Fcall) (rounds : List (Fcall × Option Fcall))
    (tc : Fcall)
    (hdir : fid.Typ &&& QTDIR ≠ 0)
    (hzero : first.1.Offset = 0)
    (hfirst : (Srv.read srv codec Msize first.1 fid).2 = [.reqOps .Read])
    (hnz : acceptedOffsetsNonzero srv codec Msize (readRound srv codec Msize fid first) rounds
      = true)
    (hsize : ¬ u32 (tc.Count + IOHDRSZ) > Msize) :
    (readRounds srv codec Msize fid (first :: rounds)).Diroffset
      = u64 (rreadBytes (first :: rounds)) ∧
    ((Srv.read srv codec Msize tc (readRounds srv codec Msize fid (first :: rounds))).2
        = [.reqOps .Read] ↔
      (tc.Offset = 0 ∨ tc.Offset = u64 (rreadBytes (first :: rounds)))) ∧
    ((Srv.read srv codec Msize tc (readRounds srv codec Msize fid (first :: rounds))).2
        = [.RespondError .Ebadoffset] ↔
      ¬ (tc.Offset = 0 ∨ tc.Offset = u64 (rreadBytes (first :: rounds)))) := by
  obtain ⟨tc0, rc0⟩ := first
  simp only at hzero hfirst
  have hauth : fid.Typ &&& QTAUTH = 0 := (read_accepted_imp srv codec Msize tc0 fid hfirst).2
  have hreset : (Srv.read srv codec Msize tc0 fid).1 = { fid with Diroffset := 0 } := by
    have hs := (read_accepted_imp srv codec Msize tc0 fid hfirst).1
    unfold Srv.read
    simp [hs, hauth, hdir, hzero]
  have hdir1 : (readRound srv codec Msize fid (tc0, rc0)).Typ &&& QTDIR ≠ 0 := by
    rw [readRound_typ]; exact hdir
  have hoff1 : (readRound srv codec Msize fid (tc0, rc0)).Diroffset
      = u64 (rreadBytes [(tc0, rc0)]) := by
    unfold readRound
    simp only [hreset]
    rw [readPost_diroffset rc0 { fid with Diroffset := 0 } hdir]
    cases rc0 with
    | none => simp [rreadBytes, u64]
    | some rep =>
      by_cases hk : rep.Typ = Rread
      · simp [rreadBytes, hk]
      · simp [rreadBytes, hk, u64]
  have hsum : (readRounds srv codec Msize fid ((tc0, rc0) :: rounds)).Diroffset
      = u64 (rreadBytes ((tc0, rc0) :: rounds)) := by
    simp only [readRounds]
    rw [readRounds_diroffset srv codec Msize rounds _ _ hdir1 hoff1 hnz]
    congr 1
    cases rc0 with
    | none => simp [rreadBytes]
    | some rep => simp [rreadBytes]
  have htyp : (readRounds srv codec Msize fid ((tc0, rc0) :: rounds)).Typ = fid.Typ :=
    readRounds_typ srv codec Msize _ fid
  have hcalls := read_dir_calls srv codec Msize tc
    (readRounds srv codec Msize fid ((tc0, rc0) :: rounds)) hsize
    (by rw [htyp]; exact hdir) (by rw [htyp]; exact hauth)
  rw [hsum] at hcalls
  refine ⟨hsum, ?_, ?_⟩
  · rw [hcalls]
    by_cases h : tc.Offset = 0 ∨ tc.Offset = u64 (rreadBytes ((tc0, rc0) :: rounds))
    · simp [h]
    · simp [h]
  · rw [hcalls]
    by_cases h : tc.Offset = 0 ∨ tc.Offset = u64 (rreadBytes ((tc0, rc0) :: rounds))
    · simp [h]
    · simp [h]

/-- Witness of C4: on a directory fid with a stale `Diroffset` of 77 and `msize = 8216`,
a Tread at offset 0 answered with 100 bytes, a rejected Tread at offset 3 and a Tread
at offset 100 answered with 50 bytes leave `Diroffset = 150`, and a Tread at offset 150
is then accepted. -/
theorem diroffset_is_sum_of_rread_counts_witness :
    (({ Typ := QTDIR, Diroffset := 77 } : Fid).Typ &&& QTDIR ≠ 0) ∧
    (Srv.read plainSrv plainCodec 8216 { Offset := 0, Count := 4096 }
        { Typ := QTDIR, Diroffset := 77 }).2 = [.reqOps .Read] ∧
    rreadBytes [({ Offset := 0, Count := 4096 }, some { Typ := Rread, Count := 100 }),
        ({ Offset := 3, Count := 4096 }, some { Typ := Rerror }),
        ({ Offset := 100, Count := 4096 }, some { Typ := Rread, Count := 50 })] = 150 ∧
    ((readRounds plainSrv plainCodec 8216 { Typ := QTDIR, Diroffset := 77 }
        [({ Offset := 0, Count := 4096 }, some { Typ := Rread, Count := 100 }),
         ({ Offset := 3, Count := 4096 }, some { Typ := Rerror }),
         ({ Offset := 100, Count := 4096 }, some { Typ := Rread, Count := 50 })]).Diroffset
      = u64 (rreadBytes
        [({ Offset := 0, Count := 4096 }, some { Typ := Rread, Count := 100 }),
         ({ Offset := 3, Count := 4096 }, some { Typ := Rerror }),
         ({ Offset := 100, Count := 4096 }, some { Typ := Rread, Count := 50 })])) ∧
    (Srv.read plainSrv plainCodec 8216 { Offset := 150, Count := 4096 }
        (readRounds plainSrv plainCodec 8216 { Typ := QTDIR, Diroffset := 77 }
          [({ Offset := 0, Count := 4096 }, some { Typ := Rread, Count := 100 }),
           ({ Offset := 3, Count := 4096 }, some { Typ := Rerror }),
           ({ Offset := 100, Count := 4096 }, some { Typ := Rread, Count := 50 })])).2
      = [.reqOps .Read] ∧
    (Srv.read plainSrv plainCodec 8216 { Offset := 3, Count := 4096 }
        (readRounds plainSrv plainCodec 8216 { Typ := QTDIR, Diroffset := 77 }
          [({ Offset := 0, Count := 4096 }, some { Typ := Rread, Count := 100 })])).2
      = [.RespondError .Ebadoffset] :=
  ⟨by decide, by decide, by decide,
   (diroffset_is_sum_of_rread_counts plainSrv plainCodec 8216
      { Typ := QTDIR, Diroffset := 77 }
      ({ Offset := 0, Count := 4096 }, some { Typ := Rread, Count := 100 })
      [({ Offset := 3, Count := 4096 }, some { Typ := Rerror }),
       ({ Offset := 100, Count := 4096 }, some { Typ := Rread, Count := 50 })]
      { Offset := 150, Count := 4096 }
      (by decide) rfl (by decide) (by decide) (by decide)).1,
   (diroffset_is_sum_of_rread_counts plainSrv plainCodec 8216
      { Typ := QTDIR, Diroffset := 77 }
      ({ Offset := 0, Count := 4096 }, some { Typ := Rread, Count := 100 })
      [({ Offset := 3, Count := 4096 }, some { Typ := Rerror }),
       ({ Offset := 100, Count := 4096 }, some { Typ := Rread, Count := 50 })]
      { Offset := 150, Count := 4096 }
      (by decide) rfl (by decide) (by decide) (by decide)).2.1.mpr (by decide),
   (diroffset_is_sum_of_rread_counts plainSrv plainCodec 8216
      { Typ := QTDIR, Diroffset := 77 }
      ({ Offset := 0, Count := 4096 }, some { Typ := Rread, Count := 100 })
      []
      { Offset := 3, Count := 4096 }
      (by decide) rfl (by decide) (by decide) (by decide)).2.2.mpr (by decide)⟩

/-! ## Twrite -/

/-- C5: a Twrite on a fid that is not an auth fid, and that is not opened, or is a
directory, or was opened with `(Omode & 3) = OREAD`, is answered `Ebaduse` alone, the
fid unchanged and `ReqOps.Write` not invoked, whatever the count and `msize` are: the
check comes before the size check. -/
theorem write_baduse_before_size_check (srv : Srv) (Msize : Nat) (tc : Fcall) (fid : Fid)
    (hauth : fid.Typ &&& QTAUTH = 0)
    (hbad : fid.opened = false ∨ fid.Typ &&& QTDIR ≠ 0 ∨ fid.Omode &&& 3 = OREAD) :
    Srv.write srv Msize tc fid = (fid, [.RespondError .Ebaduse]) := by
  unfold Srv.write
  have hcond : (!fid.opened) = true ∨ fid.Typ &&& QTDIR ≠ 0 ∨ fid.Omode &&& 3 = OREAD := by
    rcases hbad with h | h | h
    · left; simp [h]
    · right; left; exact h
    · right; right; exact h
  simp only [hauth, ne_eq, not_true_eq_false, if_false]
  rw [if_pos hcond]

/-- Witness of C5: the record of a fid just allocated (refcount 1, never opened), a
count that fails the size check for `msize = 8216`, and the answer `Ebaduse`. -/
theorem write_baduse_before_size_check_witness :
    (({ fid := 1, refcount := 1 } : Fid).Typ &&& QTAUTH = 0) ∧
    (({ fid := 1, refcount := 1 } : Fid).opened = false) ∧
    u32 (9000 + IOHDRSZ) > 8216 ∧
    Srv.write plainSrv 8216 { Count := 9000 } { fid := 1, refcount := 1 }
      = ({ fid := 1, refcount := 1 }, [.RespondError .Ebaduse]) :=
  ⟨by decide, by decide, by decide,
   write_baduse_before_size_check plainSrv 8216 { Count := 9000 } { fid := 1, refcount := 1 }
     (by decide) (Or.inl rfl)⟩

/-- A fid that is not opened stays so until an Ropen or an Rcreate is processed: the
preflights `read`, `write`, `open`, `create`, `clunk` and the postflight `readPost`
keep the flag, and so do `openPost` and `createPost` on any other reply. -/
theorem opened_stays_false (srv : Srv) (codec : Codec) (Msize : Nat) (Dotu : Bool)
    (tc : Fcall) (rc : Option Fcall) (fid : Fid) (hclosed : fid.opened = false) :
    (Srv.read srv codec Msize tc fid).1.opened = false ∧
    (Srv.readPost rc fid).opened = false ∧
    (Srv.write srv Msize tc fid).1.opened = false ∧
    (Srv.open tc fid).1.opened = false ∧
    (Srv.create Dotu tc fid).1.opened = false ∧
    (Srv.clunk srv fid).1.opened = false ∧
    ((∀ r, rc = some r → r.Typ ≠ Ropen) →
      (Srv.openPost rc (some fid)).map Fid.opened = some false) ∧
    ((∀ r, rc = some r → r.Typ ≠ Rcreate) →
      (Srv.createPost rc (some fid)).map Fid.opened = some false) := by
  refine ⟨?_, ?_, ?_, ?_, ?_, ?_, ?_, ?_⟩
  · unfold Srv.read
    split_ifs <;> (repeat' split) <;> simp [hclosed]
  · unfold Srv.readPost
    split
    · split_ifs <;> simp [hclosed]
    · exact hclosed
  · unfold Srv.write
    split_ifs <;> (repeat' split) <;> simp [hclosed]
  · unfold Srv.open
    split_ifs <;> simp [hclosed]
  · unfold Srv.create
    split_ifs <;> simp [hclosed]
  · unfold Srv.clunk
    split_ifs <;> (repeat' split) <;> simp [hclosed]
  · intro h
    cases rc with
    | none => simp [Srv.openPost]
    | some r => simp [Srv.openPost, h r rfl]
  · intro h
    cases rc with
    | none => simp [Srv.createPost, hclosed]
    | some r => simp [Srv.createPost, h r rfl, hclosed]

/-! ## Topen -/

/-- On an opened fid the preflight `open` answers `Eopen` alone and leaves the fid as it
was. -/
theorem open_rejects_opened (tc : Fcall) (fid : Fid) (hopen : fid.opened = true) :
    Srv.open tc fid = (fid, [.RespondError .Eopen]) := by
  simp [Srv.open, hopen]

/-- The postflight `openPost` assigns the opened flag: it is true afterwards exactly
when the reply is an Ropen, whatever it was before. -/
theorem openPost_assigns_opened (rc : Option Fcall) (fid : Fid) :
    Srv.openPost rc (some fid) =
      some { fid with opened := decide (∃ r, rc = some r ∧ r.Typ = Ropen) } := by
  cases rc with
  | none => simp [Srv.openPost]
  | some r => simp [Srv.openPost]

/-- C6: on an opened fid (mode 1) a second Topen is answered `Eopen` by the preflight,
which leaves the fid unchanged, but `openPost` on the Rerror reply then clears the
opened flag (`Omode` is kept): the rejected Topen has changed the fid state. -/
theorem openPost_clears_opened_after_rejected_open :
    Srv.open { Mode := 0 } { fid := 1, refcount := 1, opened := true, Omode := 1 }
      = ({ fid := 1, refcount := 1, opened := true, Omode := 1 }, [.RespondError .Eopen]) ∧
    Srv.openPost (some { Typ := Rerror })
        (some { fid := 1, refcount := 1, opened := true, Omode := 1 })
      = some { fid := 1, refcount := 1, opened := false, Omode := 1 } := by
  constructor <;> decide

/-! ## Single outcome of the preflight handlers -/

/-- The preflight handlers `read`, `write`, `open`, `create` and `clunk` each make one
`Respond*` call or one `ReqOps` call, never both and never two. -/
theorem fid_handlers_one_outcome (srv : Srv) (codec : Codec) (Msize : Nat) (Dotu : Bool)
    (tc : Fcall) (fid : Fid) :
    oneOutcome (Srv.read srv codec Msize tc fid).2 ∧
    oneOutcome (Srv.write srv Msize tc fid).2 ∧
    oneOutcome (Srv.open tc fid).2 ∧
    oneOutcome (Srv.create Dotu tc fid).2 ∧
    oneOutcome (Srv.clunk srv fid).2 := by
  refine ⟨?_, ?_, ?_, ?_, ?_⟩
  · unfold Srv.read
    split_ifs <;> (repeat' split) <;> simp [oneOutcome, Call.isRespond, Call.isReqOps]
  · unfold Srv.write
    split_ifs <;> (repeat' split) <;> simp [oneOutcome, Call.isRespond, Call.isReqOps]
  · unfold Srv.open
    split_ifs <;> simp [oneOutcome, Call.isRespond, Call.isReqOps]
  · unfold Srv.create
    split_ifs <;> simp [oneOutcome, Call.isRespond, Call.isReqOps]
  · unfold Srv.clunk
    split_ifs <;> (repeat' split) <;> simp [oneOutcome, Call.isRespond, Call.isReqOps]

/-- The preflight handlers `auth` and `walk` each make one `Respond*` call or one
`ReqOps` call, never both and never two. -/
theorem table_handlers_one_outcome (srv : Srv) (w : World) (req : Req) :
    oneOutcome (Srv.auth srv w req).2.2 ∧
    (∀ r, Srv.walk w req = some r → oneOutcome r.2.2) := by
  constructor
  · unfold Srv.auth
    simp only
    split_ifs <;> (repeat' split) <;> simp [oneOutcome, Call.isRespond, Call.isReqOps]
  · intro r hr
    unfold Srv.walk at hr
    split at hr
    · simp at hr
    · simp only at hr
      split_ifs at hr
      · simp at hr; subst hr; simp [oneOutcome, Call.isRespond, Call.isReqOps]
      · simp at hr; subst hr; simp [oneOutcome, Call.isRespond, Call.isReqOps]
      · split at hr <;>
          (simp at hr; subst hr; simp [oneOutcome, Call.isRespond, Call.isReqOps])
      · simp at hr; subst hr; simp [oneOutcome, Call.isRespond, Call.isReqOps]

/-- The preflight `attach` has a single outcome when the afid is `NOFID` or is found
in the fid table. -/
theorem attach_one_outcome_of_afid_found (srv : Srv) (w : World) (req : Req)
    (hafid : req.Tc.Afid = NOFID ∨
      ∀ w1 p, Conn.FidNew w req.Tc.Fid = (w1, some p) → Conn.FidGet w1 req.Tc.Afid ≠ none) :
    oneOutcome (Srv.attach srv w req).2.2 := by
  unfold Srv.attach
  simp only
  by_cases h1 : req.Tc.Fid = NOFID
  · simp [h1, oneOutcome, Call.isRespond, Call.isReqOps]
  · simp only [h1, if_false]
    cases hnew : Conn.FidNew w req.Tc.Fid with
    | mk w1 o =>
      cases o with
      | none => simp [oneOutcome, Call.isRespond, Call.isReqOps]
      | some fp =>
        simp only
        by_cases ha : req.Tc.Afid = NOFID
        · simp only [ha, ne_eq, not_true_eq_false, if_false]
          (repeat' split) <;> simp [oneOutcome, Call.isRespond, Call.isReqOps]
        · have hg : Conn.FidGet w1 req.Tc.Afid ≠ none := by
            rcases hafid with h | h
            · exact absurd h ha
            · exact h w1 fp hnew
          simp only [ha, ne_eq, not_false_eq_true, if_true, hg, if_false]
          (repeat' split) <;> simp [oneOutcome, Call.isRespond, Call.isReqOps]

/-- C1: a Tattach with fid 0 and afid 5 on a connection whose fid table is empty.
`attach` responds `Eunknownfid` for the missing afid and goes on: with an unknown
user it responds a second time (`Enouser`); with a known user it invokes
`ReqOps.Attach` after having responded. Neither run is a single outcome. -/
theorem attach_missing_afid_goes_on :
    (Srv.attach plainSrv emptyWorld
        { Tc := { Fid := 0, Afid := 5, Unamenum := NOUID, Uname := "glenda" } }).2.2
      = [.RespondError .Eunknownfid, .RespondError .Enouser] ∧
    (Srv.attach glendaSrv emptyWorld
        { Tc := { Fid := 0, Afid := 5, Unamenum := NOUID, Uname := "glenda" } }).2.2
      = [.RespondError .Eunknownfid, .reqOps .Attach] ∧
    ¬ oneOutcome [.RespondError .Eunknownfid, .RespondError .Enouser] ∧
    ¬ oneOutcome [.RespondError .Eunknownfid, .reqOps .Attach] := by
  refine ⟨by decide, by decide, ?_, ?_⟩ <;>
    simp [oneOutcome, Call.isRespond, Call.isReqOps]

/-! ## Twalk -/

/-- C7: a Twalk on a fid whose opened flag is true, for any names and any newfid, is
answered with one error, `Enotdir` when names are walked on a non-directory and
`Ebaduse` otherwise; the connection (fid table included), every fid record (refcounts
included) and the request are left as they were and `ReqOps.Walk` is not invoked.
The checks come in the order `Enotdir`, `Ebaduse`, `Einuse`: names on a non-directory
give `Enotdir` whether the fid is opened or not; otherwise an opened fid gives
`Ebaduse` whether newfid is in use or not; otherwise a newfid that differs from fid
and is in the fid table gives `Einuse`, the table and the records unchanged. -/
theorem walk_on_opened_fid (w : World) (req : Req) (fp : Ptr) (hfid : req.Fid = some fp) :
    ((w.mem fp).opened = true →
      Srv.walk w req = some (w, req, [.RespondError
        (if req.Tc.Wname.length > 0 ∧ (w.mem fp).Typ &&& QTDIR = 0 then .Enotdir
         else .Ebaduse)])) ∧
    (req.Tc.Wname.length > 0 ∧ (w.mem fp).Typ &&& QTDIR = 0 →
      Srv.walk w req = some (w, req, [.RespondError .Enotdir])) ∧
    (¬ (req.Tc.Wname.length > 0 ∧ (w.mem fp).Typ &&& QTDIR = 0) → (w.mem fp).opened = true →
      Srv.walk w req = some (w, req, [.RespondError .Ebaduse])) ∧
    (¬ (req.Tc.Wname.length > 0 ∧ (w.mem fp).Typ &&& QTDIR = 0) → (w.mem fp).opened = false →
      req.Tc.Fid ≠ req.Tc.Newfid → w.conn.fidpool req.Tc.Newfid ≠ none →
      Srv.walk w req = some (w, { req with Newfid := none }, [.RespondError .Einuse])) := by
  refine ⟨fun hopen => ?_, fun hnd => ?_, fun hnd hopen => ?_, fun hnd hopen hne huse => ?_⟩
  · unfold Srv.walk
    simp only [hfid]
    by_cases hnd : req.Tc.Wname.length > 0 ∧ (w.mem fp).Typ &&& QTDIR = 0
    · simp only [hnd, and_self, if_true]
    · simp only [hnd, if_false, hopen, if_true]
  · unfold Srv.walk
    simp only [hfid, hnd, and_self, if_true]
  · unfold Srv.walk
    simp only [hfid, hnd, if_false, hopen, if_true]
  · unfold Srv.walk
    obtain ⟨q, hq⟩ := Option.ne_none_iff_exists'.mp huse
    simp [hfid, hnd, hopen, hne, Conn.FidNew, hq]

/-- Witness of C7: fid 0 is an opened directory at address 0 and fid 1 is free. A
Twalk from fid 0 to newfid 1 with one name is answered `Ebaduse`, and the fid table
still has no entry for fid 1 afterwards. -/
theorem walk_on_opened_fid_witness :
    Srv.walk
        ⟨⟨8216, false, fun n => if n = 0 then some 0 else none, []⟩,
          fun _ => { fid := 0, refcount := 1, opened := true, Typ := QTDIR }, 1⟩
        { Tc := { Fid := 0, Newfid := 1, Wname := ["a"] }, Fid := some 0 }
      = some (⟨⟨8216, false, fun n => if n = 0 then some 0 else none, []⟩,
          fun _ => { fid := 0, refcount := 1, opened := true, Typ := QTDIR }, 1⟩,
        { Tc := { Fid := 0, Newfid := 1, Wname := ["a"] }, Fid := some 0 },
        [.RespondError .Ebaduse]) :=
  (walk_on_opened_fid
    ⟨⟨8216, false, fun n => if n = 0 then some 0 else none, []⟩,
      fun _ => { fid := 0, refcount := 1, opened := true, Typ := QTDIR }, 1⟩
    { Tc := { Fid := 0, Newfid := 1, Wname := ["a"] }, Fid := some 0 } 0 rfl).2.2.1
    (by decide) rfl

/-- The store after `walkPost` on an Rwalk reply, for a request with fid and newfid:
the type of newfid is assigned, then its refcount is incremented on a full walk to a
fid of another number. -/
theorem walkPost_rwalk_eq (w : World) (req : Req) (fp np : Ptr) (rc : Fcall)
    (hfid : req.Fid = some fp) (hrc : req.Rc = some rc) (hT : rc.Typ = Rwalk)
    (hnew : req.Newfid = some np) :
    Srv.walkPost w req = some
      (if rc.Wqid.length = req.Tc.Wname.length ∧ (w.mem np).fid ≠ (w.mem fp).fid then
        Fid.IncRef (w.put np { w.mem np with
          Typ := if rc.Wqid.length > 0 then (rc.Wqid.getD (rc.Wqid.length - 1) default).Typ
                 else (w.mem fp).Typ }) np
      else
        w.put np { w.mem np with
          Typ := if rc.Wqid.length > 0 then (rc.Wqid.getD (rc.Wqid.length - 1) default).Typ
                 else (w.mem fp).Typ }) := by
  unfold Srv.walkPost
  simp only [hrc, hnew, hfid, hT, ne_eq, not_true_eq_false, if_false, Option.map_some']
  by_cases hn : rc.Wqid.length > 0
  · simp only [hn, if_true]
    by_cases hfull : rc.Wqid.length = req.Tc.Wname.length
    · simp only [hfull, not_true_eq_false, if_false, true_and]
      by_cases hp : np = fp
      · subst hp
        simp
      · simp [World.put, Function.update, hp, Ne.symm hp]
        split_ifs <;> rfl
    · simp [hfull]
  · simp only [hn, if_false]
    by_cases hfull : rc.Wqid.length = req.Tc.Wname.length
    · simp only [hfull, not_true_eq_false, if_false, true_and]
      by_cases hp : np = fp
      · subst hp
        simp
      · simp [World.put, Function.update, hp, Ne.symm hp]
        split_ifs <;> rfl
    · simp [hfull]

/-- C8: `walkPost` on a request with a fid. If the reply is nil or not an Rwalk, nothing
changes. If the reply is an Rwalk and newfid is set, the connection is unchanged and
the refcount of every fid record is as before, except that the record of newfid has
it incremented by one when the walk is full (as many qids as names) and the number of
newfid differs from the number of fid; a partial walk or `newfid = fid` changes no
refcount. -/
theorem walkPost_retains_on_full_walk (w : World) (req : Req) (fp : Ptr)
    (hfid : req.Fid = some fp) :
    ((∀ rc, req.Rc = some rc → rc.Typ ≠ Rwalk) → Srv.walkPost w req = some w) ∧
    (∀ rc np, req.Rc = some rc → rc.Typ = Rwalk → req.Newfid = some np →
      ∃ w1, Srv.walkPost w req = some w1 ∧ w1.conn = w.conn ∧ w1.brk = w.brk ∧
        ∀ p, (w1.mem p).refcount = (w.mem p).refcount +
          (if rc.Wqid.length = req.Tc.Wname.length ∧ (w.mem np).fid ≠ (w.mem fp).fid ∧ p = np
            then 1 else 0)) := by
  constructor
  · intro h
    unfold Srv.walkPost
    cases hrc : req.Rc with
    | none => simp
    | some rc =>
      cases hnew : req.Newfid with
      | none => simp
      | some np => simp [h rc hrc]
  · intro rc np hrc hT hnew
    refine ⟨_, walkPost_rwalk_eq w req fp np rc hfid hrc hT hnew, ?_, ?_, fun p => ?_⟩
    · split_ifs <;> rfl
    · split_ifs <;> rfl
    · by_cases hc : rc.Wqid.length = req.Tc.Wname.length ∧ (w.mem np).fid ≠ (w.mem fp).fid
      · rw [if_pos hc]
        by_cases hp : p = np
        · subst hp
          simp [Fid.IncRef, World.put, hc.1, hc.2]
        · simp [Fid.IncRef, World.put, Function.update, hp]
      · rw [if_neg hc]
        have hc2 : ¬ (rc.Wqid.length = req.Tc.Wname.length ∧
            (w.mem np).fid ≠ (w.mem fp).fid ∧ p = np) := fun h => hc ⟨h.1, h.2.1⟩
        rw [if_neg hc2]
        by_cases hp : p = np
        · subst hp
          simp [World.put]
        · simp [World.put, Function.update, hp]

/-- Witness of C8: `Twalk(fid=0, newfid=2, wname=[a,b,c])` answered with two qids
leaves the refcount of the record of fid 2 at 1; `Twalk(fid=0, newfid=1, wname=[])`
answered with no qid raises the refcount of the record of fid 1 from 1 to 2. -/
theorem walkPost_retains_on_full_walk_witness :
    (∃ w1, Srv.walkPost (walkWorld 2)
        { Tc := { Fid := 0, Newfid := 2, Wname := ["a", "b", "c"] },
          Rc := some { Typ := Rwalk, Wqid := [{ Path := 1 }, { Path := 2 }] },
          Fid := some 0, Newfid := some 1 } = some w1 ∧ (w1.mem 1).refcount = 1) ∧
    (∃ w1, Srv.walkPost (walkWorld 1)
        { Tc := { Fid := 0, Newfid := 1, Wname := [] },
          Rc := some { Typ := Rwalk, Wqid := [] },
          Fid := some 0, Newfid := some 1 } = some w1 ∧ (w1.mem 1).refcount = 2) := by
  constructor
  · obtain ⟨w1, h, _, _, hr⟩ := (walkPost_retains_on_full_walk (walkWorld 2)
      { Tc := { Fid := 0, Newfid := 2, Wname := ["a", "b", "c"] },
        Rc := some { Typ := Rwalk, Wqid := [{ Path := 1 }, { Path := 2 }] },
        Fid := some 0, Newfid := some 1 } 0 rfl).2
      { Typ := Rwalk, Wqid := [{ Path := 1 }, { Path := 2 }] } 1 rfl rfl rfl
    exact ⟨w1, h, by simpa [walkWorld] using hr 1⟩
  · obtain ⟨w1, h, _, _, hr⟩ := (walkPost_retains_on_full_walk (walkWorld 1)
      { Tc := { Fid := 0, Newfid := 1, Wname := [] },
        Rc := some { Typ := Rwalk, Wqid := [] },
        Fid := some 0, Newfid := some 1 } 0 rfl).2
      { Typ := Rwalk, Wqid := [] } 1 rfl rfl rfl
    exact ⟨w1, h, by simpa [walkWorld] using hr 1⟩

/-! ## Tversion -/

/-- C9: a Tversion with `tc.Msize >= IOHDRSZ` sets `conn.Msize` to the minimum of its
previous value and `tc.Msize`, sets `conn.Dotu` exactly when the version string is
`9P2000.u` and the server has dotu enabled, leaves the fid table alone, and responds
with `RespondRversion` carrying the new `conn.Msize` and the version string
`9P2000.u` if `conn.Dotu` is now true, `9P2000` otherwise. -/
theorem version_negotiates (srv : Srv) (conn : Conn) (tc : Fcall)
    (hmsize : IOHDRSZ ≤ tc.Msize) :
    (Srv.version srv conn tc).1.Msize = min conn.Msize tc.Msize ∧
    ((Srv.version srv conn tc).1.Dotu = true ↔ (tc.Version = "9P2000.u" ∧ srv.Dotu = true)) ∧
    (Srv.version srv conn tc).1.fidpool = conn.fidpool ∧
    (Srv.version srv conn tc).2 =
      [.RespondRversion (Srv.version srv conn tc).1.Msize
        (if (Srv.version srv conn tc).1.Dotu = true then "9P2000.u" else "9P2000")] := by
  have hnot : ¬ tc.Msize < IOHDRSZ := Nat.not_lt.mpr hmsize
  unfold Srv.version
  simp only [hnot, if_false]
  refine ⟨?_, ?_, ?_, ?_⟩
  · by_cases h : tc.Msize < conn.Msize
    · simp [h, Nat.min_eq_right (Nat.le_of_lt h)]
    · simp [h, Nat.min_eq_left (Nat.not_lt.mp h)]
  · simp
  · trivial
  · simp

/-- Witness of C9: server with dotu, connection `msize` 8216, `Tversion(8216,
"9P2000.u")` yields `Rversion(8216, "9P2000.u")`. -/
theorem version_negotiates_witness :
    IOHDRSZ ≤ 8216 ∧
    (Srv.version dotuSrv ⟨8216, false, fun _ => none, []⟩
        { Typ := Tversion, Tag := NOTAG, Msize := 8216, Version := "9P2000.u" }).2
      = [.RespondRversion 8216 "9P2000.u"] ∧
    (Srv.version dotuSrv ⟨8216, false, fun _ => none, []⟩
        { Typ := Tversion, Tag := NOTAG, Msize := 8216, Version := "9P2000.u" }).1.Dotu
      = true := by
  have h := version_negotiates dotuSrv ⟨8216, false, fun _ => none, []⟩
    { Typ := Tversion, Tag := NOTAG, Msize := 8216, Version := "9P2000.u" } (by decide)
  refine ⟨by decide, ?_, h.2.1.mpr ⟨rfl, rfl⟩⟩
  have hd := h.2.1.mpr ⟨rfl, rfl⟩
  have hm := h.1
  have hc := h.2.2.2
  rw [hm, hd] at hc
  simpa using hc

/-- C10, as stated, fails: on `notagConn` the accepted Tversion leaves the Tread that
is outstanding under tag `NOTAG` with its status 0, the Flush bit clear, while the
request under tag 5 is flagged. -/
theorem version_skips_requests_under_notag :
    (Srv.version plainSrv notagConn
        { Typ := Tversion, Tag := NOTAG, Msize := 8216, Version := "9P2000" }).2
      = [.RespondRversion 8216 "9P2000"] ∧
    (Srv.version plainSrv notagConn
        { Typ := Tversion, Tag := NOTAG, Msize := 8216, Version := "9P2000" }).1.reqs
      = [(NOTAG, [{ Tc := { Typ := Tversion, Tag := NOTAG, Msize := 8216, Version := "9P2000" },
                    status := reqWork },
                  { Tc := { Typ := Tread, Tag := NOTAG, Fid := 1, Count := 10 }, status := 0 }]),
         (5, [{ Tc := { Typ := Tread, Tag := 5, Fid := 1, Count := 10 },
                status := reqWork ||| reqFlush }])] ∧
    (0 : Nat) &&& reqFlush = 0 := by
  refine ⟨by decide, by decide, by decide⟩

/-- Or-ing `reqFlush` into a status sets the Flush bit and changes no other bit. -/
theorem flaggedFrom_lor (r : Req) : flaggedFrom r { r with status := r.status ||| reqFlush } := by
  refine ⟨rfl, ?_, fun k hk => ?_⟩
  · apply Nat.eq_of_testBit_eq
    intro i
    simp only [Nat.testBit_and, Nat.testBit_or]
    cases r.status.testBit i <;> cases reqFlush.testBit i <;> rfl
  · simp only [Nat.testBit_or, hk, Bool.or_false]

/-- C10, amended: after `version` accepts a Tversion, the map of outstanding requests
has the same tags and chains of the same length; every request of a chain registered
under a tag other than `NOTAG` has the Flush bit set, its other status bits and its
other fields unchanged; the chains registered under `NOTAG` are unchanged. -/
theorem version_flags_other_tags (srv : Srv) (conn : Conn) (tc : Fcall)
    (hmsize : IOHDRSZ ≤ tc.Msize) :
    List.Forall₂
      (fun (e e' : Nat × List Req) => e'.1 = e.1 ∧ (e.1 = NOTAG → e'.2 = e.2) ∧
        (e.1 ≠ NOTAG → List.Forall₂ flaggedFrom e.2 e'.2))
      conn.reqs (Srv.version srv conn tc).1.reqs := by
  have hnot : ¬ tc.Msize < IOHDRSZ := Nat.not_lt.mpr hmsize
  unfold Srv.version
  simp only [hnot, if_false]
  rw [List.forall₂_map_right_iff, List.forall₂_same]
  intro e _
  by_cases he : e.1 = NOTAG
  · simp [he]
  · simp only [he, if_false, false_imp_iff, true_and, ne_eq, not_false_eq_true, true_imp_iff]
    rw [List.forall₂_map_right_iff, List.forall₂_same]
    intro r _
    exact flaggedFrom_lor r

/-- Witness of the amended C10: on `notagConn` the chain under tag `NOTAG` is unchanged
and the request under tag 5 is flagged. -/
theorem version_flags_other_tags_witness :
    IOHDRSZ ≤ 8216 ∧
    List.Forall₂
      (fun (e e' : Nat × List Req) => e'.1 = e.1 ∧ (e.1 = NOTAG → e'.2 = e.2) ∧
        (e.1 ≠ NOTAG → List.Forall₂ flaggedFrom e.2 e'.2))
      notagConn.reqs
      (Srv.version plainSrv notagConn
        { Typ := Tversion, Tag := NOTAG, Msize := 8216, Version := "9P2000" }).1.reqs :=
  ⟨by decide, version_flags_other_tags plainSrv notagConn
    { Typ := Tversion, Tag := NOTAG, Msize := 8216, Version := "9P2000" } (by decide)⟩

/-! ## Tcreate -/

/-- C20: `create` checks in this order: `Eopen` if the fid is opened; `Enotdir` if it
lacks QTDIR; `Eperm` if perm has DMDIR and the mode is not OREAD; `Eperm` if perm has
one of the special-file bits and the connection is not dotu. In each of these cases
the fid record (its `Omode` included) is unchanged and `ReqOps.Create` is not invoked.
In every other case `Omode` becomes the requested mode and `ReqOps.Create` is
invoked. `createPost` sets `opened` and the type from the reply qid when the reply is
an Rcreate, and leaves the record as it was for any other reply or a nil reply. -/
theorem create_checks_in_order (Dotu : Bool) (tc : Fcall) (fid : Fid) :
    (fid.opened = true → Srv.create Dotu tc fid = (fid, [.RespondError .Eopen])) ∧
    (fid.opened = false → fid.Typ &&& QTDIR = 0 →
      Srv.create Dotu tc fid = (fid, [.RespondError .Enotdir])) ∧
    (fid.opened = false → fid.Typ &&& QTDIR ≠ 0 →
      (tc.Perm &&& DMDIR ≠ 0 ∧ tc.Mode ≠ OREAD) →
      Srv.create Dotu tc fid = (fid, [.RespondError .Eperm])) ∧
    (fid.opened = false → fid.Typ &&& QTDIR ≠ 0 →
      ¬ (tc.Perm &&& DMDIR ≠ 0 ∧ tc.Mode ≠ OREAD) →
      (tc.Perm &&& (DMNAMEDPIPE ||| DMSYMLINK ||| DMLINK ||| DMDEVICE ||| DMSOCKET) ≠ 0
        ∧ Dotu = false) →
      Srv.create Dotu tc fid = (fid, [.RespondError .Eperm])) ∧
    (fid.opened = false → fid.Typ &&& QTDIR ≠ 0 →
      ¬ (tc.Perm &&& DMDIR ≠ 0 ∧ tc.Mode ≠ OREAD) →
      ¬ (tc.Perm &&& (DMNAMEDPIPE ||| DMSYMLINK ||| DMLINK ||| DMDEVICE ||| DMSOCKET) ≠ 0
        ∧ Dotu = false) →
      Srv.create Dotu tc fid = ({ fid with Omode := tc.Mode }, [.reqOps .Create])) ∧
    (∀ rc : Fcall, rc.Typ = Rcreate →
      Srv.createPost (some rc) (some fid)
        = some { fid with Typ := rc.Qid.Typ, opened := true }) ∧
    (∀ rc : Option Fcall, (∀ r, rc = some r → r.Typ ≠ Rcreate) →
      Srv.createPost rc (some fid) = some fid) := by
  refine ⟨?_, ?_, ?_, ?_, ?_, ?_, ?_⟩
  · intro h
    simp [Srv.create, h]
  · intro h hd
    simp [Srv.create, h, hd]
  · intro h hd hp
    simp [Srv.create, h, hd, hp.1, hp.2]
  · intro h hd hp hs
    unfold Srv.create
    have hs' : tc.Perm &&& (DMNAMEDPIPE ||| DMSYMLINK ||| DMLINK ||| DMDEVICE ||| DMSOCKET) ≠ 0
        ∧ (!Dotu) = true := ⟨hs.1, by simp [hs.2]⟩
    simp only [h, hd, Bool.false_eq_true, if_false]
    rw [if_neg hp, if_pos hs']
  · intro h hd hp hs
    unfold Srv.create
    have hs' : ¬ (tc.Perm &&& (DMNAMEDPIPE ||| DMSYMLINK ||| DMLINK ||| DMDEVICE ||| DMSOCKET) ≠ 0
        ∧ (!Dotu) = true) := by
      intro hc
      exact hs ⟨hc.1, by simpa using hc.2⟩
    simp only [h, hd, Bool.false_eq_true, if_false]
    rw [if_neg hp, if_neg hs']
  · intro rc hrc
    simp [Srv.createPost, hrc]
  · intro rc hrc
    cases rc with
    | none => simp [Srv.createPost]
    | some r => simp [Srv.createPost, hrc r rfl]

/-- Witness of C20: on a directory fid that is not opened, a Tcreate of a symlink
without dotu is answered `Eperm`, and a Tcreate of a plain file with mode 1 sets
`Omode` and invokes `ReqOps.Create`; the Rcreate then marks the fid opened. -/
theorem create_checks_in_order_witness :
    Srv.create false { Perm := DMSYMLINK, Mode := 1 } { fid := 1, refcount := 1, Typ := QTDIR }
      = ({ fid := 1, refcount := 1, Typ := QTDIR }, [.RespondError .Eperm]) ∧
    Srv.create false { Perm := 420, Mode := 1 } { fid := 1, refcount := 1, Typ := QTDIR }
      = ({ fid := 1, refcount := 1, Typ := QTDIR, Omode := 1 }, [.reqOps .Create]) ∧
    Srv.createPost (some { Typ := Rcreate, Qid := { Typ := 0, Path := 7 } })
        (some { fid := 1, refcount := 1, Typ := QTDIR, Omode := 1 })
      = some { fid := 1, refcount := 1, Typ := 0, Omode := 1, opened := true } :=
  ⟨(create_checks_in_order false { Perm := DMSYMLINK, Mode := 1 }
      { fid := 1, refcount := 1, Typ := QTDIR }).2.2.2.1 rfl (by decide) (by decide)
      ⟨by decide, rfl⟩,
   (create_checks_in_order false { Perm := 420, Mode := 1 }
      { fid := 1, refcount := 1, Typ := QTDIR }).2.2.2.2.1 rfl (by decide) (by decide)
      (by decide),
   (create_checks_in_order false {} { fid := 1, refcount := 1, Typ := QTDIR, Omode := 1 }).2.2.2.2.2.1
      { Typ := Rcreate, Qid := { Typ := 0, Path := 7 } } rfl⟩

/-! ## Reference counts in the postflight handlers -/

/-- The store after `IncRef`: the record at the address has its refcount incremented,
every other field and every other record is as before. -/
theorem incRef_mem (w : World) (p q : Ptr) :
    (Fid.IncRef w p).mem q =
      if q = p then { w.mem p with refcount := (w.mem p).refcount + 1 } else w.mem q := by
  unfold Fid.IncRef World.put
  by_cases h : q = p
  · subst h; simp
  · simp [Function.update, h]

/-- The store after `DecRef`: the record at the address has its refcount decremented,
every other field and every other record is as before. -/
theorem decRef_mem (w : World) (p q : Ptr) :
    (Fid.DecRef w p).mem q =
      if q = p then { w.mem p with refcount := (w.mem p).refcount - 1 } else w.mem q := by
  unfold Fid.DecRef World.put
  by_cases h : q = p
  · subst h
    simp only [Function.update_same, if_true]
    split_ifs <;> simp
  · simp only [Function.update_same, h, if_false]
    split_ifs <;> simp [Function.update, h]

/-- C19: refcount bookkeeping of the postflight handlers, on the store of fid records.
`authPost` increments the refcount of the afid record once if the reply is an Rauth
and changes nothing otherwise. `attachPost` sets the type of the fid record to the
type of the reply qid and increments its refcount once if the reply is an Rattach,
and changes nothing otherwise. `clunkPost` decrements the refcount of the fid record
once if the reply is an Rclunk and changes nothing otherwise. `removePost` decrements
it once for every non-nil reply, of whatever kind. No other field of the record and
no other record is written. -/
theorem postflight_refcounts (w : World) (req : Req) :
    ((∀ rc, req.Rc = some rc → rc.Typ ≠ Rauth) → Srv.authPost w req = some w) ∧
    (∀ rc ap, req.Rc = some rc → rc.Typ = Rauth → req.Afid = some ap →
      ∃ w1, Srv.authPost w req = some w1 ∧ w1.conn = w.conn ∧ ∀ q, w1.mem q =
        if q = ap then { w.mem ap with refcount := (w.mem ap).refcount + 1 } else w.mem q) ∧
    ((∀ rc, req.Rc = some rc → rc.Typ ≠ Rattach) → Srv.attachPost w req = some w) ∧
    (∀ rc fp, req.Rc = some rc → rc.Typ = Rattach → req.Fid = some fp →
      ∃ w1, Srv.attachPost w req = some w1 ∧ w1.conn = w.conn ∧ ∀ q, w1.mem q =
        if q = fp then { w.mem fp with Typ := rc.Qid.Typ, refcount := (w.mem fp).refcount + 1 }
        else w.mem q) ∧
    ((∀ rc, req.Rc = some rc → rc.Typ ≠ Rclunk) → Srv.clunkPost w req = w) ∧
    (∀ rc fp, req.Rc = some rc → rc.Typ = Rclunk → req.Fid = some fp →
      ∀ q, (Srv.clunkPost w req).mem q =
        if q = fp then { w.mem fp with refcount := (w.mem fp).refcount - 1 } else w.mem q) ∧
    (req.Rc = none → Srv.removePost w req = w) ∧
    (∀ rc fp, req.Rc = some rc → req.Fid = some fp →
      ∀ q, (Srv.removePost w req).mem q =
        if q = fp then { w.mem fp with refcount := (w.mem fp).refcount - 1 } else w.mem q) := by
  refine ⟨?_, ?_, ?_, ?_, ?_, ?_, ?_, ?_⟩
  · intro h
    unfold Srv.authPost
    cases hrc : req.Rc with
    | none => rfl
    | some rc => simp [h rc hrc]
  · intro rc ap hrc hT hap
    refine ⟨Fid.IncRef w ap, by simp [Srv.authPost, hrc, hT, hap], rfl, fun q => ?_⟩
    exact incRef_mem w ap q
  · intro h
    unfold Srv.attachPost
    cases hrc : req.Rc with
    | none => rfl
    | some rc => simp [h rc hrc]
  · intro rc fp hrc hT hfp
    refine ⟨Fid.IncRef (w.put fp { w.mem fp with Typ := rc.Qid.Typ }) fp,
      by simp [Srv.attachPost, hrc, hT, hfp], rfl, fun q => ?_⟩
    rw [incRef_mem]
    by_cases h : q = fp
    · subst h; simp [World.put]
    · simp [World.put, Function.update, h]
  · intro h
    unfold Srv.clunkPost
    cases hrc : req.Rc with
    | none => rfl
    | some rc =>
      cases hfp : req.Fid with
      | none => rfl
      | some fp => simp [h rc hrc]
  · intro rc fp hrc hT hfp q
    simp only [Srv.clunkPost, hrc, hfp, hT, if_true]
    exact decRef_mem w fp q
  · intro hrc
    simp [Srv.removePost, hrc]
  · intro rc fp hrc hfp q
    simp only [Srv.removePost, hrc, hfp]
    exact decRef_mem w fp q

/-- Witness of C19 on a store with fid 0 at address 0 and fid 1 at address 1, each with
refcount 1: an Rattach with a directory qid makes the record of fid 0 a directory
with refcount 2; an Rerror reply to a Tremove drops the refcount of fid 0 to 0; an
Rerror reply to a Tclunk changes nothing. -/
theorem postflight_refcounts_witness :
    (∃ w1, Srv.attachPost (walkWorld 1)
        { Rc := some { Typ := Rattach, Qid := { Typ := QTDIR } }, Fid := some 0 } = some w1 ∧
      w1.mem 0 = { fid := 0, refcount := 2, Typ := QTDIR }) ∧
    (Srv.removePost (walkWorld 1) { Rc := some { Typ := Rerror }, Fid := some 0 }).mem 0
      = { fid := 0, refcount := 0, Typ := QTDIR } ∧
    Srv.clunkPost (walkWorld 1) { Rc := some { Typ := Rerror }, Fid := some 0 }
      = walkWorld 1 := by
  refine ⟨?_, ?_, ?_⟩
  · obtain ⟨w1, h, _, hm⟩ := (postflight_refcounts (walkWorld 1)
      { Rc := some { Typ := Rattach, Qid := { Typ := QTDIR } }, Fid := some 0 }).2.2.2.1
      { Typ := Rattach, Qid := { Typ := QTDIR } } 0 rfl rfl rfl
    exact ⟨w1, h, by simpa [walkWorld] using hm 0⟩
  · have h := (postflight_refcounts (walkWorld 1)
      { Rc := some { Typ := Rerror }, Fid := some 0 }).2.2.2.2.2.2.2
      { Typ := Rerror } 0 rfl rfl 0
    simpa [walkWorld] using h
  · exact (postflight_refcounts (walkWorld 1)
      { Rc := some { Typ := Rerror }, Fid := some 0 }).2.2.2.2.1
      (fun rc hrc => by
        have : rc = { Typ := Rerror } := by simpa using hrc.symm
        subst this; decide)

/-! ## Auth fids -/

/-- C17, as stated, fails: a Tread on an auth fid whose reply buffer `InitRread` cannot
set up is answered with the error of `InitRread`, also when the backing
implementation has no `AuthOps`; the answer is not `Enotimpl`. -/
theorem auth_read_initRread_error_first :
    (({ fid := 3, refcount := 1, Typ := QTAUTH } : Fid).Typ &&& QTAUTH ≠ 0) ∧
    ¬ u32 ((0 : Nat) + IOHDRSZ) > 8216 ∧
    plainSrv.authOps.isNone = true ∧
    Srv.read plainSrv failingCodec 8216 { Count := 0 } { fid := 3, refcount := 1, Typ := QTAUTH }
      = ({ fid := 3, refcount := 1, Typ := QTAUTH },
         [.RespondError (.mk "buffer too small" EINVAL)]) ∧
    Error.mk "buffer too small" EINVAL ≠ Error.Enotimpl := by
  refine ⟨by decide, by decide, rfl, by decide, by decide⟩

/-- C17, amended: on a fid with QTAUTH set, `read`, `write` and `clunk` leave the fid
unchanged and invoke no `ReqOps` method. A Tread that passes the size check is
answered with the error of `InitRread` if that fails; otherwise it is answered from
`AuthOps.AuthRead` (the Rread with the returned count, or the returned error), or
with `Enotimpl` without `AuthOps`. A Twrite is answered from `AuthOps.AuthWrite` (the
Rwrite with the returned count, or the returned error), or with `Enotimpl`. A Tclunk
calls `AuthOps.AuthDestroy` and replies Rclunk, or replies `Enotimpl`. -/
theorem auth_fid_routed_to_authOps (srv : Srv) (codec : Codec) (Msize : Nat) (tc : Fcall)
    (fid : Fid) (hauth : fid.Typ &&& QTAUTH ≠ 0) :
    ((Srv.read srv codec Msize tc fid).1 = fid ∧
      ∀ c ∈ (Srv.read srv codec Msize tc fid).2, c.isReqOps = false) ∧
    ((Srv.write srv Msize tc fid).1 = fid ∧
      ∀ c ∈ (Srv.write srv Msize tc fid).2, c.isReqOps = false) ∧
    ((Srv.clunk srv fid).1 = fid ∧ ∀ c ∈ (Srv.clunk srv fid).2, c.isReqOps = false) ∧
    (¬ u32 (tc.Count + IOHDRSZ) > Msize →
      (∀ err, codec.InitRread tc.Count = some err →
        (Srv.read srv codec Msize tc fid).2 = [.RespondError err]) ∧
      (codec.InitRread tc.Count = none →
        (srv.authOps = none →
          (Srv.read srv codec Msize tc fid).2 = [.RespondError .Enotimpl]) ∧
        (∀ op, srv.authOps = some op →
          (∀ n, op.AuthRead fid tc.Offset tc.Count = .ok n →
            (Srv.read srv codec Msize tc fid).2 = [.authOps .AuthRead, .Respond (toU32 n)]) ∧
          (∀ err, op.AuthRead fid tc.Offset tc.Count = .error err →
            (Srv.read srv codec Msize tc fid).2
              = [.authOps .AuthRead, .RespondError err])))) ∧
    (srv.authOps = none → (Srv.write srv Msize tc fid).2 = [.RespondError .Enotimpl]) ∧
    (∀ op, srv.authOps = some op →
      (∀ n, op.AuthWrite fid tc.Offset tc.Data = .ok n →
        (Srv.write srv Msize tc fid).2 = [.authOps .AuthWrite, .RespondRwrite (toU32 n)]) ∧
      (∀ err, op.AuthWrite fid tc.Offset tc.Data = .error err →
        (Srv.write srv Msize tc fid).2 = [.authOps .AuthWrite, .RespondError err])) ∧
    (srv.authOps = none → (Srv.clunk srv fid).2 = [.RespondError .Enotimpl]) ∧
    (∀ op, srv.authOps = some op →
      (Srv.clunk srv fid).2 = [.authOps .AuthDestroy, .RespondRclunk]) := by
  refine ⟨?_, ?_, ?_, ?_, ?_, ?_, ?_, ?_⟩
  · unfold Srv.read
    simp only [hauth, ne_eq, not_false_eq_true, if_true]
    constructor
    · split_ifs <;> (repeat' split) <;> rfl
    · split_ifs <;> (repeat' split) <;> simp [Call.isReqOps]
  · unfold Srv.write
    simp only [hauth, ne_eq, not_false_eq_true, if_true]
    constructor
    · (repeat' split) <;> rfl
    · (repeat' split) <;> simp [Call.isReqOps]
  · unfold Srv.clunk
    simp only [hauth, ne_eq, not_false_eq_true, if_true]
    constructor
    · (repeat' split) <;> rfl
    · (repeat' split) <;> simp [Call.isReqOps]
  · intro hsize
    refine ⟨fun err herr => ?_, fun hinit => ⟨fun hno => ?_, fun op hop => ⟨fun n hn => ?_,
      fun err herr => ?_⟩⟩⟩
    · simp [Srv.read, hsize, hauth, herr]
    · simp [Srv.read, hsize, hauth, hinit, hno]
    · simp [Srv.read, hsize, hauth, hinit, hop, hn]
    · simp [Srv.read, hsize, hauth, hinit, hop, herr]
  · intro hno
    simp [Srv.write, hauth, hno]
  · intro op hop
    exact ⟨fun n hn => by simp [Srv.write, hauth, hop, hn],
      fun err herr => by simp [Srv.write, hauth, hop, herr]⟩
  · intro hno
    simp [Srv.clunk, hauth, hno]
  · intro op hop
    simp [Srv.clunk, hauth, hop]

/-- Witness of the amended C17: on an auth fid, without `AuthOps`, a Tread whose reply
buffer can be set up, a Twrite and a Tclunk are each answered `Enotimpl`. -/
theorem auth_fid_routed_to_authOps_witness :
    (({ fid := 3, refcount := 1, Typ := QTAUTH } : Fid).Typ &&& QTAUTH ≠ 0) ∧
    (Srv.read plainSrv plainCodec 8216 { Count := 10 }
        { fid := 3, refcount := 1, Typ := QTAUTH }).2 = [.RespondError .Enotimpl] ∧
    (Srv.write plainSrv 8216 { Count := 10 }
        { fid := 3, refcount := 1, Typ := QTAUTH }).2 = [.RespondError .Enotimpl] ∧
    (Srv.clunk plainSrv { fid := 3, refcount := 1, Typ := QTAUTH }).2
      = [.RespondError .Enotimpl] :=
  ⟨by decide,
   ((auth_fid_routed_to_authOps plainSrv plainCodec 8216 { Count := 10 }
      { fid := 3, refcount := 1, Typ := QTAUTH } (by decide)).2.2.2.1 (by decide)).2 rfl |>.1 rfl,
   (auth_fid_routed_to_authOps plainSrv plainCodec 8216 { Count := 10 }
      { fid := 3, refcount := 1, Typ := QTAUTH } (by decide)).2.2.2.2.1 rfl,
   (auth_fid_routed_to_authOps plainSrv plainCodec 8216 { Count := 10 }
      { fid := 3, refcount := 1, Typ := QTAUTH } (by decide)).2.2.2.2.2.2.1 rfl⟩

/-! ## Client: version negotiation -/

/-- C11: when the Tversion can be packed, for every proposed msize `p` and dotu flag
`d`: if the round trip returns the reply `rc` without error, `Connect` returns a
client with `Msize = min p rc.Msize` and `Dotu` true exactly when `d` is true and
`rc.Version` is `9P2000.u`, and no error; if the round trip returns an error,
`Connect` returns that error and no client. -/
theorem connect_negotiates (p : Nat) (d : Bool) (PackTversion : Nat → String → Option Error)
    (Rpc : Nat → String → Option Fcall × Option Error)
    (hpack : PackTversion p (if d = true then "9P2000.u" else "9P2000") = none) :
    (∀ rc, Rpc p (if d = true then "9P2000.u" else "9P2000") = (some rc, none) →
      Connect p d PackTversion Rpc
        = some (some ⟨min p rc.Msize, decide (d = true ∧ rc.Version = "9P2000.u")⟩, none)) ∧
    (∀ rc err, Rpc p (if d = true then "9P2000.u" else "9P2000") = (rc, some err) →
      Connect p d PackTversion Rpc = some (none, some err)) := by
  constructor
  · intro rc hrpc
    have hm : (if rc.Msize < p then rc.Msize else p) = min p rc.Msize := by
      by_cases h : rc.Msize < p
      · simp [h, Nat.min_eq_right (Nat.le_of_lt h)]
      · simp [h, Nat.min_eq_left (Nat.not_lt.mp h)]
    have hd : (rc.Version == "9P2000.u" && d) = decide (d = true ∧ rc.Version = "9P2000.u") := by
      by_cases hv : rc.Version = "9P2000.u" <;> cases d <;> simp [hv]
    unfold Connect
    simp only [hpack, hrpc, hm, hd]
  · intro rc err hrpc
    unfold Connect
    simp only [hpack, hrpc]

/-- Witness of C11: proposed msize 8216 with dotu, reply `(8216, "9P2000.u")`: the
client has `Msize = 8216` and `Dotu = true`. -/
theorem connect_negotiates_witness :
    Connect 8216 true (fun _ _ => none)
        (fun m v => (some { Typ := Rversion, Tag := NOTAG, Msize := m, Version := v }, none))
      = some (some ⟨8216, true⟩, none) :=
  (connect_negotiates 8216 true (fun _ _ => none)
    (fun m v => (some { Typ := Rversion, Tag := NOTAG, Msize := m, Version := v }, none))
    rfl).1 { Typ := Rversion, Tag := NOTAG, Msize := 8216, Version := "9P2000.u" } rfl

/-! ## Tflush -/

/-- C16: the flush decision, for the flush request at address `req` with `oldtag` in
its T-message. If no request is registered under `oldtag`, the handler calls
`req.Respond()` on the Rflush and touches no other request. If the request at `r` is
registered, with status `st` when inspected: when `st` has neither Work nor Saved,
the status of `r` gains the Flush bit and the handler calls `r.Respond()` and nothing
else; when `st` has Work or Saved, the status of `r` is unchanged and the handler
calls `FlushOp.Flush(r)` once if the backing implementation has `FlushOp`, and
nothing otherwise. In the found case the handler does not call `req.Respond()`, the
target being another request or the flush request having its Work bit set. -/
theorem flush_decision (hasFlushOp : Bool) (s : ReqStore) (req : Ptr) :
    (s.reqs (s.rmem req).Tc.Oldtag = none →
      (Srv.flush hasFlushOp s req).2 = [.Respond req] ∧
      ((Srv.flush hasFlushOp s req).1.rmem req).Rc = PackRflush (s.rmem req).Rc ∧
      (Srv.flush hasFlushOp s req).1.reqs = s.reqs ∧
      ∀ p, p ≠ req → (Srv.flush hasFlushOp s req).1.rmem p = s.rmem p) ∧
    (∀ r, s.reqs (s.rmem req).Tc.Oldtag = some r →
      ((s.rmem r).status &&& (reqWork ||| reqSaved) = 0 →
        (Srv.flush hasFlushOp s req).2 = [.Respond r] ∧
        ((Srv.flush hasFlushOp s req).1.rmem r).status = (s.rmem r).status ||| reqFlush) ∧
      ((s.rmem r).status &&& (reqWork ||| reqSaved) ≠ 0 →
        (Srv.flush hasFlushOp s req).2 = (if hasFlushOp = true then [.Flush r] else []) ∧
        ((Srv.flush hasFlushOp s req).1.rmem r).status = (s.rmem r).status) ∧
      ((r ≠ req ∨ (s.rmem req).status &&& (reqWork ||| reqSaved) ≠ 0) →
        FlushCall.Respond req ∉ (Srv.flush hasFlushOp s req).2)) := by
  constructor
  · intro hnone
    refine ⟨?_, ?_, ?_, ?_⟩
    · simp [Srv.flush, ReqStore.put, hnone]
    · simp [Srv.flush, ReqStore.put, hnone]
    · simp [Srv.flush, ReqStore.put, hnone]
    · intro p hp
      simp [Srv.flush, ReqStore.put, hnone, Function.update, hp]
  · intro r hr
    refine ⟨fun h0 => ?_, fun h1 => ?_, fun hne => ?_⟩
    · by_cases h : r = req
      · subst h
        simp [Srv.flush, ReqStore.put, hr, h0]
      · simp [Srv.flush, ReqStore.put, hr, h0, Function.update, h]
    · by_cases h : r = req
      · subst h
        cases hasFlushOp <;> simp [Srv.flush, ReqStore.put, hr, h1]
      · cases hasFlushOp <;> simp [Srv.flush, ReqStore.put, hr, h1, Function.update, h]
    · by_cases h : r = req
      · subst h
        have h1 : (s.rmem r).status &&& (reqWork ||| reqSaved) ≠ 0 := by
          rcases hne with hh | hh
          · exact absurd rfl hh
          · exact hh
        cases hasFlushOp <;> simp [Srv.flush, ReqStore.put, hr, h1]
      · by_cases h0 : (s.rmem r).status &&& (reqWork ||| reqSaved) = 0
        · simp [Srv.flush, ReqStore.put, hr, h0, Function.update, h]
          exact fun hh => h hh.symm
        · cases hasFlushOp <;> simp [Srv.flush, ReqStore.put, hr, h0, Function.update, h]

/-- Witness of C16 on `flushStore`: a target that is not yet worked on (status 0) is
flagged and responded to; a target that is being worked on is handed to
`FlushOp.Flush` and keeps its status; with no request under the old tag the flush
request is responded to at once. -/
theorem flush_decision_witness :
    ((Srv.flush true (flushStore 0) 2).2 = [.Respond 1] ∧
      ((Srv.flush true (flushStore 0) 2).1.rmem 1).status = 0 ||| reqFlush) ∧
    ((Srv.flush true (flushStore reqWork) 2).2 = [.Flush 1] ∧
      ((Srv.flush true (flushStore reqWork) 2).1.rmem 1).status = reqWork) ∧
    (Srv.flush true (flushStore 0) 1).2 = [.Respond 1] :=
  ⟨((flush_decision true (flushStore 0) 2).2 1 rfl).1 (by decide),
   ((flush_decision true (flushStore reqWork) 2).2 1 rfl).2.1 (by decide),
   ((flush_decision true (flushStore 0) 1).1 rfl).1⟩

/-! ## Client: the outstanding list -/

/-- A list segment only depends on the links of its own requests. -/
theorem dlseg_frame (mem mem' : Ptr → CReq) (L : List Ptr) :
    ∀ first prev last next : Option Ptr,
      (∀ p ∈ L, (mem' p).prev = (mem p).prev ∧ (mem' p).next = (mem p).next) →
      dlseg mem first prev last next L → dlseg mem' first prev last next L := by
  induction L with
  | nil => intro first prev last next _ h; exact h
  | cons p ps ih =>
    intro first prev last next hf h
    obtain ⟨h1, h2, h3⟩ := h
    have hp := hf p (List.mem_cons_self p ps)
    refine ⟨h1, by rw [hp.1]; exact h2, ?_⟩
    rw [hp.2]
    exact ih _ _ _ _ (fun q hq => hf q (List.mem_cons_of_mem p hq)) h3

/-- A segment of a concatenation splits into two segments that meet. -/
theorem dlseg_append (mem : Ptr → CReq) (A B : List Ptr) :
    ∀ first prev last next : Option Ptr,
      dlseg mem first prev last next (A ++ B) ↔
        ∃ mid lastA, dlseg mem first prev lastA mid A ∧ dlseg mem mid lastA last next B := by
  induction A with
  | nil =>
    intro first prev last next
    constructor
    · intro h
      exact ⟨first, prev, ⟨rfl, rfl⟩, h⟩
    · rintro ⟨mid, lastA, ⟨h1, h2⟩, h⟩
      subst h1; subst h2
      exact h
  | cons p ps ih =>
    intro first prev last next
    constructor
    · rintro ⟨h1, h2, h3⟩
      obtain ⟨mid, lastA, hA, hB⟩ := (ih _ _ _ _).mp h3
      exact ⟨mid, lastA, ⟨h1, h2, hA⟩, hB⟩
    · rintro ⟨mid, lastA, ⟨h1, h2, hA⟩, hB⟩
      exact ⟨h1, h2, (ih _ _ _ _).mpr ⟨mid, lastA, hA, hB⟩⟩

/-- The `last` pointer of a non-empty segment is its last request. -/
theorem dlseg_last (mem : Ptr → CReq) (L : List Ptr) :
    ∀ (first prev last next : Option Ptr) (hne : L ≠ []),
      dlseg mem first prev last next L → last = some (L.getLast hne) := by
  induction L with
  | nil => intro _ _ _ _ hne; exact absurd rfl hne
  | cons p ps ih =>
    intro first prev last next hne h
    obtain ⟨_, _, h3⟩ := h
    cases ps with
    | nil => simpa using h3.2
    | cons q qs =>
      have := ih _ _ _ _ (List.cons_ne_nil q qs) h3
      simpa using this

/-- The `next` pointer out of a non-empty segment can be redirected by writing the
`next` field of its last request. -/
theorem dlseg_set_next (mem mem' : Ptr → CReq) (a : Ptr) (next' : Option Ptr) (L : List Ptr) :
    ∀ (first prev next : Option Ptr), L ≠ [] → L.Nodup →
      dlseg mem first prev (some a) next L →
      (∀ p ∈ L, (mem' p).prev = (mem p).prev) →
      (∀ p ∈ L, p ≠ a → (mem' p).next = (mem p).next) →
      (mem' a).next = next' →
      dlseg mem' first prev (some a) next' L := by
  induction L with
  | nil => intro _ _ _ hne; exact absurd rfl hne
  | cons p ps ih =>
    intro first prev next _ hnd h hprev hnext ha
    obtain ⟨h1, h2, h3⟩ := h
    cases ps with
    | nil =>
      obtain ⟨_, h5⟩ := h3
      have hap : a = p := by simpa using h5
      subst hap
      exact ⟨h1, by rw [hprev a (List.mem_singleton_self a)]; exact h2, ha, rfl⟩
    | cons q qs =>
      have hlast := dlseg_last mem (q :: qs) _ _ _ _ (List.cons_ne_nil q qs) h3
      have hmem : a ∈ q :: qs := by
        have : a = (q :: qs).getLast (List.cons_ne_nil q qs) := by simpa using hlast
        rw [this]; exact List.getLast_mem _
      have hpa : p ≠ a := by
        intro hpa
        subst hpa
        exact (List.nodup_cons.mp hnd).1 hmem
      refine ⟨h1, by rw [hprev p (List.mem_cons_self _ _)]; exact h2, ?_⟩
      rw [hnext p (List.mem_cons_self _ _) hpa]
      exact ih _ _ _ (List.cons_ne_nil q qs) (List.nodup_cons.mp hnd).2 h3
        (fun x hx => hprev x (List.mem_cons_of_mem p hx))
        (fun x hx hxa => hnext x (List.mem_cons_of_mem p hx) hxa) ha

/-- The `prev` pointer into a non-empty segment can be redirected by writing the `prev`
field of its first request. -/
theorem dlseg_set_prev (mem mem' : Ptr → CReq) (b : Ptr) (bs : List Ptr)
    (prev prev' last next : Option Ptr)
    (h : dlseg mem (some b) prev last next (b :: bs))
    (hnext : ∀ p ∈ b :: bs, (mem' p).next = (mem p).next)
    (hprev : ∀ p ∈ bs, (mem' p).prev = (mem p).prev)
    (hb : (mem' b).prev = prev') :
    dlseg mem' (some b) prev' last next (b :: bs) := by
  obtain ⟨h1, _, h3⟩ := h
  refine ⟨h1, hb, ?_⟩
  rw [hnext b (List.mem_cons_self _ _)]
  exact dlseg_frame mem mem' bs _ _ _ _
    (fun p hp => ⟨hprev p hp, hnext p (List.mem_cons_of_mem b hp)⟩) h3

/-- On a well-formed list whose requests all have a T-message, the search of the receive
loop returns, given a step for each request, the first request whose T-message has the
tag looked for, or nil if there is none. -/
theorem find_dlseg (mem : Ptr → CReq) (t : Nat) (L : List Ptr) :
    ∀ (fuel : Nat) (first prev last : Option Ptr), L.length ≤ fuel →
      dlseg mem first prev last none L →
      (∀ p ∈ L, ∃ tc, (mem p).Tc = some tc) →
      Clnt.find mem t fuel first =
        .ok (L.find? fun p => decide (∃ tc, (mem p).Tc = some tc ∧ tc.Tag = t)) := by
  induction L with
  | nil =>
    intro fuel first prev last _ h _
    obtain ⟨h1, _⟩ := h
    subst h1
    cases fuel <;> simp [Clnt.find]
  | cons p ps ih =>
    intro fuel first prev last hlen h htc
    obtain ⟨h1, _, h3⟩ := h
    subst h1
    cases fuel with
    | zero => simp at hlen
    | succ fuel =>
      obtain ⟨tc, htcp⟩ := htc p (List.mem_cons_self _ _)
      simp only [Clnt.find, htcp]
      by_cases ht : tc.Tag = t
      · simp [ht, htcp]
      · have hrest := ih fuel (mem p).next (some p) last (by simpa using hlen) h3
          (fun q hq => htc q (List.mem_cons_of_mem p hq))
        simp [ht, htcp, hrest]

/-- Submitting a request that is not in the list, with a nil `next`, on a client that
is not errored, appends it to the outstanding list. -/
theorem rpcnb_holds (c : Clnt) (L : List Ptr) (r : Ptr) (tc : Fcall)
    (hL : c.holds L) (herr : c.err = none) (hr : r ∉ L) (hnext : (c.mem r).next = none)
    (htc : (c.mem r).Tc = some tc) :
    ∃ c', c.Rpcnb r = .ok (c', none) ∧ c'.holds (L ++ [r]) := by
  obtain ⟨hseg, hnd⟩ := hL
  have hnd' : (L ++ [r]).Nodup := by
    rw [List.nodup_append]
    exact ⟨hnd, List.nodup_singleton r, by
      intro a ha hb
      have : a = r := by simpa using hb
      subst this
      exact hr ha⟩
  unfold Clnt.Rpcnb
  simp only [htc, Clnt.put, herr, ne_eq, not_true_eq_false, if_false]
  by_cases hne : L = []
  · subst hne
    obtain ⟨h1, h2⟩ := hseg
    simp only [h2]
    refine ⟨_, rfl, ?_, hnd'⟩
    simp [dlseg, hnext]
  · have hlast := dlseg_last c.mem L _ _ _ _ hne hseg
    have hlmem : L.getLast hne ∈ L := List.getLast_mem hne
    have hlr : L.getLast hne ≠ r := fun h => hr (h ▸ hlmem)
    simp only [hlast]
    refine ⟨_, rfl, ?_, hnd'⟩
    rw [hlast] at hseg
    rw [dlseg_append]
    refine ⟨some r, some (L.getLast hne), ?_, ?_⟩
    · refine dlseg_set_next c.mem _ (L.getLast hne) (some r) L _ _ _ hne hnd hseg ?_ ?_ ?_
      · intro p hp
        have hpr : p ≠ r := fun h => hr (h ▸ hp)
        by_cases hpl : p = L.getLast hne
        · simp [Function.update, hpr, hpl, hlr]
        · simp [Function.update, hpr, hpl]
      · intro p hp hpl
        have hpr : p ≠ r := fun h => hr (h ▸ hp)
        simp [Function.update, hpr, hpl]
      · simp [Function.update, hlr]
    · simp [dlseg, Function.update, hlr, Ne.symm hlr, hnext]

/-- Reading the store after a write. -/
theorem put_mem (c : Clnt) (p q : Ptr) (r : CReq) :
    (c.put p r).mem q = if q = p then r else c.mem q := by
  unfold Clnt.put
  by_cases h : q = p
  · subst h; simp
  · simp [Function.update, h]

/-- Taking a request out of the list writes only `prev` and `next` fields and the two
ends of the list. -/
theorem unlink_data (c : Clnt) (r : Ptr) :
    (c.unlink r).err = c.err ∧ (c.unlink r).reqchan = c.reqchan ∧
    (c.unlink r).issued = c.issued ∧ (c.unlink r).brk = c.brk ∧
    ∀ p, ((c.unlink r).mem p).Tc = (c.mem p).Tc ∧ ((c.unlink r).mem p).Rc = (c.mem p).Rc ∧
      ((c.unlink r).mem p).Err = (c.mem p).Err ∧ ((c.unlink r).mem p).Done = (c.mem p).Done ∧
      ((c.unlink r).mem p).tag = (c.mem p).tag := by
  unfold Clnt.unlink
  cases hp : (c.mem r).prev with
  | none =>
    simp only
    cases hn : (c.mem r).next with
    | none => simp
    | some nx =>
      refine ⟨rfl, rfl, rfl, rfl, fun p => ?_⟩
      simp only [put_mem]
      split_ifs <;> simp_all
  | some pv =>
    simp only
    cases hn : ((c.put pv { c.mem pv with next := (c.mem r).next }).mem r).next with
    | none =>
      refine ⟨rfl, rfl, rfl, rfl, fun p => ?_⟩
      simp only [put_mem]
      split_ifs <;> simp_all
    | some nx =>
      refine ⟨rfl, rfl, rfl, rfl, fun p => ?_⟩
      simp only [put_mem]
      split_ifs <;> simp_all

/-- Taking a request of a well-formed list out of it leaves a well-formed list with
the other requests, in the same order. -/
theorem unlink_holds (c : Clnt) (L : List Ptr) (r : Ptr) (hL : c.holds L) (hr : r ∈ L) :
    (c.unlink r).holds (L.erase r) := by
  obtain ⟨hseg, hnd⟩ := hL
  obtain ⟨A, B, rfl⟩ := List.append_of_mem hr
  have hrA : r ∉ A := fun h => by
    have := (List.nodup_append.mp hnd).2.2 h (List.mem_cons_self r B)
    exact this
  have hndA : A.Nodup := (List.nodup_append.mp hnd).1
  have hndrB : (r :: B).Nodup := (List.nodup_append.mp hnd).2.1
  have hrB : r ∉ B := (List.nodup_cons.mp hndrB).1
  have hndB : B.Nodup := (List.nodup_cons.mp hndrB).2
  have hdisj : ∀ a ∈ A, a ∉ B := fun a ha hb =>
    (List.nodup_append.mp hnd).2.2 ha (List.mem_cons_of_mem r hb)
  have herase : (A ++ r :: B).erase r = A ++ B := by
    rw [List.erase_append_right _ hrA, List.erase_cons_head]
  have hndAB : (A ++ B).Nodup :=
    List.nodup_append.mpr ⟨hndA, hndB, fun a ha hb => hdisj a ha hb⟩
  rw [herase]
  refine ⟨?_, hndAB⟩
  obtain ⟨mid, lastA, hA, hB⟩ := (dlseg_append c.mem A (r :: B) _ _ _ _).mp hseg
  obtain ⟨hmid, hprev, hB⟩ := hB
  subst hmid
  rw [dlseg_append]
  refine ⟨(c.mem r).next, lastA, ?_, ?_⟩
  · -- the requests before `r`
    by_cases hAe : A = []
    · subst hAe
      obtain ⟨_, hl⟩ := hA
      subst hl
      unfold Clnt.unlink
      simp only [hprev]
      cases B with
      | nil =>
        obtain ⟨hn, _⟩ := hB
        simp [dlseg, hn]
      | cons y ys =>
        obtain ⟨hn, _, _⟩ := hB
        simp [dlseg, hn, Clnt.put]
    · have hx := dlseg_last c.mem A _ _ _ _ hAe hA
      have hxA : A.getLast hAe ∈ A := List.getLast_mem hAe
      have hxr : A.getLast hAe ≠ r := fun h => hrA (h ▸ hxA)
      rw [hx] at hA hprev ⊢
      have hreq : ∀ rec, (c.put (A.getLast hAe) rec).mem r = c.mem r := by
        intro rec
        rw [put_mem, if_neg (Ne.symm hxr)]
      unfold Clnt.unlink
      simp only [hprev, hreq]
      cases B with
      | nil =>
        obtain ⟨hn, _⟩ := hB
        simp only [hn]
        refine dlseg_set_next c.mem _ (A.getLast hAe) none A _ _ _ hAe hndA hA ?_ ?_ ?_
        · intro p _
          simp only [put_mem]
          split_ifs <;> simp_all
        · intro p _ hpx
          simp only [put_mem, if_neg hpx]
        · simp [put_mem]
      | cons y ys =>
        obtain ⟨hn, _, _⟩ := hB
        have hyx : A.getLast hAe ≠ y := fun h =>
          hdisj _ hxA (h ▸ List.mem_cons_self y ys)
        simp only [hn]
        refine dlseg_set_next c.mem _ (A.getLast hAe) (some y) A _ _ _ hAe hndA hA ?_ ?_ ?_
        · intro p hp
          have hpy : p ≠ y := fun h => hdisj p hp (h ▸ List.mem_cons_self y ys)
          simp only [put_mem, if_neg hpy]
          split_ifs <;> simp_all
        · intro p hp hpx
          have hpy : p ≠ y := fun h => hdisj p hp (h ▸ List.mem_cons_self y ys)
          simp only [put_mem, if_neg hpy, if_neg hpx]
        · simp [put_mem, hyx]
  · -- the requests after `r`
    cases B with
    | nil =>
      obtain ⟨hn, hl⟩ := hB
      unfold Clnt.unlink
      cases hp : (c.mem r).prev with
      | none =>
        rw [hp] at hprev
        simp [dlseg, hn, hp, hprev.symm]
      | some pv =>
        rw [hp] at hprev
        have hpvr : pv ≠ r := by
          intro h
          subst h
          by_cases hAe : A = []
          · subst hAe
            exact absurd hA.2.symm (by simp [← hprev])
          · have hx := dlseg_last c.mem A _ _ _ _ hAe hA
            rw [← hprev] at hx
            have : pv = A.getLast hAe := by simpa using hx
            exact hrA (this ▸ List.getLast_mem hAe)
        have hreq : ∀ rec, (c.put pv rec).mem r = c.mem r := by
          intro rec
          rw [put_mem, if_neg (Ne.symm hpvr)]
        simp [dlseg, hreq, hn, hp, hprev.symm]
    | cons y ys =>
      obtain ⟨hn, hyprev, hys⟩ := hB
      have hyr : y ≠ r := fun h => hrB (h ▸ List.mem_cons_self y ys)
      have hseg' : dlseg c.mem (some y) (some r) c.reqlast none (y :: ys) := ⟨rfl, hyprev, hys⟩
      rw [hn]
      unfold Clnt.unlink
      cases hp : (c.mem r).prev with
      | none =>
        rw [hp] at hprev
        simp only [hn]
        refine dlseg_set_prev c.mem _ y ys (some r) lastA _ _ hseg' ?_ ?_ ?_
        · intro p _
          simp only [put_mem]
          split_ifs <;> simp_all
        · intro p hpys
          have hpy : p ≠ y := fun h => (List.nodup_cons.mp hndB).1 (h ▸ hpys)
          simp only [put_mem, if_neg hpy]
        · simp [put_mem, hp, hprev]
      | some pv =>
        rw [hp] at hprev
        have hpvA : pv ∈ A := by
          by_cases hAe : A = []
          · subst hAe
            exact absurd hA.2.symm (by simp [← hprev])
          · have hx := dlseg_last c.mem A _ _ _ _ hAe hA
            rw [← hprev] at hx
            have : pv = A.getLast hAe := by simpa using hx
            exact this ▸ List.getLast_mem hAe
        have hpvr : pv ≠ r := fun h => hrA (h ▸ hpvA)
        have hreq : ∀ rec, (c.put pv rec).mem r = c.mem r := by
          intro rec
          rw [put_mem, if_neg (Ne.symm hpvr)]
        simp only [hreq, hn]
        refine dlseg_set_prev c.mem _ y ys (some r) lastA _ _ hseg' ?_ ?_ ?_
        · intro p hpB
          have hppv : p ≠ pv := fun h => hdisj pv hpvA (h ▸ hpB)
          simp only [put_mem]
          split_ifs <;> simp_all
        · intro p hpys
          have hpy : p ≠ y := fun h => (List.nodup_cons.mp hndB).1 (h ▸ hpys)
          have hppv : p ≠ pv := fun h =>
            hdisj pv hpvA (h ▸ List.mem_cons_of_mem y hpys)
          simp only [put_mem, if_neg hpy, if_neg hppv]
        · simp [put_mem, hp, hprev]

/-- Well-formedness of the list only depends on the two ends and on the links. -/
theorem holds_congr (c c' : Clnt) (L : List Ptr) (hf : c'.reqfirst = c.reqfirst)
    (hl : c'.reqlast = c.reqlast)
    (hm : ∀ p, (c'.mem p).prev = (c.mem p).prev ∧ (c'.mem p).next = (c.mem p).next)
    (h : c.holds L) : c'.holds L := by
  obtain ⟨hseg, hnd⟩ := h
  refine ⟨?_, hnd⟩
  rw [hf, hl]
  exact dlseg_frame c.mem c'.mem L _ _ _ _ (fun p _ => hm p) hseg

/-- Writing the reply or the error slot of a request does not touch the list. -/
theorem put_data_holds (c : Clnt) (L : List Ptr) (r : Ptr) (rec : CReq)
    (hp : rec.prev = (c.mem r).prev) (hn : rec.next = (c.mem r).next) (h : c.holds L) :
    (c.put r rec).holds L := by
  refine holds_congr c _ L rfl rfl (fun p => ?_) h
  rw [put_mem]
  split_ifs with hpr
  · subst hpr; exact ⟨hp, hn⟩
  · exact ⟨rfl, rfl⟩

/-- The receive loop on a decoded reply, for a well-formed outstanding list `L` whose
requests all have a T-message, with a step of the search for each request. If a
request of `L` has the tag of the reply, the first such request `r` is matched: it
leaves the list, the others stay in order, its reply is set and its error slot is
computed by `replyErr`; nothing else changes in the records. If no request has the tag,
the list is left alone and the loop closes with the engine error set. -/
theorem recvFrame_on_list (c : Clnt) (L : List Ptr) (fc : Fcall) (fuel : Nat)
    (hL : c.holds L) (htcs : ∀ p ∈ L, ∃ tc, (c.mem p).Tc = some tc)
    (hfuel : L.length ≤ fuel) :
    (∀ r, L.find? (fun p => decide (∃ tc, (c.mem p).Tc = some tc ∧ tc.Tag = fc.Tag)) = some r →
      ∃ c' tc, (c.mem r).Tc = some tc ∧ tc.Tag = fc.Tag ∧
        c.recvFrame (.ok fc) fuel = .ok (.running c' r) ∧
        c'.holds (L.erase r) ∧ c'.err = c.err ∧
        (c'.mem r).Rc = some fc ∧ (c'.mem r).Err = replyErr tc fc (c.mem r).Err ∧
        (∀ p, (c'.mem p).Tc = (c.mem p).Tc ∧ (c'.mem p).tag = (c.mem p).tag) ∧
        (∀ p, p ≠ r → (c'.mem p).Rc = (c.mem p).Rc ∧ (c'.mem p).Err = (c.mem p).Err)) ∧
    (L.find? (fun p => decide (∃ tc, (c.mem p).Tc = some tc ∧ tc.Tag = fc.Tag)) = none →
      c.recvFrame (.ok fc) fuel
        = .ok (.closed { c with err := some (.mk "unexpected response" EINVAL) } none)) := by
  have hfind := find_dlseg c.mem fc.Tag L fuel _ _ _ hfuel hL.1 htcs
  constructor
  · intro r hr
    have hrL : r ∈ L := List.mem_of_find?_eq_some hr
    have hP := List.find?_some hr
    simp only [decide_eq_true_eq] at hP
    obtain ⟨tc, htc, htag⟩ := hP
    rw [hr] at hfind
    have hd := unlink_data (c.put r { c.mem r with Rc := some fc }) r
    have h1 : (((c.put r { c.mem r with Rc := some fc }).unlink r).mem r).Tc = some tc := by
      rw [(hd.2.2.2.2 r).1, put_mem, if_pos rfl]; exact htc
    have h2 : (((c.put r { c.mem r with Rc := some fc }).unlink r).mem r).Rc = some fc := by
      rw [(hd.2.2.2.2 r).2.1, put_mem, if_pos rfl]
    have h3 : (((c.put r { c.mem r with Rc := some fc }).unlink r).mem r).Err = (c.mem r).Err := by
      rw [(hd.2.2.2.2 r).2.2.1, put_mem, if_pos rfl]
    have hh : ((c.put r { c.mem r with Rc := some fc }).unlink r).holds (L.erase r) :=
      unlink_holds _ L r (put_data_holds c L r _ rfl rfl hL) hrL
    obtain ⟨c1, hc1⟩ : ∃ c1, c1 = (c.put r { c.mem r with Rc := some fc }).unlink r := ⟨_, rfl⟩
    rw [← hc1] at hd h1 h2 h3 hh
    refine ⟨c1.put r { c1.mem r with Err := replyErr tc fc (c1.mem r).Err }, tc, htc, htag,
      ?_, ?_, ?_, ?_, ?_, ?_, ?_⟩
    · unfold Clnt.recvFrame
      simp only [hfind, ← hc1, h1, h2]
    · exact put_data_holds _ _ r _ rfl rfl hh
    · show c1.err = c.err
      rw [hd.1]; rfl
    · rw [put_mem, if_pos rfl]; exact h2
    · rw [put_mem, if_pos rfl, h3]
    · intro p
      rw [put_mem]
      split_ifs with hpr
      · subst hpr
        refine ⟨?_, ?_⟩
        · show (c1.mem p).Tc = _
          rw [h1, htc]
        · show (c1.mem p).tag = _
          rw [(hd.2.2.2.2 p).2.2.2.2, put_mem, if_pos rfl]
      · rw [(hd.2.2.2.2 p).1, (hd.2.2.2.2 p).2.2.2.2, put_mem, if_neg hpr]
        exact ⟨rfl, rfl⟩
    · intro p hpr
      rw [put_mem, if_neg hpr, (hd.2.2.2.2 p).2.1, (hd.2.2.2.2 p).2.2.1, put_mem, if_neg hpr]
      exact ⟨rfl, rfl⟩
  · intro hnone
    rw [hnone] at hfind
    unfold Clnt.recvFrame
    simp only [hfind]

/-- A reply whose tag the search finds on the request `r` is matched to `r`: the
T-message of `r` is kept, its reply is set, and its error slot is computed by
`replyErr`; no assumption on the links is needed. -/
theorem recvFrame_reply (c : Clnt) (fc tc : Fcall) (fuel : Nat) (r : Ptr)
    (hfind : Clnt.find c.mem fc.Tag fuel c.reqfirst = .ok (some r))
    (htc : (c.mem r).Tc = some tc) :
    ∃ c', c.recvFrame (.ok fc) fuel = .ok (.running c' r) ∧
      (c'.mem r).Tc = some tc ∧ (c'.mem r).Rc = some fc ∧
      (c'.mem r).Err = replyErr tc fc (c.mem r).Err := by
  have hd := unlink_data (c.put r { c.mem r with Rc := some fc }) r
  have h1 : (((c.put r { c.mem r with Rc := some fc }).unlink r).mem r).Tc = some tc := by
    rw [(hd.2.2.2.2 r).1, put_mem, if_pos rfl]; exact htc
  have h2 : (((c.put r { c.mem r with Rc := some fc }).unlink r).mem r).Rc = some fc := by
    rw [(hd.2.2.2.2 r).2.1, put_mem, if_pos rfl]
  have h3 : (((c.put r { c.mem r with Rc := some fc }).unlink r).mem r).Err = (c.mem r).Err := by
    rw [(hd.2.2.2.2 r).2.2.1, put_mem, if_pos rfl]
  obtain ⟨c1, hc1⟩ : ∃ c1, c1 = (c.put r { c.mem r with Rc := some fc }).unlink r := ⟨_, rfl⟩
  rw [← hc1] at h1 h2 h3
  refine ⟨c1.put r { c1.mem r with Err := replyErr tc fc (c1.mem r).Err }, ?_, ?_, ?_, ?_⟩
  · unfold Clnt.recvFrame
    simp only [hfind, ← hc1, h1, h2]
  · rw [put_mem, if_pos rfl]; exact h1
  · rw [put_mem, if_pos rfl]; exact h2
  · rw [put_mem, if_pos rfl, h3]

/-- For 8-bit kinds, the comparison `Tc.Type != Rc.Type-1` of the receive loop fails
exactly when the kind of the reply is the kind of the request plus one, in `uint8`. -/
theorem kind_matches_iff (t r : Nat) (ht : t < 256) (hr : r < 256) :
    t = u8 (r + 255) ↔ r = u8 (t + 1) := by
  unfold u8
  omega

/-- C12: when the receive loop matches the reply `fc` to the outstanding request `r`
with T-message `tc` and an empty error slot (kinds being 8-bit values): if the kind
of the reply is the kind of the request plus one, the error slot stays empty;
otherwise, if the reply is an Rerror, the error slot is set to the error made of
`fc.Error` and `fc.Errornum`; in every other case it is set to the error `invalid
response` with errno `EINVAL`. The sum is a `uint8` sum, which is the plain sum for
every request kind below 255. -/
theorem recv_sets_err_by_kind (c : Clnt) (fc tc : Fcall) (fuel : Nat) (r : Ptr)
    (hfind : Clnt.find c.mem fc.Tag fuel c.reqfirst = .ok (some r))
    (htc : (c.mem r).Tc = some tc) (herr : (c.mem r).Err = none)
    (htk : tc.Typ < 256) (hfk : fc.Typ < 256) :
    ∃ c', c.recvFrame (.ok fc) fuel = .ok (.running c' r) ∧
      (fc.Typ = u8 (tc.Typ + 1) → (c'.mem r).Err = none) ∧
      (fc.Typ ≠ u8 (tc.Typ + 1) → fc.Typ = Rerror →
        (c'.mem r).Err = some (.mk fc.Error fc.Errornum)) ∧
      (fc.Typ ≠ u8 (tc.Typ + 1) → fc.Typ ≠ Rerror →
        (c'.mem r).Err = some (.mk "invalid response" EINVAL)) ∧
      (tc.Typ < 255 → u8 (tc.Typ + 1) = tc.Typ + 1) := by
  obtain ⟨c', hrun, _, _, hE⟩ := recvFrame_reply c fc tc fuel r hfind htc
  rw [herr] at hE
  have hk := kind_matches_iff tc.Typ fc.Typ htk hfk
  refine ⟨c', hrun, ?_, ?_, ?_, ?_⟩
  · intro h
    rw [hE]
    simp [replyErr, hk.mpr h]
  · intro h hR
    rw [hE]
    have hne : tc.Typ ≠ u8 (fc.Typ + 255) := fun h' => h (hk.mp h')
    unfold replyErr
    rw [if_pos hne, if_neg (not_not.mpr hR), if_pos rfl]
  · intro h hR
    rw [hE]
    have hne : tc.Typ ≠ u8 (fc.Typ + 255) := fun h' => h (hk.mp h')
    unfold replyErr
    rw [if_pos hne, if_pos hR]
  · intro h
    unfold u8
    omega

/-- Witness of C12 on `oneReqClnt`: the Rread with tag 1 leaves the error slot of the
Tread empty, an Rerror sets it to the error of the reply, and an Rwalk sets it to
`invalid response`. -/
theorem recv_sets_err_by_kind_witness :
    (matchedRecord (oneReqClnt.recvFrame (.ok { Typ := Rread, Tag := 1, Count := 4 }) 1)).map
        CReq.Err = some none ∧
    (matchedRecord (oneReqClnt.recvFrame
        (.ok { Typ := Rerror, Tag := 1, Error := "permission denied", Errornum := 1 }) 1)).map
        CReq.Err = some (some (.mk "permission denied" 1)) ∧
    (matchedRecord (oneReqClnt.recvFrame (.ok { Typ := Rwalk, Tag := 1 }) 1)).map
        CReq.Err = some (some (.mk "invalid response" EINVAL)) := by
  refine ⟨?_, ?_, ?_⟩
  · obtain ⟨c', hrun, h1, _, _, _⟩ := recv_sets_err_by_kind oneReqClnt
      { Typ := Rread, Tag := 1, Count := 4 } { Typ := Tread, Tag := 1, Fid := 1, Count := 10 }
      1 0 (by decide) rfl rfl (by decide) (by decide)
    rw [hrun]
    simp [matchedRecord, h1 (by decide)]
  · obtain ⟨c', hrun, _, h2, _, _⟩ := recv_sets_err_by_kind oneReqClnt
      { Typ := Rerror, Tag := 1, Error := "permission denied", Errornum := 1 }
      { Typ := Tread, Tag := 1, Fid := 1, Count := 10 }
      1 0 (by decide) rfl rfl (by decide) (by decide)
    rw [hrun]
    simp [matchedRecord, h2 (by decide) (by decide)]
  · obtain ⟨c', hrun, _, _, h3, _⟩ := recv_sets_err_by_kind oneReqClnt
      { Typ := Rwalk, Tag := 1 } { Typ := Tread, Tag := 1, Fid := 1, Count := 10 }
      1 0 (by decide) rfl rfl (by decide) (by decide)
    rw [hrun]
    simp [matchedRecord, h3 (by decide) (by decide)]

/-- The fan-out of the teardown, started at the head of a list segment that ends in
nil, with a step for each request: it stores the error in the error slot of every
request of the segment and changes nothing else. -/
theorem fanout_on_list (err : Option Error) (L : List Ptr) :
    ∀ (fuel : Nat) (c : Clnt) (first prev last : Option Ptr), L.length ≤ fuel →
      dlseg c.mem first prev last none L →
      ∃ c', Clnt.fanout err fuel c first = .ok c' ∧
        c'.err = c.err ∧ c'.reqfirst = c.reqfirst ∧ c'.reqlast = c.reqlast ∧
        ∀ q, c'.mem q = if q ∈ L then { c.mem q with Err := err } else c.mem q := by
  induction L with
  | nil =>
    intro fuel c first prev last _ h
    obtain ⟨h1, _⟩ := h
    subst h1
    refine ⟨c, ?_, rfl, rfl, rfl, fun q => by simp⟩
    cases fuel <;> simp [Clnt.fanout]
  | cons p ps ih =>
    intro fuel c first prev last hlen h
    obtain ⟨h1, _, h3⟩ := h
    subst h1
    cases fuel with
    | zero => simp at hlen
    | succ fuel =>
      have hseg : dlseg (c.put p { c.mem p with Err := err }).mem (c.mem p).next (some p) last
          none ps := by
        refine dlseg_frame c.mem _ ps _ _ _ _ (fun q _ => ?_) h3
        rw [put_mem]
        split_ifs with hq
        · subst hq; exact ⟨rfl, rfl⟩
        · exact ⟨rfl, rfl⟩
      obtain ⟨c', hrun, he, hf, hl, hm⟩ :=
        ih fuel (c.put p { c.mem p with Err := err }) (c.mem p).next (some p) last
          (by simpa using hlen) hseg
      refine ⟨c', ?_, he, hf, hl, fun q => ?_⟩
      · simp only [Clnt.fanout]
        exact hrun
      · rw [hm q, put_mem]
        by_cases hqp : q = p
        · subst hqp
          by_cases hqs : q ∈ ps <;> simp [hqs]
        · by_cases hqs : q ∈ ps <;> simp [hqs, hqp]

/-- The teardown on a well-formed outstanding list, with a step for each request:
the list is emptied and every request that was in it gets the error of the teardown,
the local error if there is one and else the engine error; nothing else changes. -/
theorem closed_on_list (c : Clnt) (L : List Ptr) (err : Option Error) (fuel : Nat)
    (hL : c.holds L) (hfuel : L.length ≤ fuel) :
    ∃ c', c.closed err fuel = .ok c' ∧ c'.reqfirst = none ∧ c'.reqlast = none ∧
      c'.err = c.err ∧
      ∀ q, c'.mem q =
        if q ∈ L then { c.mem q with Err := if err = none then c.err else err } else c.mem q := by
  obtain ⟨c', hrun, he, hf, hl, hm⟩ :=
    fanout_on_list (if err = none then c.err else err) L fuel
      { c with reqfirst := none, reqlast := none } c.reqfirst none c.reqlast hfuel hL.1
  exact ⟨c', by unfold Clnt.closed; exact hrun, hf, hl, he, hm⟩

/-- C13, as stated, fails: on `oneReqClnt` the Rerror with tag 1 is matched to the
Tread, which then has both its reply and its error slot set, and `Rpc` returns
both. -/
theorem matched_rerror_sets_rc_and_err :
    (matchedRecord (oneReqClnt.recvFrame
        (.ok { Typ := Rerror, Tag := 1, Error := "permission denied", Errornum := 1 }) 1)).map
        rpcResult
      = some (some { Typ := Rerror, Tag := 1, Error := "permission denied", Errornum := 1 },
              some (.mk "permission denied" 1)) := by
  decide

/-- C13, amended: every request completed by the client engine has its reply or its
error slot set. A request `r` that the receive loop matches to the reply `fc` has its
reply set to `fc`; with an error slot that was empty and 8-bit kinds, the slot stays
empty exactly when the kind of the reply is the kind of the request plus one, so on
an Rerror or an invalid reply both are set. When the receive loop closes, after a
failed read, a failed decode or a reply with an unknown tag, the teardown stores one
and the same non-nil error in every request of the outstanding list `L` and leaves
their replies as they were. Hence `Rpc` returns a non-nil reply or a non-nil error. -/
theorem completed_has_rc_or_err (c : Clnt) (L : List Ptr) (fuel : Nat)
    (hL : c.holds L) (hfuel : L.length ≤ fuel) :
    (∀ (fc tc : Fcall) (r : Ptr), Clnt.find c.mem fc.Tag fuel c.reqfirst = .ok (some r) →
      (c.mem r).Tc = some tc →
      ∃ c', c.recvFrame (.ok fc) fuel = .ok (.running c' r) ∧
        (c'.mem r).Rc = some fc ∧ (rpcResult (c'.mem r)).1 ≠ none ∧
        ((c.mem r).Err = none → tc.Typ < 256 → fc.Typ < 256 →
          ((c'.mem r).Err = none ↔ fc.Typ = u8 (tc.Typ + 1)))) ∧
    (∀ (unpack : Except Error Fcall) (c1 : Clnt) (e : Option Error),
      c.recvFrame unpack fuel = .ok (.closed c1 e) →
      ∃ c2 E, c1.closed e fuel = .ok c2 ∧ c2.reqfirst = none ∧ c2.reqlast = none ∧
        ∀ r ∈ L, (c2.mem r).Err = some E ∧ (c2.mem r).Rc = (c.mem r).Rc ∧
          (rpcResult (c2.mem r)).2 ≠ none) ∧
    (∀ (pos n : Nat) (oerr : Option String) (c1 : Clnt) (e : Option Error),
      c.recvRead pos n oerr = .ok (.closed c1 e) →
      ∃ c2 E, c1.closed e fuel = .ok c2 ∧ c2.reqfirst = none ∧ c2.reqlast = none ∧
        ∀ r ∈ L, (c2.mem r).Err = some E ∧ (c2.mem r).Rc = (c.mem r).Rc ∧
          (rpcResult (c2.mem r)).2 ≠ none) := by
  have hclose : ∀ (E : Error) (e : Option Error),
      (e = none ∨ e = some E) →
      ∃ c2 E', ({ c with err := some E } : Clnt).closed e fuel = .ok c2 ∧
        c2.reqfirst = none ∧ c2.reqlast = none ∧
        ∀ r ∈ L, (c2.mem r).Err = some E' ∧ (c2.mem r).Rc = (c.mem r).Rc ∧
          (rpcResult (c2.mem r)).2 ≠ none := by
    intro E e he
    have hL' : ({ c with err := some E } : Clnt).holds L := hL
    obtain ⟨c2, hrun, hf, hl, _, hm⟩ := closed_on_list _ L e fuel hL' hfuel
    refine ⟨c2, E, hrun, hf, hl, fun r hr => ?_⟩
    rw [hm r, if_pos hr]
    rcases he with he | he <;> subst he <;> simp [rpcResult]
  refine ⟨?_, ?_, ?_⟩
  · intro fc tc r hfind htc
    obtain ⟨c', hrun, _, hRc, hE⟩ := recvFrame_reply c fc tc fuel r hfind htc
    refine ⟨c', hrun, hRc, by simp [rpcResult, hRc], fun herr htk hfk => ?_⟩
    rw [hE, herr]
    have hk := kind_matches_iff tc.Typ fc.Typ htk hfk
    constructor
    · intro h
      by_contra hne
      have hne' : tc.Typ ≠ u8 (fc.Typ + 255) := fun h' => hne (hk.mp h')
      unfold replyErr at h
      rw [if_pos hne'] at h
      split_ifs at h
      exact absurd rfl ‹¬ (none : Option Error) = none›
    · intro h
      simp [replyErr, hk.mpr h]
  · intro unpack c1 e hrun
    unfold Clnt.recvFrame at hrun
    cases unpack with
    | error err =>
      simp only [Run.ok.injEq, RecvOut.closed.injEq] at hrun
      obtain ⟨h1, h2⟩ := hrun
      subst h1; subst h2
      exact hclose err none (Or.inl rfl)
    | ok fc =>
      simp only at hrun
      cases hfind : Clnt.find c.mem fc.Tag fuel c.reqfirst with
      | panic => rw [hfind] at hrun; simp at hrun
      | outOfFuel => rw [hfind] at hrun; simp at hrun
      | ok o =>
        rw [hfind] at hrun
        cases o with
        | none =>
          simp only [Run.ok.injEq, RecvOut.closed.injEq] at hrun
          obtain ⟨h1, h2⟩ := hrun
          subst h1; subst h2
          exact hclose _ none (Or.inl rfl)
        | some r =>
          simp only at hrun
          split at hrun <;> simp at hrun
  · intro pos n oerr c1 e hrun
    unfold Clnt.recvRead at hrun
    split_ifs at hrun
    · cases oerr with
      | none => simp at hrun
      | some msg =>
        simp only [Run.ok.injEq, ReadOut.closed.injEq] at hrun
        obtain ⟨h1, h2⟩ := hrun
        subst h1; subst h2
        exact hclose _ _ (Or.inr rfl)
    · simp at hrun

/-- Witness of the amended C13 on `oneReqClnt`: the Rerror with tag 1 is matched and
set as reply of the Tread; after a failed read the teardown stores an error in the
Tread, whose reply stays nil. -/
theorem completed_has_rc_or_err_witness :
    oneReqClnt.holds [0] ∧
    (∃ c', oneReqClnt.recvFrame
        (.ok { Typ := Rerror, Tag := 1, Error := "permission denied", Errornum := 1 }) 1
          = .ok (.running c' 0) ∧
      (c'.mem 0).Rc
        = some { Typ := Rerror, Tag := 1, Error := "permission denied", Errornum := 1 }) ∧
    (∃ c2 E, ({ oneReqClnt with err := some (.mk "EOF" EIO) } : Clnt).closed
        (some (.mk "EOF" EIO)) 1 = .ok c2 ∧
      (c2.mem 0).Err = some E ∧ (c2.mem 0).Rc = none) := by
  have hL : oneReqClnt.holds [0] := ⟨⟨rfl, rfl, rfl, rfl⟩, by decide⟩
  have h := completed_has_rc_or_err oneReqClnt [0] 1 hL (by decide)
  refine ⟨hL, ?_, ?_⟩
  · obtain ⟨c', hrun, hRc, _, _⟩ := h.1
      { Typ := Rerror, Tag := 1, Error := "permission denied", Errornum := 1 }
      { Typ := Tread, Tag := 1, Fid := 1, Count := 10 } 0 (by decide) rfl
    exact ⟨c', hrun, hRc⟩
  · obtain ⟨c2, E, hrun, _, _, hm⟩ := h.2.2 0 0 (some "EOF")
      { oneReqClnt with err := some (.mk "EOF" EIO) } (some (.mk "EOF" EIO)) rfl
    exact ⟨c2, E, hrun, (hm 0 (by decide)).1, (hm 0 (by decide)).2.1⟩

/-- C15: the outstanding list of the client, for a well-formed list holding the
requests `L` in order. Submitting with `Rpcnb` a request that is not in `L` and whose
`next` is nil, on a client that is not errored, returns no error and leaves a
well-formed list holding `L ++ [r]`. When the receive loop handles a reply (the
requests of `L` all having a T-message, and the search having a step for each): if
some request of `L` has the tag of the reply, the first such request is matched and
the list is then well formed and holds the other requests of `L` in the same order;
if none has, the two ends of the list and every record are left as they were. -/
theorem outstanding_list_well_formed (c : Clnt) (L : List Ptr) (hL : c.holds L) :
    (∀ r tc, c.err = none → r ∉ L → (c.mem r).next = none → (c.mem r).Tc = some tc →
      ∃ c', c.Rpcnb r = .ok (c', none) ∧ c'.holds (L ++ [r])) ∧
    (∀ (fc : Fcall) (fuel : Nat), (∀ p ∈ L, ∃ tc, (c.mem p).Tc = some tc) → L.length ≤ fuel →
      (∀ r, L.find? (fun p => decide (∃ tc, (c.mem p).Tc = some tc ∧ tc.Tag = fc.Tag)) = some r →
        ∃ c', c.recvFrame (.ok fc) fuel = .ok (.running c' r) ∧
          c'.holds (L.erase r) ∧ L.erase r = L.filter (fun p => p != r)) ∧
      (L.find? (fun p => decide (∃ tc, (c.mem p).Tc = some tc ∧ tc.Tag = fc.Tag)) = none →
        ∃ c', c.recvFrame (.ok fc) fuel = .ok (.closed c' none) ∧
          c'.reqfirst = c.reqfirst ∧ c'.reqlast = c.reqlast ∧ c'.mem = c.mem ∧ c'.holds L)) := by
  constructor
  · intro r tc herr hr hnext htc
    exact rpcnb_holds c L r tc hL herr hr hnext htc
  · intro fc fuel htcs hfuel
    have h := recvFrame_on_list c L fc fuel hL htcs hfuel
    constructor
    · intro r hr
      obtain ⟨c', _, _, _, hrun, hh, _⟩ := h.1 r hr
      exact ⟨c', hrun, hh, List.Nodup.erase_eq_filter hL.2 r⟩
    · intro hnone
      exact ⟨_, h.2 hnone, rfl, rfl, rfl, hL⟩

/-- Witness of C15: on `idleClnt`, whose list is empty, submitting the request at
address 0 gives the list `[0]`; on `oneReqClnt`, whose list is `[0]`, the reply with
tag 1 is matched to the request at address 0 and the list is empty afterwards. -/
theorem outstanding_list_well_formed_witness :
    idleClnt.holds [] ∧
    (∃ c', idleClnt.Rpcnb 0 = .ok (c', none) ∧ c'.holds ([] ++ [0])) ∧
    oneReqClnt.holds [0] ∧
    (∃ c', oneReqClnt.recvFrame (.ok { Typ := Rread, Tag := 1, Count := 4 }) 1
        = .ok (.running c' 0) ∧ c'.holds ([0].erase 0)) := by
  have h0 : idleClnt.holds [] := ⟨⟨rfl, rfl⟩, List.nodup_nil⟩
  have h1 : oneReqClnt.holds [0] := ⟨⟨rfl, rfl, rfl, rfl⟩, by decide⟩
  refine ⟨h0, ?_, h1, ?_⟩
  · exact (outstanding_list_well_formed idleClnt [] h0).1 0
      { Typ := Tread, Fid := 1, Count := 10 } rfl (by simp) rfl rfl
  · obtain ⟨c', hrun, hh, _⟩ := ((outstanding_list_well_formed oneReqClnt [0] h1).2
      { Typ := Rread, Tag := 1, Count := 4 } 1
      (fun p _ => ⟨_, rfl⟩) (by decide)).1 0 (by decide)
    exact ⟨c', hrun, hh⟩

/-- C18: when the transport read returns zero bytes and a nil error, the receive loop
evaluates `oerr.Error()` on the nil error to build the engine error: it panics
instead of recording an error and going to the teardown. A read that returns an
error is recorded and leads to the teardown. -/
theorem recv_panics_on_empty_read (c : Clnt) (pos : Nat) :
    c.recvRead pos 0 none = .panic ∧
    c.recvRead pos 0 (some "EOF")
      = .ok (.closed { c with err := some (.mk "EOF" EIO) } (some (.mk "EOF" EIO))) := by
  constructor <;> simp [Clnt.recvRead]

/-! ## Client: tags of allocated requests -/

/-- What `Rpcnb` writes: the tag of the T-message of the request submitted, and links
of the list; the recycle channel, the tag pool, the tags of the requests and the
T-messages of the other requests are as before. -/
theorem rpcnb_data (c c' : Clnt) (r : Ptr) (tc : Fcall) (e : Option Error)
    (htc : (c.mem r).Tc = some tc) (hrun : c.Rpcnb r = .ok (c', e)) :
    c'.reqchan = c.reqchan ∧ c'.issued = c.issued ∧ c'.brk = c.brk ∧
    (c'.mem r).Tc
      = some { tc with Tag := if tc.Typ = Tversion then NOTAG else (c.mem r).tag } ∧
    (∀ p, (c'.mem p).tag = (c.mem p).tag) ∧
    (∀ p, p ≠ r → (c'.mem p).Tc = (c.mem p).Tc) := by
  unfold Clnt.Rpcnb at hrun
  simp only [htc] at hrun
  generalize (if tc.Typ = Tversion then NOTAG else (c.mem r).tag) = T at hrun ⊢
  have hce : ∀ rec, (c.put r rec).err = c.err := fun _ => rfl
  have hrl : ∀ rec, (c.put r rec).reqlast = c.reqlast := fun _ => rfl
  simp only [hce, hrl] at hrun
  by_cases herr : c.err = none
  · simp only [herr, ne_eq, not_true_eq_false, if_false] at hrun
    cases hl : c.reqlast with
    | none =>
      simp only [hl, Run.ok.injEq, Prod.mk.injEq] at hrun
      obtain ⟨h1, _⟩ := hrun
      subst h1
      refine ⟨rfl, rfl, rfl, ?_, fun p => ?_, fun p hp => ?_⟩
      · simp [put_mem]
      · simp only [put_mem]
        split_ifs <;> (try subst_vars) <;> rfl
      · simp only [put_mem]
        split_ifs <;> (try subst_vars) <;> first | rfl | contradiction
    | some l =>
      simp only [hl, Run.ok.injEq, Prod.mk.injEq] at hrun
      obtain ⟨h1, _⟩ := hrun
      subst h1
      refine ⟨rfl, rfl, rfl, ?_, fun p => ?_, fun p hp => ?_⟩
      · simp only [put_mem]
        split_ifs <;> (try subst_vars) <;> first | rfl | contradiction
      · simp only [put_mem]
        split_ifs <;> (try subst_vars) <;> rfl
      · simp only [put_mem]
        split_ifs <;> (try subst_vars) <;> first | rfl | contradiction
  · simp only [ne_eq, herr, not_false_eq_true, if_true, Run.ok.injEq, Prod.mk.injEq] at hrun
    obtain ⟨h1, _⟩ := hrun
    subst h1
    refine ⟨rfl, rfl, rfl, by simp [put_mem], fun p => ?_, fun p hp => ?_⟩
    · rw [put_mem]; split_ifs with h
      · subst h; rfl
      · rfl
    · rw [put_mem, if_neg hp]

/-- The invariant of the allocated and parked requests is kept by every operation that
meets the assumptions. -/
theorem tagInv_step (c : Clnt) (live : List Ptr) (op : ClntOp) (hinv : TagInv c live)
    (hop : tagOpValid (c, live) op) :
    TagInv (tagStep (c, live) op).1 (tagStep (c, live) op).2 := by
  cases op with
  | ReqAlloc getId =>
    cases hch : c.reqchan with
    | nil =>
      have hv := hop hch
      have hu : u16 getId = getId := by
        unfold u16
        exact Nat.mod_eq_of_lt (by have := hv.2; unfold NOTAG at this; omega)
      have hall : ∀ r, (r ∈ live ∨ r ∈ c.reqchan) → r ≠ c.brk := fun r hr h =>
        absurd (h ▸ hinv.below r hr) (Nat.lt_irrefl _)
      have hmem : ∀ r, (r ∈ live ∨ r ∈ c.reqchan) → ∀ rec : CReq,
          Function.update c.mem c.brk rec r = c.mem r := fun r hr rec => by
        simp [Function.update, hall r hr]
      have hin : ∀ r, (r ∈ c.brk :: live ∨ r ∈ ([] : List Ptr)) →
          r = c.brk ∨ (r ∈ live ∨ r ∈ c.reqchan) := by
        intro r hr
        rcases hr with hr | hr
        · rcases List.mem_cons.mp hr with h | h
          · exact Or.inl h
          · exact Or.inr (Or.inl h)
        · simp at hr
      simp only [tagStep, Clnt.ReqAlloc, hch]
      refine ⟨?_, List.nodup_nil, by simp, ?_, ?_, ?_, ?_⟩
      · exact List.nodup_cons.mpr ⟨fun h => hall _ (Or.inl h) rfl, hinv.liveNodup⟩
      · intro r1 r2 h1 h2 ht
        rcases hin r1 h1 with e1 | e1 <;> rcases hin r2 h2 with e2 | e2
        · rw [e1, e2]
        · subst e1
          simp only [hmem r2 e2, Function.update_same, hu] at ht
          exact absurd (ht ▸ (hinv.reserved r2 e2).1) hv.1
        · subst e2
          simp only [hmem r1 e1, Function.update_same, hu] at ht
          exact absurd (ht.symm ▸ (hinv.reserved r1 e1).1) hv.1
        · simp only [hmem r1 e1, hmem r2 e2] at ht
          exact hinv.inj r1 r2 e1 e2 ht
      · intro r hr
        rcases hin r hr with e | e
        · subst e
          simp only [Function.update_same, hu]
          exact ⟨List.mem_cons_self _ _, hv.2⟩
        · simp only [hmem r e]
          exact ⟨List.mem_cons_of_mem _ (hinv.reserved r e).1, (hinv.reserved r e).2⟩
      · intro r hr
        rcases hin r hr with e | e
        · subst e; exact Nat.lt_succ_self _
        · exact Nat.lt_succ_of_lt (hinv.below r e)
      · intro r hr tc htc
        rcases hin r hr with e | e
        · subst e
          simp at htc
        · simp only [hmem r e] at htc ⊢
          exact hinv.stamped r e tc htc
    | cons x rest =>
      have hx : x ∈ c.reqchan := by rw [hch]; exact List.mem_cons_self _ _
      have hnd : (x :: rest).Nodup := hch ▸ hinv.chanNodup
      have hin : ∀ r, (r ∈ x :: live ∨ r ∈ rest) → (r ∈ live ∨ r ∈ c.reqchan) := by
        intro r hr
        rcases hr with hr | hr
        · rcases List.mem_cons.mp hr with h | h
          · exact Or.inr (h ▸ hx)
          · exact Or.inl h
        · exact Or.inr (by rw [hch]; exact List.mem_cons_of_mem _ hr)
      simp only [tagStep, Clnt.ReqAlloc, hch]
      refine ⟨?_, (List.nodup_cons.mp hnd).2, ?_, ?_, ?_, ?_, ?_⟩
      · exact List.nodup_cons.mpr ⟨fun h => hinv.disjoint x h hx, hinv.liveNodup⟩
      · intro r hr
        rcases List.mem_cons.mp hr with h | h
        · subst h; exact (List.nodup_cons.mp hnd).1
        · intro hrest
          exact hinv.disjoint r h (by rw [hch]; exact List.mem_cons_of_mem _ hrest)
      · intro r1 r2 h1 h2 ht
        exact hinv.inj r1 r2 (hin r1 h1) (hin r2 h2) ht
      · intro r hr
        exact hinv.reserved r (hin r hr)
      · intro r hr
        exact hinv.below r (hin r hr)
      · intro r hr tc htc
        exact hinv.stamped r (hin r hr) tc htc
  | ReqFree r =>
    have hr : r ∈ live := hop
    have hrc : r ∉ c.reqchan := hinv.disjoint r hr
    have htag : ∀ p, ((c.put r (c.mem r).cleared).mem p).tag = (c.mem p).tag := by
      intro p
      rw [put_mem]
      split_ifs with h
      · subst h; rfl
      · rfl
    have hTc : ∀ p tc, ((c.put r (c.mem r).cleared).mem p).Tc = some tc →
        (c.mem p).Tc = some tc := by
      intro p tc
      rw [put_mem]
      split_ifs with h
      · intro h'; simp [CReq.cleared] at h'
      · exact id
    have herase : ∀ p, p ∈ live.erase r → p ∈ live ∧ p ≠ r := fun p hp =>
      ⟨List.mem_of_mem_erase hp, fun h => by
        subst h
        exact absurd hp (List.Nodup.not_mem_erase hinv.liveNodup)⟩
    by_cases hroom : c.reqchan.length < 16
    · have hin : ∀ p, (p ∈ live.erase r ∨ p ∈ c.reqchan ++ [r]) → (p ∈ live ∨ p ∈ c.reqchan) := by
        intro p hp
        rcases hp with hp | hp
        · exact Or.inl (herase p hp).1
        · rcases List.mem_append.mp hp with h | h
          · exact Or.inr h
          · exact Or.inl (by simp at h; exact h ▸ hr)
      have hstep : tagStep (c, live) (.ReqFree r) =
          ({ (c.put r (c.mem r).cleared) with reqchan := c.reqchan ++ [r] }, live.erase r) := by
        simp only [tagStep, Clnt.ReqFree]
        rw [if_pos (by simpa [Clnt.put] using hroom)]
        rfl
      rw [hstep]
      refine ⟨hinv.liveNodup.erase r, ?_, ?_, ?_, ?_, ?_, ?_⟩
      · show (c.reqchan ++ [r]).Nodup
        rw [List.nodup_append]
        refine ⟨hinv.chanNodup, List.nodup_singleton r, ?_⟩
        intro a ha hb
        have : a = r := by simpa using hb
        exact hrc (this ▸ ha)
      · intro p hp hq
        have hq' : p ∈ c.reqchan ++ [r] := hq
        rcases List.mem_append.mp hq' with h | h
        · exact hinv.disjoint p (herase p hp).1 h
        · exact (herase p hp).2 (by simpa using h)
      · intro r1 r2 h1 h2 ht
        rw [htag r1, htag r2] at ht
        exact hinv.inj r1 r2 (hin r1 h1) (hin r2 h2) ht
      · intro p hp
        rw [htag p]
        exact hinv.reserved p (hin p hp)
      · intro p hp
        exact hinv.below p (hin p hp)
      · intro p hp tc htc
        rw [htag p]
        exact hinv.stamped p (hin p hp) tc (hTc p tc htc)
    · have hin : ∀ p, (p ∈ live.erase r ∨ p ∈ c.reqchan) →
          (p ∈ live ∨ p ∈ c.reqchan) ∧ p ≠ r := by
        intro p hp
        rcases hp with hp | hp
        · exact ⟨Or.inl (herase p hp).1, (herase p hp).2⟩
        · exact ⟨Or.inr hp, fun h => hrc (h ▸ hp)⟩
      have hstep : tagStep (c, live) (.ReqFree r) =
          ({ (c.put r (c.mem r).cleared) with
              issued := c.issued.erase (c.mem r).tag }, live.erase r) := by
        simp only [tagStep, Clnt.ReqFree]
        rw [if_neg (by simpa [Clnt.put] using hroom)]
        simp [put_mem, Clnt.put, CReq.cleared]
      rw [hstep]
      refine ⟨hinv.liveNodup.erase r, hinv.chanNodup, ?_, ?_, ?_, ?_, ?_⟩
      · intro p hp
        exact hinv.disjoint p (herase p hp).1
      · intro r1 r2 h1 h2 ht
        rw [htag r1, htag r2] at ht
        exact hinv.inj r1 r2 (hin r1 h1).1 (hin r2 h2).1 ht
      · intro p hp
        rw [htag p]
        have hne : (c.mem p).tag ≠ (c.mem r).tag := fun h =>
          (hin p hp).2 (hinv.inj p r (hin p hp).1 (Or.inl hr) h)
        exact ⟨(List.mem_erase_of_ne hne).mpr (hinv.reserved p (hin p hp).1).1,
          (hinv.reserved p (hin p hp).1).2⟩
      · intro p hp
        exact hinv.below p (hin p hp).1
      · intro p hp tc htc
        rw [htag p]
        exact hinv.stamped p (hin p hp).1 tc (hTc p tc htc)
  | Rpcnb r tc =>
    have hr : r ∈ live := hop
    have htc0 : ((c.put r { c.mem r with Tc := some tc }).mem r).Tc = some tc := by
      rw [put_mem, if_pos rfl]
    have htag0 : ∀ p, ((c.put r { c.mem r with Tc := some tc }).mem p).tag = (c.mem p).tag := by
      intro p
      rw [put_mem]
      split_ifs with h
      · subst h; rfl
      · rfl
    cases hrun : (c.put r { c.mem r with Tc := some tc }).Rpcnb r with
    | panic => simp only [tagStep, hrun]; exact hinv
    | outOfFuel => simp only [tagStep, hrun]; exact hinv
    | ok res =>
      obtain ⟨c', e⟩ := res
      obtain ⟨h1, h2, h3, h4, h5, h6⟩ := rpcnb_data _ c' r tc e htc0 hrun
      simp only [tagStep, hrun]
      have hch : c'.reqchan = c.reqchan := h1
      refine ⟨hinv.liveNodup, hch ▸ hinv.chanNodup, ?_, ?_, ?_, ?_, ?_⟩
      · intro p hp
        rw [hch]; exact hinv.disjoint p hp
      · intro r1 r2 hr1 hr2 ht
        rw [hch] at hr1 hr2
        rw [h5 r1, h5 r2, htag0 r1, htag0 r2] at ht
        exact hinv.inj r1 r2 hr1 hr2 ht
      · intro p hp
        rw [hch] at hp
        rw [h5 p, htag0 p, h2]
        exact hinv.reserved p hp
      · intro p hp
        rw [hch] at hp
        rw [h3]
        exact hinv.below p hp
      · intro p hp tc' htc'
        rw [hch] at hp
        rw [h5 p, htag0 p]
        by_cases hpr : p = r
        · subst hpr
          rw [h4] at htc'
          simp only [Option.some.injEq] at htc'
          subst htc'
          simp [htag0 p]
        · rw [h6 p hpr, put_mem, if_neg hpr] at htc'
          exact hinv.stamped p hp tc' htc'

/-- The invariant holds after every run of operations that meet the assumptions. -/
theorem tagInv_run (ops : List ClntOp) :
    ∀ (c : Clnt) (live : List Ptr), TagInv c live → tagRunValid (c, live) ops →
      TagInv (tagRun (c, live) ops).1 (tagRun (c, live) ops).2 := by
  induction ops with
  | nil => intro c live h _; exact h
  | cons op ops ih =>
    intro c live h hv
    simp only [tagRun]
    exact ih _ _ (tagInv_step c live op h hv.1) hv.2

/-- A client without allocated or parked request satisfies the invariant. -/
theorem tagInv_empty : TagInv ({} : Clnt) [] := by
  refine ⟨List.nodup_nil, List.nodup_nil, ?_, ?_, ?_, ?_, ?_⟩
  · intro r h
    cases h
  · intro r1 r2 h
    rcases h with h | h <;> cases h
  · intro r h
    rcases h with h | h <;> cases h
  · intro r h
    rcases h with h | h <;> cases h
  · intro r h
    rcases h with h | h <;> cases h

/-- A request with a T-message is always accepted by `Rpcnb`: the call returns. -/
theorem rpcnb_ok (c : Clnt) (r : Ptr) (tc : Fcall) (htc : (c.mem r).Tc = some tc) :
    ∃ c' e, c.Rpcnb r = .ok (c', e) := by
  unfold Clnt.Rpcnb
  simp only [htc]
  split_ifs <;> exact ⟨_, _, rfl⟩

/-- The `Rpcnb` step of a run is a submission that returned: the step is the client
that `Rpcnb` returned, and the T-message of the request is stamped. -/
theorem tagStep_rpcnb (s : Clnt × List Ptr) (r : Ptr) (tc : Fcall) :
    ∃ c' e, (s.1.put r { s.1.mem r with Tc := some tc }).Rpcnb r = .ok (c', e) ∧
      tagStep s (.Rpcnb r tc) = (c', s.2) ∧
      (c'.mem r).Tc
        = some { tc with Tag := if tc.Typ = Tversion then NOTAG else (s.1.mem r).tag } := by
  have htc : ((s.1.put r { s.1.mem r with Tc := some tc }).mem r).Tc = some tc := by
    rw [put_mem, if_pos rfl]
  obtain ⟨c', e, hok⟩ := rpcnb_ok _ r tc htc
  refine ⟨c', e, hok, ?_, ?_⟩
  · simp only [tagStep, hok]
  · have h := (rpcnb_data _ c' r tc e htc hok).2.2.2.1
    rw [h, put_mem, if_pos rfl]

/-- C14: tag uniqueness on the client, assuming that the tag pool, over `[0, NOTAG)`,
never issues an id that it has issued and that was not returned, and that callers
free and submit allocated requests only. After every run of `ReqAlloc`, `Rpcnb` and
`ReqFree` calls from a state that satisfies the invariant: two distinct allocated
requests have distinct tags, below `NOTAG`; a request parked in the recycle channel
keeps its tag issued, and no allocated request has that tag; and the T-messages of
two distinct allocated requests, when neither is a Tversion, carry distinct tags,
none `NOTAG`. `ReqFree` either parks the request and leaves the tag pool alone, or
returns the tag to the pool and leaves the channel alone. `Rpcnb` on a request with a
T-message returns, leaves the tag of every request alone and stamps the T-message
with `NOTAG` when it is a Tversion and with the tag of the request otherwise; and
every `Rpcnb` step of a run is such a submission that returned, with the T-message
stamped. -/
theorem allocated_tags_distinct (c : Clnt) (live : List Ptr) (ops : List ClntOp)
    (hinv : TagInv c live) (hvalid : tagRunValid (c, live) ops) :
    (∀ c' live', tagRun (c, live) ops = (c', live') →
      (∀ r1 ∈ live', ∀ r2 ∈ live', r1 ≠ r2 → (c'.mem r1).tag ≠ (c'.mem r2).tag) ∧
      (∀ r ∈ live', (c'.mem r).tag < NOTAG) ∧
      (∀ r ∈ c'.reqchan, (c'.mem r).tag ∈ c'.issued ∧
        ∀ l ∈ live', (c'.mem l).tag ≠ (c'.mem r).tag) ∧
      (∀ r1 ∈ live', ∀ r2 ∈ live', ∀ t1 t2, r1 ≠ r2 →
        (c'.mem r1).Tc = some t1 → (c'.mem r2).Tc = some t2 →
        t1.Typ ≠ Tversion → t2.Typ ≠ Tversion → t1.Tag ≠ t2.Tag ∧ t1.Tag ≠ NOTAG)) ∧
    (∀ (d : Clnt) (r : Ptr),
      ((d.ReqFree r).reqchan = d.reqchan ++ [r] ∧ (d.ReqFree r).issued = d.issued) ∨
      ((d.ReqFree r).reqchan = d.reqchan ∧
        (d.ReqFree r).issued = d.issued.erase (d.mem r).tag)) ∧
    (∀ (d : Clnt) (r : Ptr) (tc : Fcall), (d.mem r).Tc = some tc →
      ∃ d' e, d.Rpcnb r = .ok (d', e) ∧
        (d'.mem r).Tc
          = some { tc with Tag := if tc.Typ = Tversion then NOTAG else (d.mem r).tag } ∧
        ∀ p, (d'.mem p).tag = (d.mem p).tag) ∧
    (∀ (s : Clnt × List Ptr) (r : Ptr) (tc : Fcall), ∃ c' e,
      (s.1.put r { s.1.mem r with Tc := some tc }).Rpcnb r = .ok (c', e) ∧
      tagStep s (.Rpcnb r tc) = (c', s.2) ∧
      (c'.mem r).Tc
        = some { tc with Tag := if tc.Typ = Tversion then NOTAG else (s.1.mem r).tag }) := by
  refine ⟨?_, ?_, ?_, ?_⟩
  · intro c' live' hrun
    have h := tagInv_run ops c live hinv hvalid
    rw [hrun] at h
    refine ⟨?_, ?_, ?_, ?_⟩
    · intro r1 h1 r2 h2 hne ht
      exact hne (h.inj r1 r2 (Or.inl h1) (Or.inl h2) ht)
    · intro r hr
      exact (h.reserved r (Or.inl hr)).2
    · intro r hr
      refine ⟨(h.reserved r (Or.inr hr)).1, fun l hl ht => ?_⟩
      have := h.inj l r (Or.inl hl) (Or.inr hr) ht
      exact h.disjoint l hl (this ▸ hr)
    · intro r1 h1 r2 h2 t1 t2 hne ht1 ht2 hv1 hv2
      have e1 := h.stamped r1 (Or.inl h1) t1 ht1
      have e2 := h.stamped r2 (Or.inl h2) t2 ht2
      rw [if_neg hv1] at e1
      rw [if_neg hv2] at e2
      refine ⟨fun ht => ?_, ?_⟩
      · exact hne (h.inj r1 r2 (Or.inl h1) (Or.inl h2) (by rw [← e1, ← e2, ht]))
      · rw [e1]
        exact Nat.ne_of_lt (h.reserved r1 (Or.inl h1)).2
  · intro d r
    unfold Clnt.ReqFree
    by_cases hroom : d.reqchan.length < 16
    · left
      simp only
      rw [if_pos (by simpa [Clnt.put] using hroom)]
      exact ⟨rfl, rfl⟩
    · right
      simp only
      rw [if_neg (by simpa [Clnt.put] using hroom)]
      exact ⟨rfl, by simp [put_mem, Clnt.put, CReq.cleared]⟩
  · intro d r tc htc
    obtain ⟨d', e, hok⟩ := rpcnb_ok d r tc htc
    have hd := rpcnb_data d d' r tc e htc hok
    exact ⟨d', e, hok, hd.2.2.2.1, hd.2.2.2.2.1⟩
  · intro s r tc
    exact tagStep_rpcnb s r tc

/-- Witness of C14: on a fresh client the run `sampleTagOps` meets the assumptions and
leaves the requests at the addresses 0 and 1 allocated; their tags differ, and the
Treads submitted on them carry the distinct tags 3 and 4, neither `NOTAG`. -/
theorem allocated_tags_distinct_witness :
    TagInv ({} : Clnt) [] ∧
    tagRunValid (({} : Clnt), []) sampleTagOps ∧
    (tagRun (({} : Clnt), []) sampleTagOps).2 = [0, 1] ∧
    ((tagRun (({} : Clnt), []) sampleTagOps).1.mem 0).Tc
      = some { Typ := Tread, Tag := 3, Fid := 1, Count := 10 } ∧
    ((tagRun (({} : Clnt), []) sampleTagOps).1.mem 1).Tc
      = some { Typ := Tread, Tag := 4, Fid := 2, Count := 10 } ∧
    ((tagRun (({} : Clnt), []) sampleTagOps).1.mem 0).tag ≠
      ((tagRun (({} : Clnt), []) sampleTagOps).1.mem 1).tag ∧
    ((3 : Nat) ≠ 4 ∧ (3 : Nat) ≠ NOTAG) := by
  have hv : tagRunValid (({} : Clnt), []) sampleTagOps := by
    refine ⟨?_, ?_, ?_, ?_, ?_, ?_, trivial⟩
    · intro _; exact ⟨by decide, by decide⟩
    · intro _; exact ⟨by decide, by decide⟩
    · show (0 : Ptr) ∈ [1, 0]; decide
    · intro h; exact absurd h (by decide)
    · show (0 : Ptr) ∈ [0, 1]; decide
    · show (1 : Ptr) ∈ [0, 1]; decide
  have h := (allocated_tags_distinct {} [] sampleTagOps tagInv_empty hv).1
    (tagRun (({} : Clnt), []) sampleTagOps).1 (tagRun (({} : Clnt), []) sampleTagOps).2 rfl
  have h0 : (0 : Ptr) ∈ (tagRun (({} : Clnt), []) sampleTagOps).2 := by
    show (0 : Ptr) ∈ [0, 1]; decide
  have h1 : (1 : Ptr) ∈ (tagRun (({} : Clnt), []) sampleTagOps).2 := by
    show (1 : Ptr) ∈ [0, 1]; decide
  refine ⟨tagInv_empty, hv, rfl, rfl, rfl, h.1 0 h0 1 h1 (by decide), ?_⟩
  exact h.2.2.2 0 h0 1 h1 { Typ := Tread, Tag := 3, Fid := 1, Count := 10 }
    { Typ := Tread, Tag := 4, Fid := 2, Count := 10 } (by decide) rfl rfl
    (by decide) (by decide)

/-! ## Sequences of Tversion messages -/

/-- One Tversion keeps `conn.Msize` at or above `IOHDRSZ` and does not raise it. -/
theorem version_msize_step (srv : Srv) (conn : Conn) (tc : Fcall)
    (h0 : IOHDRSZ ≤ conn.Msize) :
    IOHDRSZ ≤ (srv.version conn tc).1.Msize ∧ (srv.version conn tc).1.Msize ≤ conn.Msize := by
  unfold Srv.version
  by_cases h : tc.Msize < IOHDRSZ
  · simp only [h, if_true]
    exact ⟨h0, Nat.le_refl _⟩
  · simp only [h, if_false]
    by_cases h1 : tc.Msize < conn.Msize
    · simp only [h1, if_true]
      exact ⟨Nat.not_lt.mp h, Nat.le_of_lt h1⟩
    · simp only [h1, if_false]
      exact ⟨h0, Nat.le_refl _⟩

/-- Handling a list of Tversion messages and then one more. -/
theorem versions_append (srv : Srv) (tcs : List Fcall) (conn : Conn) (tc : Fcall) :
    Srv.versions srv conn (tcs ++ [tc]) = (srv.version (Srv.versions srv conn tcs) tc).1 := by
  induction tcs generalizing conn with
  | nil => rfl
  | cons t ts ih => exact ih (srv.version conn t).1

/-- After any list of Tversion messages `conn.Msize` is at least `IOHDRSZ` and at most
its initial value. -/
theorem versions_msize_bounds (srv : Srv) (tcs : List Fcall) (conn : Conn)
    (h0 : IOHDRSZ ≤ conn.Msize) :
    IOHDRSZ ≤ (Srv.versions srv conn tcs).Msize ∧ (Srv.versions srv conn tcs).Msize ≤ conn.Msize := by
  induction tcs generalizing conn with
  | nil => exact ⟨h0, Nat.le_refl _⟩
  | cons t ts ih =>
    have hs := version_msize_step srv conn t h0
    have hr := ih (srv.version conn t).1 hs.1
    exact ⟨hr.1, Nat.le_trans hr.2 hs.2⟩

/-- C24: on a connection whose `Msize` is at least `IOHDRSZ`, for every sequence of
Tversion messages: after each message of the sequence `conn.Msize` is at least
`IOHDRSZ`, at most what it was before that message, and at most its initial value; and
a Tversion with `msize < IOHDRSZ`, on any connection, is answered with the single call
`RespondError("msize too small", EINVAL)` and leaves the connection as it was, so
`Msize`, `Dotu` and the outstanding requests with their status are unchanged. -/
theorem version_msize_invariant (srv : Srv) (conn : Conn) (tcs : List Fcall)
    (h0 : IOHDRSZ ≤ conn.Msize) :
    (∀ pre tc post, tcs = pre ++ tc :: post →
      IOHDRSZ ≤ (Srv.versions srv conn (pre ++ [tc])).Msize ∧
      (Srv.versions srv conn (pre ++ [tc])).Msize ≤ (Srv.versions srv conn pre).Msize ∧
      (Srv.versions srv conn (pre ++ [tc])).Msize ≤ conn.Msize) ∧
    (∀ (conn1 : Conn) (tc : Fcall), tc.Msize < IOHDRSZ →
      srv.version conn1 tc = (conn1, [.RespondError (.mk "msize too small" EINVAL)])) := by
  constructor
  · intro pre tc post _
    have hp := versions_msize_bounds srv pre conn h0
    have ha := versions_msize_bounds srv (pre ++ [tc]) conn h0
    refine ⟨ha.1, ?_, ha.2⟩
    rw [versions_append]
    exact (version_msize_step srv _ tc hp.1).2
  · intro conn1 tc h
    unfold Srv.version
    simp only [h, if_true]

/-- Witness of C24: on `notagConn`, with `Msize` 8216, the messages `Tversion(4096)`,
`Tversion(10)`, `Tversion(8216)` leave `Msize` at 4096, 4096 and 4096, and the
`Tversion(10)` changes nothing. -/
theorem version_msize_invariant_witness :
    IOHDRSZ ≤ notagConn.Msize ∧
    (Srv.versions plainSrv notagConn [{ Typ := Tversion, Tag := NOTAG, Msize := 4096 }]).Msize
      = 4096 ∧
    (IOHDRSZ ≤ (Srv.versions plainSrv notagConn
        ([{ Typ := Tversion, Tag := NOTAG, Msize := 4096 }] ++
          [{ Typ := Tversion, Tag := NOTAG, Msize := 10 }])).Msize ∧
      (Srv.versions plainSrv notagConn
        ([{ Typ := Tversion, Tag := NOTAG, Msize := 4096 }] ++
          [{ Typ := Tversion, Tag := NOTAG, Msize := 10 }])).Msize ≤
        (Srv.versions plainSrv notagConn [{ Typ := Tversion, Tag := NOTAG, Msize := 4096 }]).Msize ∧
      (Srv.versions plainSrv notagConn
        ([{ Typ := Tversion, Tag := NOTAG, Msize := 4096 }] ++
          [{ Typ := Tversion, Tag := NOTAG, Msize := 10 }])).Msize ≤ notagConn.Msize) ∧
    Srv.version plainSrv notagConn { Typ := Tversion, Tag := NOTAG, Msize := 10 }
      = (notagConn, [.RespondError (.mk "msize too small" EINVAL)]) :=
  ⟨by decide, by decide,
    (version_msize_invariant plainSrv notagConn
      [{ Typ := Tversion, Tag := NOTAG, Msize := 4096 },
       { Typ := Tversion, Tag := NOTAG, Msize := 10 },
       { Typ := Tversion, Tag := NOTAG, Msize := 8216 }] (by decide)).1
      [{ Typ := Tversion, Tag := NOTAG, Msize := 4096 }]
      { Typ := Tversion, Tag := NOTAG, Msize := 10 }
      [{ Typ := Tversion, Tag := NOTAG, Msize := 8216 }] rfl,
    (version_msize_invariant plainSrv notagConn [] (by decide)).2 notagConn
      { Typ := Tversion, Tag := NOTAG, Msize := 10 } (by decide)⟩

/-! ## Twalk with `newfid = fid` -/

/-- C23, the code at the failing input: `Twalk(fid=1, newfid=1, wname=[a, b])` on a
directory. The preflight makes the record of fid 1 the newfid of the request and hands
the request to `ReqOps.Walk`; on the reply `Rwalk` with the single qid of the plain
file `a`, a partial walk, `walkPost` overwrites the type of the record of fid 1, which
was `QTDIR`, with the type 0 of that qid. -/
theorem walkPost_short_walk_retypes_source_fid :
    (dirWorld.mem 0).Typ = QTDIR ∧
    (Srv.walk dirWorld sameFidWalk).map (fun out => (out.2.1.Fid, out.2.1.Newfid, out.2.2))
      = some (some 0, some 0, [.reqOps .Walk]) ∧
    ((Srv.walk dirWorld sameFidWalk).bind fun out =>
      (Srv.walkPost out.1
        { out.2.1 with Rc := some { Typ := Rwalk, Wqid := [{ Typ := 0, Path := 7 }] } }).map
        fun w => (w.mem 0).Typ) = some 0 ∧
    QTDIR ≠ 0 := by
  refine ⟨rfl, by decide, by decide, by decide⟩

/-- On a partial walk with `newfid = fid`, `walkPost` changes of the store at most the
type of the source fid: it becomes the type of the last qid of the reply if there is
one, and stays as it was if the reply has no qid. -/
theorem walkPost_short_walk_same_fid (w : World) (req : Req) (fp : Ptr) (rc : Fcall)
    (hfid : req.Fid = some fp) (hnew : req.Newfid = some fp) (hrc : req.Rc = some rc)
    (hT : rc.Typ = Rwalk) (hpart : rc.Wqid.length ≠ req.Tc.Wname.length) :
    Srv.walkPost w req = some (w.put fp { w.mem fp with
      Typ := if rc.Wqid.length > 0 then (rc.Wqid.getD (rc.Wqid.length - 1) default).Typ
             else (w.mem fp).Typ }) := by
  rw [walkPost_rwalk_eq w req fp fp rc hfid hrc hT hnew]
  simp [hpart]
/-! ## Chains of flush requests -/

/-- From one head there is at most one chain. -/
theorem flushChain_unique (rmem : Ptr → Req) (L1 L2 : List Ptr) (head : Option Ptr)
    (h1 : flushChain rmem head L1) (h2 : flushChain rmem head L2) : L1 = L2 := by
  induction L1 generalizing head L2 with
  | nil =>
    cases L2 with
    | nil => rfl
    | cons q qs =>
      simp only [flushChain] at h1 h2
      rw [h1] at h2
      exact absurd h2.1 (by simp)
  | cons p ps ih =>
    cases L2 with
    | nil =>
      simp only [flushChain] at h1 h2
      rw [h2] at h1
      exact absurd h1.1 (by simp)
    | cons q qs =>
      simp only [flushChain] at h1 h2
      have hpq : p = q := Option.some.inj (h1.1.symm.trans h2.1)
      subst hpq
      rw [ih qs _ h1.2 h2.2]

/-- The chain that starts at the `flushreq` of a request of a chain is a strictly
shorter list. -/
theorem flushChain_tail (rmem : Ptr → Req) (L : List Ptr) (head : Option Ptr) (p : Ptr)
    (h : flushChain rmem head L) (hp : p ∈ L) :
    ∃ B, B.length < L.length ∧ flushChain rmem (rmem p).flushreq B := by
  induction L generalizing head with
  | nil => cases hp
  | cons q qs ih =>
    simp only [flushChain] at h
    rcases List.mem_cons.mp hp with hq | hq
    · subst hq
      exact ⟨qs, by simp, h.2⟩
    · obtain ⟨B, hB, hc⟩ := ih _ h.2 hq
      exact ⟨B, by simp only [List.length_cons]; omega, hc⟩

/-- A request is not on the chain that starts at its own `flushreq`. -/
theorem flushChain_not_mem_self (rmem : Ptr → Req) (L : List Ptr) (r : Ptr)
    (h : flushChain rmem (rmem r).flushreq L) : r ∉ L := by
  intro hr
  obtain ⟨B, hB, hc⟩ := flushChain_tail rmem L _ r h hr
  have := flushChain_unique rmem B L _ hc h
  subst this
  exact Nat.lt_irrefl _ hB

/-- No request is twice on a chain. -/
theorem flushChain_nodup (rmem : Ptr → Req) (L : List Ptr) (head : Option Ptr)
    (h : flushChain rmem head L) : L.Nodup := by
  induction L generalizing head with
  | nil => exact List.nodup_nil
  | cons q qs ih =>
    simp only [flushChain] at h
    exact List.nodup_cons.mpr ⟨flushChain_not_mem_self rmem qs q h.2, ih _ h.2⟩

/-- A chain is the same chain in a store whose requests on it have the same
`flushreq`. -/
theorem flushChain_congr (rmem rmem1 : Ptr → Req) (L : List Ptr) (head : Option Ptr)
    (hsame : ∀ p ∈ L, (rmem1 p).flushreq = (rmem p).flushreq)
    (h : flushChain rmem head L) : flushChain rmem1 head L := by
  induction L generalizing head with
  | nil => exact h
  | cons q qs ih =>
    simp only [flushChain] at h ⊢
    refine ⟨h.1, ?_⟩
    rw [hsame q (List.mem_cons_self _ _)]
    exact ih _ (fun p hp => hsame p (List.mem_cons_of_mem _ hp)) h.2

/-- The `flushreq` fields after the flush handler: with a target `r`, the flush request
points to what `r` pointed to when the handler looked (itself excepted, see below),
`r` points to the flush request, and every other request is as before; without a
target nothing changes. -/
theorem flush_flushreq (hasFlushOp : Bool) (s : ReqStore) (req : Ptr) (q : Ptr) :
    ((Srv.flush hasFlushOp s req).1.rmem q).flushreq =
      match s.reqs (s.rmem req).Tc.Oldtag with
      | none => (s.rmem q).flushreq
      | some r =>
        if q = r then some req
        else if q = req then (s.rmem r).flushreq
        else (s.rmem q).flushreq := by
  unfold Srv.flush
  cases hr : s.reqs (s.rmem req).Tc.Oldtag with
  | none =>
    by_cases h : q = req
    · subst h
      simp [ReqStore.put, hr]
    · simp [ReqStore.put, hr, Function.update, h]
  | some r =>
    cases hasFlushOp <;>
      by_cases h0 : (s.rmem r).status &&& (reqWork ||| reqSaved) = 0 <;>
      by_cases h1 : q = r <;> by_cases h2 : q = req <;> by_cases h4 : r = req <;>
      simp_all [ReqStore.put, Function.update]

/-- C22, the code at the failing input: the Tflush at address 2 with tag 6 names its own
tag as `oldtag`, so the handler finds the flush request itself as target. Before, the
chain of the target is empty; after, the `flushreq` of the request at address 2 is the
request itself, not the previous chain head nil: following `flushreq` from the target
never ends, so no list of requests is its chain. -/
theorem flush_own_tag_makes_cycle :
    selfFlushStore.reqs (selfFlushStore.rmem 2).Tc.Oldtag = some 2 ∧
    flushChain selfFlushStore.rmem (selfFlushStore.rmem 2).flushreq [] ∧
    ((Srv.flush true selfFlushStore 2).1.rmem 2).flushreq = some 2 ∧
    (∀ L, ¬ flushChain (Srv.flush true selfFlushStore 2).1.rmem
      ((Srv.flush true selfFlushStore 2).1.rmem 2).flushreq L) ∧
    (Srv.flush true selfFlushStore 2).2 = [.Flush 2] := by
  have h2 : ((Srv.flush true selfFlushStore 2).1.rmem 2).flushreq = some 2 := by decide
  refine ⟨by decide, rfl, h2, fun L hL => ?_, by decide⟩
  have hmem := flushChain_not_mem_self _ L 2 hL
  rw [h2] at hL
  cases L with
  | nil => simp [flushChain] at hL
  | cons p ps =>
    simp only [flushChain, Option.some.injEq] at hL
    exact hmem (hL.1 ▸ List.mem_cons_self _ _)

/-- The chain after the flush handler found a target `r` other than the flush request
itself, when the flush request is not already on the chain of `r`: `r.flushreq` is the
flush request, whose `flushreq` is the previous head of the chain of `r`; the chain of
`r` is the flush request followed by the previous chain, no request is on it twice;
and every request other than `r` and the flush request keeps its `flushreq`. Without a
target every request keeps its `flushreq`. -/
theorem flush_pushes_on_chain (hasFlushOp : Bool) (s : ReqStore) (req : Ptr) :
    (∀ r L, s.reqs (s.rmem req).Tc.Oldtag = some r → r ≠ req →
      flushChain s.rmem (s.rmem r).flushreq L → req ∉ L →
      ((Srv.flush hasFlushOp s req).1.rmem r).flushreq = some req ∧
      ((Srv.flush hasFlushOp s req).1.rmem req).flushreq = (s.rmem r).flushreq ∧
      flushChain (Srv.flush hasFlushOp s req).1.rmem
        ((Srv.flush hasFlushOp s req).1.rmem r).flushreq (req :: L) ∧
      (req :: L).Nodup ∧
      ∀ q, q ≠ r → q ≠ req →
        ((Srv.flush hasFlushOp s req).1.rmem q).flushreq = (s.rmem q).flushreq) ∧
    (s.reqs (s.rmem req).Tc.Oldtag = none →
      ∀ q, ((Srv.flush hasFlushOp s req).1.rmem q).flushreq = (s.rmem q).flushreq) := by
  constructor
  · intro r L hr hne hL hreq
    have hrL : r ∉ L := flushChain_not_mem_self s.rmem L r hL
    have hf := fun q => flush_flushreq hasFlushOp s req q
    simp only [hr] at hf
    have h1 : ((Srv.flush hasFlushOp s req).1.rmem r).flushreq = some req := by
      rw [hf r, if_pos rfl]
    have h2 : ((Srv.flush hasFlushOp s req).1.rmem req).flushreq = (s.rmem r).flushreq := by
      rw [hf req, if_neg (fun h => hne h.symm), if_pos rfl]
    refine ⟨h1, h2, ?_, ?_, ?_⟩
    · rw [h1]
      simp only [flushChain, true_and]
      rw [h2]
      refine flushChain_congr s.rmem _ L _ (fun p hp => ?_) hL
      rw [hf p, if_neg (fun (h : p = r) => hrL (h ▸ hp)),
        if_neg (fun (h : p = req) => hreq (h ▸ hp))]
    · exact List.nodup_cons.mpr ⟨hreq, flushChain_nodup s.rmem L _ hL⟩
    · intro q hq1 hq2
      rw [hf q, if_neg hq1, if_neg hq2]
  · intro hr q
    have hf := flush_flushreq hasFlushOp s req q
    simpa only [hr] using hf

/-- The push on `chainedFlushStore`: the Tflush at address 2 targets the Tread at
address 1, whose chain is the Tflush at address 3; afterwards the chain of the Tread
is the request at address 2 followed by the one at address 3. -/
theorem flush_pushes_on_chain_example :
    flushChain (Srv.flush true chainedFlushStore 2).1.rmem
      ((Srv.flush true chainedFlushStore 2).1.rmem 1).flushreq [2, 3] :=
  ((flush_pushes_on_chain true chainedFlushStore 2).1 1 [3] (by decide) (by decide)
    ⟨rfl, rfl⟩ (by decide)).2.2.1
/-! ## Client: the receive loop over a byte stream -/

/-- The length prefix depends on the first four bytes of the buffer only. -/
theorem Gint32_congr (a b : List Nat) (h : a.take 4 = b.take 4) : Gint32 a = Gint32 b := by
  have key : ∀ (l : List Nat) (i : Nat), i < 4 → l.getD i 0 = (l.take 4).getD i 0 := by
    intro l i hi
    rw [List.getD_eq_getElem?_getD, List.getD_eq_getElem?_getD, List.getElem?_take, if_pos hi]
  unfold Gint32
  rw [key a 0 (by omega), key a 1 (by omega), key a 2 (by omega), key a 3 (by omega),
    key b 0 (by omega), key b 1 (by omega), key b 2 (by omega), key b 3 (by omega), h]

/-- The length prefix of a buffer whose first `pos` bytes are the first bytes of a
stream that starts with the frame `f`. -/
theorem Gint32_buffered (buf f tl t : List Nat) (pos : Nat) (hpos : 4 < pos)
    (hb : pos ≤ buf.length) (hf : 4 < f.length) (h : buf.take pos ++ t = f ++ tl) :
    Gint32 buf = Gint32 f := by
  apply Gint32_congr
  have h1 : (buf.take pos ++ t).take 4 = (f ++ tl).take 4 := by rw [h]
  have hlen : 4 ≤ (buf.take pos).length := by
    rw [List.length_take]
    omega
  rw [List.take_append_of_le_length hlen, List.take_append_of_le_length (by omega),
    List.take_take, Nat.min_eq_left (by omega)] at h1
  exact h1

/-- A frame that is buffered in full is a prefix of the buffer, and what follows it in
the buffer is what follows it in the stream. -/
theorem frame_buffered (buf f tl t : List Nat) (pos : Nat) (hb : pos ≤ buf.length)
    (hf : f.length ≤ pos) (h : buf.take pos ++ t = f ++ tl) :
    buf = f ++ buf.drop f.length ∧
    (buf.drop f.length).take (pos - f.length) ++ t = tl := by
  have h1 : (buf.take pos ++ t).take f.length = (f ++ tl).take f.length := by rw [h]
  have hlen : f.length ≤ (buf.take pos).length := by
    rw [List.length_take]
    omega
  rw [List.take_append_of_le_length hlen, List.take_take, Nat.min_eq_left hf,
    List.take_left] at h1
  have h2 : (buf.take pos ++ t).drop f.length = (f ++ tl).drop f.length := by rw [h]
  rw [List.drop_append_of_le_length hlen, List.drop_left] at h2
  constructor
  · conv_lhs => rw [← List.take_append_drop f.length buf, h1]
  · rw [← h2, List.drop_take]

/-- The new buffer has the length `uint32(Msize*8)` and keeps the buffered bytes. -/
theorem newBuf_spec (Msize : Nat) (buf : List Nat) (pos : Nat) (hb : pos ≤ buf.length)
    (hL : pos ≤ u32 (Msize * 8)) :
    (newBuf Msize buf pos).length = u32 (Msize * 8) ∧
    (newBuf Msize buf pos).take pos = buf.take pos := by
  unfold newBuf
  constructor
  · rw [List.length_take, List.length_append, List.length_replicate]
    omega
  · rw [List.take_take, Nat.min_eq_left hL, List.take_append_of_le_length
      (by rw [List.length_take]; omega), List.take_take, Nat.min_self]

/-- Without wrap-around the new buffer has room for a message of `Msize` bytes. -/
theorem u32_msize_buf (Msize : Nat) (hM : Msize < 2 ^ 29) :
    u32 (Msize * 8) = Msize * 8 := by
  unfold u32
  exact Nat.mod_eq_of_lt (by omega)

/-- Taking a request out of the list leaves `Msize` and `Dotu` alone. -/
theorem unlink_params (c : Clnt) (r : Ptr) :
    (c.unlink r).Msize = c.Msize ∧ (c.unlink r).Dotu = c.Dotu := by
  unfold Clnt.unlink
  cases (c.mem r).prev <;> simp only [] <;> split <;> exact ⟨rfl, rfl⟩

/-- The frame step leaves `Msize` and `Dotu` alone. -/
theorem recvFrame_params (c c1 : Clnt) (res : Except Error Fcall) (sfuel : Nat) (r : Ptr)
    (h : c.recvFrame res sfuel = .ok (.running c1 r)) :
    c1.Msize = c.Msize ∧ c1.Dotu = c.Dotu := by
  unfold Clnt.recvFrame at h
  cases res with
  | error e => simp at h
  | ok fc =>
    simp only at h
    cases hf : Clnt.find c.mem fc.Tag sfuel c.reqfirst with
    | panic => simp [hf] at h
    | outOfFuel => simp [hf] at h
    | ok o =>
      cases o with
      | none => simp [hf] at h
      | some q =>
        simp only [hf] at h
        have hp := unlink_params (c.put q { c.mem q with Rc := some fc }) q
        split at h
        · simp only [Run.ok.injEq, RecvOut.running.injEq] at h
          rw [← h.1]
          exact ⟨hp.1, hp.2⟩
        · simp at h

/-- Delivering a non-empty list of replies: the first is matched, then the rest is
delivered. -/
theorem deliver_cons (sfuel : Nat) (c cF : Clnt) (fc : Fcall) (fcs : List Fcall)
    (h : c.deliver sfuel (fc :: fcs) = some cF) :
    ∃ c1 r, c.recvFrame (.ok fc) sfuel = .ok (.running c1 r) ∧
      c1.deliver sfuel fcs = some cF := by
  unfold Clnt.deliver at h
  split at h
  · rename_i c1 r heq
    exact ⟨c1, r, heq, h⟩
  · simp at h

/-- The calls for a list of frames followed by the calls for a second list. -/
theorem framedFrom_append (fs1 fs2 : List (List Nat)) (new1 new2 : List DecodeCall)
    (off : Nat) (h1 : framedFrom off fs1 new1)
    (h2 : framedFrom (off + fs1.flatten.length) fs2 new2) :
    framedFrom off (fs1 ++ fs2) (new1 ++ new2) := by
  induction fs1 generalizing off new1 with
  | nil =>
    cases new1 with
    | nil => simpa using h2
    | cons _ _ => simp [framedFrom] at h1
  | cons f fs ih =>
    cases new1 with
    | nil => simp [framedFrom] at h1
    | cons call calls =>
      simp only [framedFrom] at h1
      simp only [List.cons_append, framedFrom]
      refine ⟨h1.1, h1.2.1, h1.2.2.1, ih calls _ h1.2.2.2 ?_⟩
      simpa [Nat.add_assoc] using h2

/-- The inner loop on a buffer that holds the first `pos` bytes of what is left of a
stream of frames: it decodes, in order, the frames that are buffered in full, each on
a buffer that starts with it, consumes them, and leaves the loop with the bytes of the
first incomplete frame buffered. -/
theorem recvFrames_spec (Unpack : List Nat → Bool → Except Error Fcall × Nat) (sfuel : Nat)
    (cF : Clnt) (M : Nat) (d : Bool) (hM : M < 2 ^ 29) (tl : List Nat) :
    ∀ (ifuel : Nat) (s : RecvState) (fs : List (List Nat)) (fcs : List Fcall) (off : Nat),
      s.pos < ifuel → s.c.Msize = M → s.c.Dotu = d → s.pos ≤ s.buf.length →
      s.buf.take s.pos ++ tl = fs.flatten →
      (∀ f ∈ fs, 4 < f.length ∧ f.length ≤ M ∧ Gint32 f = f.length) →
      List.Forall₂ (fun f fc => ∀ t, Unpack (f ++ t) d = (Except.ok fc, f.length)) fs fcs →
      s.c.deliver sfuel fcs = some cF → s.arrived = off + s.pos →
      ∃ s1 fs1 fs2 fcs2 new,
        Clnt.recvFrames Unpack sfuel ifuel s = .ok s1 ∧ fs = fs1 ++ fs2 ∧
        s1.calls = s.calls ++ new ∧ framedFrom off fs1 new ∧
        s1.c.Msize = M ∧ s1.c.Dotu = d ∧ s1.pos ≤ s1.buf.length ∧
        s1.pos + fs1.flatten.length = s.pos ∧
        s1.buf.take s1.pos ++ tl = fs2.flatten ∧
        (∀ f fs3, fs2 = f :: fs3 → s1.pos < f.length) ∧
        List.Forall₂ (fun f fc => ∀ t, Unpack (f ++ t) d = (Except.ok fc, f.length)) fs2 fcs2 ∧
        s1.c.deliver sfuel fcs2 = some cF ∧ s1.arrived = s.arrived := by
  intro ifuel
  induction ifuel with
  | zero => intro s _ _ _ h; exact absurd h (Nat.not_lt_zero _)
  | succ k ih =>
    intro s fs fcs off hfuel hMs hd hb hbuf hwf hdec hdel harr
    rw [Clnt.recvFrames]
    by_cases hp : s.pos > 4
    · simp only [hp, if_true]
      cases hdec with
      | nil =>
        exfalso
        have h1 := congrArg List.length hbuf
        simp only [List.length_append, List.length_take, List.flatten_nil,
          List.length_nil] at h1
        omega
      | @cons f fc fs1 fcs1 hfc hdec1 =>
        have hwf1 := hwf f (List.mem_cons_self _ _)
        rw [List.flatten_cons] at hbuf
        have hG : Gint32 s.buf = f.length := by
          rw [Gint32_buffered s.buf f fs1.flatten tl s.pos hp hb hwf1.1 hbuf]
          exact hwf1.2.2
        simp only [hG]
        by_cases hlt : s.pos < f.length
        · simp only [hlt, if_true]
          by_cases hg : s.buf.length < f.length
          · simp only [hg, if_true]
            have hn := newBuf_spec s.c.Msize s.buf s.pos hb
              (by rw [hMs, u32_msize_buf M hM]; omega)
            refine ⟨_, [], f :: fs1, fc :: fcs1, [], rfl, rfl, by simp, trivial, hMs, hd,
              ?_, by simp, ?_, ?_, List.Forall₂.cons hfc hdec1, hdel, rfl⟩
            · show s.pos ≤ (newBuf s.c.Msize s.buf s.pos).length
              rw [hn.1, hMs, u32_msize_buf M hM]; omega
            · show (newBuf s.c.Msize s.buf s.pos).take s.pos ++ tl = (f :: fs1).flatten
              rw [hn.2, List.flatten_cons]; exact hbuf
            · intro f2 fs3 h2
              cases h2
              exact hlt
          · simp only [hg, if_false]
            refine ⟨s, [], f :: fs1, fc :: fcs1, [], rfl, rfl, by simp, trivial, hMs, hd,
              hb, by simp, by rw [List.flatten_cons]; exact hbuf, ?_,
              List.Forall₂.cons hfc hdec1, hdel, rfl⟩
            intro f2 fs3 h2
            cases h2
            exact hlt
        · simp only [hlt, if_false]
          have hle : f.length ≤ s.pos := Nat.not_lt.mp hlt
          obtain ⟨hbufeq, hrest⟩ := frame_buffered s.buf f fs1.flatten tl s.pos hb hle hbuf
          have hU : Unpack s.buf s.c.Dotu = (Except.ok fc, f.length) := by
            have := hfc (s.buf.drop f.length)
            rw [← hbufeq] at this
            rw [hd]
            exact this
          obtain ⟨c1, r, hrf, hdel1⟩ := deliver_cons sfuel s.c cF fc fcs1 hdel
          have hpar := recvFrame_params s.c c1 (.ok fc) sfuel r hrf
          simp only [hU, hrf, hlt, if_false]
          obtain ⟨s1, gs1, gs2, fcs2, new, hrun, hsplit, hcalls, hframed, hM1, hd1, hb1,
              hpos1, hbuf1, hinc, hdec2, hdel2, harr1⟩ :=
            ih { s with calls := s.calls ++ [⟨s.buf, s.arrived, f.length⟩], c := c1,
                        pos := s.pos - f.length, buf := s.buf.drop f.length }
              fs1 fcs1 (off + f.length)
              (by show s.pos - f.length < k; omega)
              (by show c1.Msize = M; rw [hpar.1, hMs])
              (by show c1.Dotu = d; rw [hpar.2, hd])
              (by show s.pos - f.length ≤ (s.buf.drop f.length).length
                  rw [List.length_drop]; omega)
              hrest
              (fun g hg => hwf g (List.mem_cons_of_mem _ hg))
              hdec1 hdel1
              (by show s.arrived = off + f.length + (s.pos - f.length); omega)
          refine ⟨s1, f :: gs1, gs2, fcs2, ⟨s.buf, s.arrived, f.length⟩ :: new, hrun, ?_, ?_,
            ?_, hM1, hd1, hb1, ?_, hbuf1, hinc, hdec2, hdel2, harr1⟩
          · rw [hsplit]; rfl
          · rw [hcalls]; simp
          · simp only [framedFrom]
            exact ⟨⟨_, hbufeq.symm⟩, trivial, by omega, hframed⟩
          · rw [List.flatten_cons, List.length_append]
            have : s1.pos + gs1.flatten.length = s.pos - f.length := hpos1
            omega
    · simp only [hp, if_false]
      refine ⟨s, [], fs, fcs, [], rfl, rfl, by simp, ?_, hMs, hd, hb, by simp, hbuf, ?_,
        hdec, hdel, rfl⟩
      · cases fs <;> trivial
      · intro f fs3 h2
        have := (hwf f (by rw [h2]; exact List.mem_cons_self _ _)).1
        omega

/-- The buffer a read is made into holds at least `Msize` bytes and keeps the buffered
bytes. -/
theorem readBuf_spec (M : Nat) (hM : M < 2 ^ 29) (buf : List Nat) (pos : Nat)
    (hb : pos ≤ buf.length) :
    ((if buf.length < M then newBuf M buf pos else buf).take pos = buf.take pos) ∧
    M ≤ (if buf.length < M then newBuf M buf pos else buf).length ∧
    pos ≤ (if buf.length < M then newBuf M buf pos else buf).length := by
  by_cases h : buf.length < M
  · have hn := newBuf_spec M buf pos hb (by rw [u32_msize_buf M hM]; omega)
    simp only [h, if_true]
    rw [hn.1, u32_msize_buf M hM]
    exact ⟨hn.2, by omega, by omega⟩
  · simp only [h, if_false]
    exact ⟨trivial, Nat.not_lt.mp h, hb⟩

/-- The receive loop on what is left of a stream of frames, delivered in non-empty
chunks: it ends waiting for more bytes with an empty buffer, after one decoder call
for each frame, in order. -/
theorem recv_spec (Unpack : List Nat → Bool → Except Error Fcall × Nat) (sfuel ifuel : Nat)
    (cF : Clnt) (M : Nat) (d : Bool) (hM : M < 2 ^ 29) :
    ∀ (fuel : Nat) (reads : List (List Nat)) (s : RecvState) (fs : List (List Nat))
      (fcs : List Fcall) (off : Nat),
      reads.flatten.length < fuel → fs.flatten.length < ifuel →
      (∀ ch ∈ reads, ch ≠ []) →
      s.c.Msize = M → s.c.Dotu = d → s.pos ≤ s.buf.length →
      s.buf.take s.pos ++ reads.flatten = fs.flatten →
      (∀ f fs3, fs = f :: fs3 → s.pos < f.length) →
      (∀ f ∈ fs, 4 < f.length ∧ f.length ≤ M ∧ Gint32 f = f.length) →
      List.Forall₂ (fun f fc => ∀ t, Unpack (f ++ t) d = (Except.ok fc, f.length)) fs fcs →
      s.c.deliver sfuel fcs = some cF → s.arrived = off + s.pos →
      ∃ s1 new, Clnt.recv Unpack sfuel ifuel fuel reads s = .waiting s1 ∧
        s1.calls = s.calls ++ new ∧ framedFrom off fs new ∧ s1.pos = 0 ∧ s1.c = cF ∧
        s1.arrived = off + fs.flatten.length := by
  intro fuel
  induction fuel with
  | zero => intro reads _ _ _ _ h; exact absurd h (Nat.not_lt_zero _)
  | succ k ih =>
    intro reads s fs fcs off hfuel hifuel hne hMs hd hb hbuf hinc hwf hdec hdel harr
    unfold Clnt.recv
    simp only []
    cases reads with
    | nil =>
      simp only [List.flatten_nil, List.append_nil] at hbuf
      have hlen : s.pos = fs.flatten.length := by
        have := congrArg List.length hbuf
        rw [List.length_take] at this
        omega
      cases hdec with
      | nil =>
        simp only [List.flatten_nil, List.length_nil] at hlen
        simp only [Clnt.deliver, Option.some.injEq] at hdel
        exact ⟨_, [], rfl, by simp, trivial, hlen, hdel, by simp [harr, hlen]⟩
      | @cons f fc fs1 fcs1 hfc hdec1 =>
        exfalso
        have := hinc f fs1 rfl
        rw [List.flatten_cons, List.length_append] at hlen
        omega
    | cons ch rest =>
      have hch : ch ≠ [] := hne ch (List.mem_cons_self _ _)
      have hchl : 0 < ch.length := List.length_pos.mpr hch
      cases hdec with
      | nil =>
        exfalso
        have := congrArg List.length hbuf
        simp only [List.flatten_cons, List.length_append, List.flatten_nil,
          List.length_nil] at this
        omega
      | @cons f fc fs1 fcs1 hfc hdec1 =>
        have hwf1 := hwf f (List.mem_cons_self _ _)
        have hpos : s.pos < f.length := hinc f fs1 rfl
        obtain ⟨hb1, hb2, hb3⟩ := readBuf_spec M hM s.buf s.pos hb
        rw [hMs]
        generalize (if s.buf.length < M then newBuf M s.buf s.pos else s.buf) = buf1
          at hb1 hb2 hb3
        simp only [Nat.not_lt.mpr hb3, if_false]
        have hn : 0 < min (buf1.length - s.pos) ch.length := by
          rw [Nat.lt_min]; exact ⟨by omega, hchl⟩
        generalize hnn : min (buf1.length - s.pos) ch.length = n at hn
        have hn1 : n ≤ buf1.length - s.pos := by rw [← hnn]; exact Nat.min_le_left _ _
        have hn2 : n ≤ ch.length := by rw [← hnn]; exact Nat.min_le_right _ _
        have hread : s.c.recvRead s.pos n none = .ok (.advance (s.pos + n)) := by
          unfold Clnt.recvRead
          simp [Nat.pos_iff_ne_zero.mp hn]
        simp only [hread]
        have htl : (if ch.length ≤ n then rest else ch.drop n :: rest).flatten
            = ch.drop n ++ rest.flatten := by
          by_cases h : ch.length ≤ n
          · simp [h, List.drop_of_length_le h]
          · simp [h]
        have hne1 : ∀ c1 ∈ (if ch.length ≤ n then rest else ch.drop n :: rest), c1 ≠ [] := by
          intro c1 hc1
          by_cases h : ch.length ≤ n
          · simp only [h, if_true] at hc1
            exact hne c1 (List.mem_cons_of_mem _ hc1)
          · simp only [h, if_false] at hc1
            rcases List.mem_cons.mp hc1 with h1 | h1
            · rw [h1]
              intro h0
              have := congrArg List.length h0
              rw [List.length_drop, List.length_nil] at this
              omega
            · exact hne c1 (List.mem_cons_of_mem _ h1)
        have hlen1 : (buf1.take s.pos ++ ch.take n).length = s.pos + n := by
          rw [List.length_append, List.length_take, List.length_take]
          omega
        have htake : (buf1.take s.pos ++ ch.take n ++ buf1.drop (s.pos + n)).take (s.pos + n)
            = s.buf.take s.pos ++ ch.take n := by
          rw [List.take_left' hlen1, hb1]
        have hbuf2 : (buf1.take s.pos ++ ch.take n ++ buf1.drop (s.pos + n)).take (s.pos + n)
            ++ (if ch.length ≤ n then rest else ch.drop n :: rest).flatten
            = (f :: fs1).flatten := by
          rw [htake, htl, ← hbuf, List.flatten_cons, List.append_assoc,
            ← List.append_assoc (ch.take n), List.take_append_drop]
        have hflen : s.pos + n ≤ (f :: fs1).flatten.length := by
          have := congrArg List.length hbuf2
          rw [List.length_append, htake, List.length_append, List.length_take,
            List.length_take] at this
          omega
        obtain ⟨s2, gs1, gs2, fcs2, new, hrun, hsplit, hcalls, hframed, hM2, hd2, hbl2,
            hpos2, hbuf3, hinc2, hdec2, hdel2, harr2⟩ :=
          recvFrames_spec Unpack sfuel cF M d hM
            (if ch.length ≤ n then rest else ch.drop n :: rest).flatten ifuel
            { s with buf := buf1.take s.pos ++ ch.take n ++ buf1.drop (s.pos + n),
                     pos := s.pos + n, arrived := s.arrived + n }
            (f :: fs1) (fc :: fcs1) off
            (by show s.pos + n < ifuel; omega) hMs hd
            (by show s.pos + n ≤
                  (buf1.take s.pos ++ ch.take n ++ buf1.drop (s.pos + n)).length
                rw [List.length_append, hlen1]; omega)
            hbuf2 hwf (List.Forall₂.cons hfc hdec1) hdel
            (by show s.arrived + n = off + (s.pos + n); omega)
        rw [hrun]
        simp only []
        have hpos2a : s2.pos + gs1.flatten.length = s.pos + n := hpos2
        have harr2a : s2.arrived = s.arrived + n := harr2
        have hfl : (f :: fs1).flatten.length = gs1.flatten.length + gs2.flatten.length := by
          rw [hsplit, List.flatten_append, List.length_append]
        obtain ⟨s3, new2, hrun3, hcalls3, hframed3, hpos3, hc3, harr3⟩ :=
          ih (if ch.length ≤ n then rest else ch.drop n :: rest) s2 gs2 fcs2
            (off + gs1.flatten.length)
            (by
              rw [htl, List.length_append, List.length_drop]
              rw [List.flatten_cons, List.length_append] at hfuel
              omega)
            (by omega) hne1 hM2 hd2 hbl2 hbuf3 hinc2
            (fun g hg => hwf g (by rw [hsplit]; exact List.mem_append_right _ hg))
            hdec2 hdel2 (by omega)
        refine ⟨s3, new ++ new2, hrun3, ?_, ?_, hpos3, hc3, ?_⟩
        · rw [hcalls3, hcalls, List.append_assoc]
        · rw [hsplit]
          exact framedFrom_append gs1 gs2 new new2 off hframed hframed3
        · rw [harr3]; omega

/-- C21, as stated, fails: the stream is two well-formed frames of 7 bytes, an Rread
with tag 9 and an Rread with tag 1, delivered in one read to a client with `msize` 8
whose outstanding requests have the tags 1 and 2. The loop decodes the first frame,
finds no request with tag 9, sets the engine error `unexpected response` and goes to
`closed`: the decoder has been called once and the second frame is never decoded. -/
theorem recv_stops_at_unmatched_reply :
    (∀ f ∈ [[7, 0, 0, 0, 117, 9, 0], [7, 0, 0, 0, 117, 1, 0]],
      4 < f.length ∧ f.length ≤ twoReqClnt.Msize ∧ Gint32 f = f.length) ∧
    (Clnt.recv headerUnpack 10 20 20 [[7, 0, 0, 0, 117, 9, 0, 7, 0, 0, 0, 117, 1, 0]]
      (RecvState.init twoReqClnt)).isClosed = true ∧
    (Clnt.recv headerUnpack 10 20 20 [[7, 0, 0, 0, 117, 9, 0, 7, 0, 0, 0, 117, 1, 0]]
      (RecvState.init twoReqClnt)).state.calls.map (fun call => (call.arrived, call.fcsize))
      = [(14, 7)] ∧
    (Clnt.recv headerUnpack 10 20 20 [[7, 0, 0, 0, 117, 9, 0, 7, 0, 0, 0, 117, 1, 0]]
      (RecvState.init twoReqClnt)).state.c.err = some (.mk "unexpected response" EINVAL) := by
  refine ⟨by decide, rfl, rfl, rfl⟩

/-- The length of the buffer wraps: with `msize` `2^29` the product `Msize*8` is 0 in
`uint32`, the buffer is empty, the read into it returns no byte and the loop panics
before it has called the decoder, whatever the stream. -/
theorem recv_buffer_length_wraps :
    (Clnt.recv headerUnpack 10 20 20 [[7, 0, 0, 0, 117, 1, 0]]
      (RecvState.init { twoReqClnt with Msize := 2 ^ 29 })).isPanic = true ∧
    (Clnt.recv headerUnpack 10 20 20 [[7, 0, 0, 0, 117, 1, 0]]
      (RecvState.init { twoReqClnt with Msize := 2 ^ 29 })).state.calls = [] := by
  refine ⟨rfl, rfl⟩

/-- C21, amended: let `Msize*8` not wrap in `uint32`, let the stream be the
concatenation of the frames `frames`, each longer than 4 bytes, at most `Msize` bytes
long and starting with its own little-endian length, let the decoder return for a
buffer that starts with a frame its message, no error and the length of the frame, and
let each of these replies, in order, be matched to an outstanding request. Then for
every splitting of the stream into non-empty chunks the receive loop, given enough
fuel, ends waiting in `Read` with an empty buffer, after exactly one decoder call for
each frame, in order (`framedFrom`): the buffer of the call starts with the frame,
the loop consumes the length of the frame, and the transport had delivered all bytes
of the frame by then. All bytes of the stream have been read, and the client is the
one after the replies were delivered one by one. -/
theorem recv_decodes_each_frame_once (c : Clnt)
    (Unpack : List Nat → Bool → Except Error Fcall × Nat)
    (frames : List (List Nat)) (fcs : List Fcall) (reads : List (List Nat))
    (sfuel ifuel fuel : Nat)
    (hM : c.Msize < 2 ^ 29)
    (hwf : ∀ f ∈ frames, 4 < f.length ∧ f.length ≤ c.Msize ∧ Gint32 f = f.length)
    (hdec : List.Forall₂
      (fun f fc => ∀ t, Unpack (f ++ t) c.Dotu = (Except.ok fc, f.length)) frames fcs)
    (hdel : (c.deliver sfuel fcs).isSome = true)
    (hne : ∀ ch ∈ reads, ch ≠ [])
    (hsplit : reads.flatten = frames.flatten)
    (hifuel : frames.flatten.length < ifuel) (hfuel : frames.flatten.length < fuel) :
    ∃ s, Clnt.recv Unpack sfuel ifuel fuel reads (RecvState.init c) = .waiting s ∧
      framedFrom 0 frames s.calls ∧ s.pos = 0 ∧ s.arrived = frames.flatten.length ∧
      some s.c = c.deliver sfuel fcs := by
  obtain ⟨cF, hcF⟩ := Option.isSome_iff_exists.mp hdel
  obtain ⟨s, new, hrun, hcalls, hframed, hpos, hc, harr⟩ :=
    recv_spec Unpack sfuel ifuel cF c.Msize c.Dotu hM fuel reads (RecvState.init c)
      frames fcs 0 (by rw [hsplit]; exact hfuel) hifuel hne rfl rfl (Nat.zero_le _)
      (by simpa [RecvState.init] using hsplit)
      (fun f fs3 h => by
        have := (hwf f (by rw [h]; exact List.mem_cons_self _ _)).1
        show 0 < f.length
        omega)
      hwf hdec hcF rfl
  refine ⟨s, hrun, ?_, hpos, ?_, ?_⟩
  · have : s.calls = new := by rw [hcalls]; rfl
    rw [this]; exact hframed
  · rw [harr, Nat.zero_add]
  · rw [hc, hcF]

/-- Witness of the amended C21: two frames of 7 bytes, the replies to the requests
with tag 2 and tag 1 of `twoReqClnt`, arrive in three reads of 3, 6 and 5 bytes that
cut through both frames; the loop makes one decoder call for each, after 9 and after
14 bytes have arrived. -/
theorem recv_decodes_each_frame_once_witness :
    ∃ s, Clnt.recv headerUnpack 10 20 20 [[7, 0, 0], [0, 117, 2, 0, 7, 0], [0, 0, 117, 1, 0]]
        (RecvState.init twoReqClnt) = .waiting s ∧
      framedFrom 0 [[7, 0, 0, 0, 117, 2, 0], [7, 0, 0, 0, 117, 1, 0]] s.calls ∧ s.pos = 0 ∧
      s.arrived = [[7, 0, 0, 0, 117, 2, 0], [7, 0, 0, 0, 117, 1, 0]].flatten.length ∧
      some s.c = twoReqClnt.deliver 10 [{ Typ := 117, Tag := 2 }, { Typ := 117, Tag := 1 }] :=
  recv_decodes_each_frame_once twoReqClnt headerUnpack
    [[7, 0, 0, 0, 117, 2, 0], [7, 0, 0, 0, 117, 1, 0]]
    [{ Typ := 117, Tag := 2 }, { Typ := 117, Tag := 1 }]
    [[7, 0, 0], [0, 117, 2, 0, 7, 0], [0, 0, 117, 1, 0]] 10 20 20
    (by decide) (by decide)
    (List.Forall₂.cons (fun _ => rfl) (List.Forall₂.cons (fun _ => rfl) List.Forall₂.nil))
    (by decide) (by decide) (by decide) (by decide) (by decide)

end Ixp
